import Mathlib

/-!
Cookie permission manager: policy resolution and consent prompt.

A shallow embedding of `cookie-permission-manager.c`.

* A C string is the list of its characters, the terminating NUL left out.
* The `policies` table is the list of its rows.
* The library routines the code calls (`g_ascii_strcasecmp`,
  `g_str_has_suffix`, `soup_cookie_domain_matches`, the `LIKE` operator and
  `ORDER BY` of SQLite, `g_slist_sort`) are modelled after their documented
  behaviour.
* The modal dialog is a function from the message shown to the response id
  it returns.
* The cookie jar is the list of the cookies it holds. The response handler
  is embedded twice: once as the sequence of its own calls, and once on the
  jar, where a cookie added to the jar makes the jar emit `changed` and the
  handler of that signal runs before the next call. The session cleanup
  exists in two variants, chosen by `HAVE_LIBSOUP_2_40_0`; a loop that may not
  end runs on fuel, and what `soup_cookie_jar_get_cookie_list` returns is a
  parameter.
-/

namespace CookiePermissionManager

/-! ## Strings -/

/-- ASCII lower-casing as done by `g_ascii_tolower` (and by the `LIKE`
operator of SQLite): only `A`..`Z` are folded. The result is the character
code. -/
def g_ascii_tolower (c : Char) : Nat :=
  if 65 ≤ c.toNat ∧ c.toNat ≤ 90 then c.toNat + 32 else c.toNat

/-- Model of `g_ascii_strcasecmp`: the sign of the comparison of the two
strings, ASCII case ignored (`eq` stands for the result `0`, `lt` for a
negative and `gt` for a positive result). -/
def g_ascii_strcasecmp : List Char → List Char → Ordering
  | [], [] => Ordering.eq
  | [], _ :: _ => Ordering.lt
  | _ :: _, [] => Ordering.gt
  | c1 :: s1, c2 :: s2 =>
    if g_ascii_tolower c1 < g_ascii_tolower c2 then Ordering.lt
    else if g_ascii_tolower c2 < g_ascii_tolower c1 then Ordering.gt
    else g_ascii_strcasecmp s1 s2

/-- Model of `g_str_has_suffix str suffix` (exact, case-sensitive). -/
def g_str_has_suffix (str suffix : List Char) : Bool :=
  suffix.isSuffixOf str

/-- Helper of `sqlite3_like`: does `f` accept some tail of the string? This
is what `%` in a pattern does. -/
def like_any_tail (f : List Char → Bool) : List Char → Bool
  | [] => f []
  | c :: s => f (c :: s) || like_any_tail f s

/-- Model of the SQLite expression `str LIKE pattern` (default settings: no
escape character, ASCII case ignored): `%` stands for any run of characters,
`_` for exactly one character. -/
def sqlite3_like : (pattern str : List Char) → Bool
  | [], str => str.isEmpty
  | p :: ps, str =>
    if p = '%' then like_any_tail (sqlite3_like ps) str
    else
      match str with
      | [] => false
      | c :: cs => (p = '_' || g_ascii_tolower p = g_ascii_tolower c) && sqlite3_like ps cs

/-- Byte-wise comparison `a ≥ b` of two strings, the order of SQLite's default
(BINARY) collation, used by `ORDER BY domain DESC`. -/
def binary_ge : List Char → List Char → Bool
  | _, [] => true
  | [], _ :: _ => false
  | a :: as, b :: bs => b.toNat < a.toNat || (a.toNat = b.toNat && binary_ge as bs)

/-! ## Data model -/

/-- Modelled from the spec: the header `cookie-permission-manager.h`, which
declares the enumeration `COOKIE_PERMISSION_MANAGER_POLICY_*`, is not among
the sources, so the four codes are a parameter. They are pairwise distinct
(they label the cases of one `switch`), and the three choices, which are the
response ids of the dialog buttons, are not negative ("small integers", and a
negative response id means that the dialog was closed without a choice). -/
structure PolicyCodes where
  undetermined : Int
  accept : Int
  accept_for_session : Int
  block : Int
  distinct : [undetermined, accept, accept_for_session, block].Nodup
  nonneg : 0 ≤ accept ∧ 0 ≤ accept_for_session ∧ 0 ≤ block

/-- The numbering a C compiler gives the enumeration when it is declared in
the order undetermined, accept, accept for session, block. -/
def enum_codes : PolicyCodes :=
  ⟨0, 1, 2, 3, by decide, by decide⟩

/-- A row of the table `policies(domain text, value integer)`. -/
structure PolicyRow where
  domain : List Char
  value : Int
  deriving DecidableEq, Repr

/-- The table `policies`: its rows. -/
abbrev Store := List PolicyRow

/-- The unique index `domain ON policies (domain)`: no two rows carry the
same (byte-identical) domain. -/
def unique_index (db : Store) : Prop :=
  db.Pairwise (fun r s => r.domain ≠ s.domain)

/-- A cookie; only its domain takes part in the policy decision. -/
structure SoupCookie where
  domain : List Char
  name : List Char
  deriving DecidableEq, Repr

/-- Model of `soup_host_matches_host host compare_with` of libsoup, the body
of `soup_cookie_domain_matches`: the two are equal (ASCII case ignored), or
`host` starts with a dot and `compare_with` equals the rest of it or ends
with the whole of it. -/
def soup_host_matches_host (host compare_with : List Char) : Bool :=
  if g_ascii_strcasecmp host compare_with = Ordering.eq then true
  else
    match host with
    | [] => false
    | c :: rest =>
      if c ≠ '.' then false
      else if g_ascii_strcasecmp rest compare_with = Ordering.eq then true
      else g_str_has_suffix compare_with host

/-- Model of `soup_cookie_domain_matches cookie host` of libsoup: the
cookie's domain is the pattern, `host` is what is tested against it. -/
def soup_cookie_domain_matches (cookie : SoupCookie) (host : List Char) : Bool :=
  soup_host_matches_host cookie.domain host

/-! ## Policy lookup -/

/-- The rows returned by
`SELECT domain, value FROM policies WHERE domain LIKE ? ORDER BY domain DESC`. -/
def select_like (db : Store) (pattern : List Char) : List PolicyRow :=
  (db.filter (fun r => sqlite3_like pattern r.domain)).insertionSort
    (fun r s => binary_ge r.domain s.domain = true)

/-- The `while` loop of `_cookie_permission_manager_get_policy`: as long as
the policy is undetermined, step to the next row and take its value when the
cookie matches its domain. -/
def get_policy_loop (k : PolicyCodes) (inCookie : SoupCookie) : Int → List PolicyRow → Int
  | policy, [] => policy
  | policy, row :: rows =>
    if policy = k.undetermined then
      if soup_cookie_domain_matches inCookie row.domain then
        get_policy_loop k inCookie row.value rows
      else get_policy_loop k inCookie policy rows
    else policy

/-- The query parameter built by `_cookie_permission_manager_get_policy`: a
copy of the cookie's domain with a leading `.` turned into `%`
(`if(*domain=='.') *domain='%'`). -/
def like_pattern (inCookie : SoupCookie) : List Char :=
  match inCookie.domain with
  | [] => []
  | c :: rest => if c = '.' then '%' :: rest else c :: rest

/-- Embedding of `_cookie_permission_manager_get_policy`; `database` is
`none` when the database is not open. -/
def _cookie_permission_manager_get_policy (k : PolicyCodes) (database : Option Store)
    (inCookie : SoupCookie) : Int :=
  match database with
  | none => k.undetermined
  | some db => get_policy_loop k inCookie k.undetermined (select_like db (like_pattern inCookie))

/-- The execution of `INSERT OR REPLACE INTO policies (domain, value)`: the
row with the same domain, if any, is dropped and the new row is added. -/
def insert_or_replace (db : Store) (domain : List Char) (value : Int) : Store :=
  db.filter (fun r => r.domain ≠ domain) ++ [⟨domain, value⟩]

/-! ## The consent prompt -/

/-- The pointer step `if(*domain=='.') domain++`: one leading dot is
skipped. -/
def skip_dot (domain : List Char) : List Char :=
  match domain with
  | [] => []
  | c :: rest => if c = '.' then rest else c :: rest

/-- Embedding of `_cookie_permission_manager_sort_cookies_by_domain`: the
sign of the case-insensitive comparison of the two domains, a leading dot
skipped on both sides. -/
def _cookie_permission_manager_sort_cookies_by_domain (inLeft inRight : SoupCookie) : Ordering :=
  g_ascii_strcasecmp (skip_dot inLeft.domain) (skip_dot inRight.domain)

/-- Model of `g_slist_sort` of GLib, a stable sort: an element stays before
the elements it compares equal to. Insertion at the front of the first
element that is not smaller gives that order. -/
def g_slist_sort (list : List SoupCookie) (compare : SoupCookie → SoupCookie → Ordering) :
    List SoupCookie :=
  list.insertionSort (fun a b => compare a b ≠ Ordering.gt)

/-- The test `!lastDomain || g_ascii_strcasecmp(lastDomain, cookieDomain)!=0`
of both loops over the sorted cookies; `none` stands for `NULL`. -/
def is_new_domain (lastDomain : Option (List Char)) (cookieDomain : List Char) : Bool :=
  match lastDomain with
  | none => true
  | some last => g_ascii_strcasecmp last cookieDomain != Ordering.eq

/-- The counting loop of
`_cookie_permission_manager_get_number_domains_and_cookies`; the state is
`lastDomain`, `domains` and `cookies`. The counters are natural numbers: a
list is far shorter than the range of `gint`. -/
def count_loop : Option (List Char) → Nat → Nat → List SoupCookie → Nat × Nat
  | _, domains, cookies, [] => (domains, cookies)
  | lastDomain, domains, cookies, cookie :: rest =>
    let cookieDomain := cookie.domain
    if is_new_domain lastDomain cookieDomain then
      count_loop (some cookieDomain) (domains + 1) (cookies + 1) rest
    else count_loop lastDomain domains (cookies + 1) rest

/-- Embedding of `_cookie_permission_manager_get_number_domains_and_cookies`:
the sorted copy, the number of domains and the number of cookies. -/
def _cookie_permission_manager_get_number_domains_and_cookies (inCookies : List SoupCookie) :
    List SoupCookie × Nat × Nat :=
  let sortedList := g_slist_sort inCookies _cookie_permission_manager_sort_cookies_by_domain
  (sortedList, count_loop none 0 0 sortedList)

/-- The text of the confirmation dialog. -/
inductive Message where
  /-- The website %s wants to store %d cookies. -/
  | website_cookies (domain : List Char) (numberCookies : Nat)
  /-- The website %s wants to store a cookie. -/
  | website_cookie (domain : List Char)
  /-- Multiple websites want to store %d cookies in total. -/
  | multiple_websites (numberCookies : Nat)
  deriving DecidableEq, Repr

/-- What the code does to the outside, in the order it does it. -/
inductive Event where
  /-- The dialog of `_cookie_permission_manager_ask_for_policy` is run for
  the list of cookies it was called with. -/
  | ask (inUnknownCookies : List SoupCookie) (message : Message)
  /-- An `INSERT OR REPLACE INTO policies` statement is executed. -/
  | insert_or_replace (domain : List Char) (value : Int)
  /-- A call of `soup_cookie_jar_add_cookie`; what the jar and the handler of
  its `changed` signal do at that call is not part of the event. -/
  | jar_add (cookie : SoupCookie)
  /-- A call of `soup_cookie_jar_delete_cookie`. -/
  | jar_delete (cookie : SoupCookie)
  deriving DecidableEq, Repr

/-- The message built at the start of
`_cookie_permission_manager_ask_for_policy`. With one domain counted the
sorted list has a first cookie. -/
def build_message (sortedCookies : List SoupCookie) (numberDomains numberCookies : Nat) :
    Message :=
  if numberDomains = 1 then
    match sortedCookies with
    | cookie :: _ =>
      if numberCookies > 1 then Message.website_cookies (skip_dot cookie.domain) numberCookies
      else Message.website_cookie (skip_dot cookie.domain)
    | [] => Message.multiple_websites numberCookies
  else Message.multiple_websites numberCookies

/-- The loop of `_cookie_permission_manager_ask_for_policy` that stores the
decision: the rows it writes, in order; the state is `lastDomain`. -/
def store_loop (response : Int) : Option (List Char) → List SoupCookie → List PolicyRow
  | _, [] => []
  | lastDomain, cookie :: rest =>
    let cookieDomain := skip_dot cookie.domain
    if is_new_domain lastDomain cookieDomain then
      ⟨cookieDomain, response⟩ :: store_loop response (some cookieDomain) rest
    else store_loop response lastDomain rest

/-- The effect of a list of `INSERT OR REPLACE` statements on the database;
on a database that is not open every statement fails and nothing changes. -/
def exec_writes (database : Option Store) (writes : List PolicyRow) : Option Store :=
  database.map (fun db => writes.foldl (fun d w => insert_or_replace d w.domain w.value) db)

/-- What a call of `_cookie_permission_manager_ask_for_policy` yields. -/
structure AskResult where
  /-- the value returned -/
  policy : Int
  /-- the database afterwards -/
  database : Option Store
  /-- the dialog run and the statements executed -/
  events : List Event
  deriving DecidableEq, Repr

/-- The rows written by `_cookie_permission_manager_ask_for_policy` for a
response: none when the response is negative. -/
def ask_writes (sortedCookies : List SoupCookie) (response : Int) : List PolicyRow :=
  if response ≥ 0 then store_loop response none sortedCookies else []

/-- The message `_cookie_permission_manager_ask_for_policy` shows for a list
of cookies (lines 341-360). -/
def ask_message (inUnknownCookies : List SoupCookie) : Message :=
  let counted := _cookie_permission_manager_get_number_domains_and_cookies inUnknownCookies
  build_message counted.1 counted.2.1 counted.2.2

/-- Embedding of `_cookie_permission_manager_ask_for_policy`.
`gtk_dialog_run` gives the response id of the dialog for the message shown: a
button's policy code, or a negative number when the dialog is closed. -/
def _cookie_permission_manager_ask_for_policy (k : PolicyCodes) (gtk_dialog_run : Message → Int)
    (database : Option Store) (inUnknownCookies : List SoupCookie) : AskResult :=
  let counted := _cookie_permission_manager_get_number_domains_and_cookies inUnknownCookies
  let sortedCookies := counted.1
  let message := ask_message inUnknownCookies
  let response := gtk_dialog_run message
  let writes := ask_writes sortedCookies response
  { policy := if response ≥ 0 then response else k.block
    database := exec_writes database writes
    events := Event.ask inUnknownCookies message ::
      writes.map (fun w => Event.insert_or_replace w.domain w.value) }

/-! ## The response handler -/

/-- The accept policy of the cookie jar (`SoupCookieJarAcceptPolicy`). -/
inductive SoupCookieJarAcceptPolicy where
  | always
  | never
  | no_third_party
  deriving DecidableEq, Repr

/-- A URI; only its host is read, and it may be missing. -/
structure SoupURI where
  host : Option (List Char)
  deriving DecidableEq, Repr

/-- What the handler reads from the message: the cookies of the response
(`soup_cookies_from_response`) and the first party
(`soup_message_get_first_party`). -/
structure SoupMessage where
  cookies : List SoupCookie
  first_party : Option SoupURI
  deriving DecidableEq, Repr

/-- The condition of lines 513-517 and 526-530: the jar accepts no third
party and the cookie matches the host of the first party, or the jar accepts
every cookie. -/
def passes_accept_policy (cookiePolicy : SoupCookieJarAcceptPolicy) (firstParty : Option SoupURI)
    (cookie : SoupCookie) : Bool :=
  (cookiePolicy = SoupCookieJarAcceptPolicy.no_third_party &&
    (match firstParty with
     | none => false
     | some uri =>
       match uri.host with
       | none => false
       | some host => soup_cookie_domain_matches cookie host)) ||
  cookiePolicy = SoupCookieJarAcceptPolicy.always

/-- The classification loop of
`_cookie_permission_manager_process_set_cookie_header`; the state is the pair
`(unknownCookies, acceptedCookies)`, both built by prepending. -/
def classify_loop (k : PolicyCodes) (database : Option Store)
    (cookiePolicy : SoupCookieJarAcceptPolicy) (firstParty : Option SoupURI) :
    List SoupCookie → List SoupCookie × List SoupCookie → List SoupCookie × List SoupCookie
  | [], lists => lists
  | cookie :: rest, (unknownCookies, acceptedCookies) =>
    let policy := _cookie_permission_manager_get_policy k database cookie
    if policy = k.block then
      classify_loop k database cookiePolicy firstParty rest (unknownCookies, acceptedCookies)
    else if policy = k.accept ∨ policy = k.accept_for_session then
      if passes_accept_policy cookiePolicy firstParty cookie then
        classify_loop k database cookiePolicy firstParty rest
          (unknownCookies, cookie :: acceptedCookies)
      else classify_loop k database cookiePolicy firstParty rest (unknownCookies, acceptedCookies)
    else
      if passes_accept_policy cookiePolicy firstParty cookie then
        classify_loop k database cookiePolicy firstParty rest
          (cookie :: unknownCookies, acceptedCookies)
      else classify_loop k database cookiePolicy firstParty rest (unknownCookies, acceptedCookies)

/-- Lines 503-544 of `_cookie_permission_manager_process_set_cookie_header`:
the classification loop started with two empty lists, then the two reversals;
the result is `(unknownCookies, acceptedCookies)`. -/
def classified (k : PolicyCodes) (database : Option Store)
    (cookiePolicy : SoupCookieJarAcceptPolicy) (inMessage : SoupMessage) :
    List SoupCookie × List SoupCookie :=
  let lists := classify_loop k database cookiePolicy inMessage.first_party inMessage.cookies
    ([], [])
  (lists.1.reverse, lists.2.reverse)

/-- Embedding of `_cookie_permission_manager_process_set_cookie_header` as
far as its own calls go: the database after them and the calls, in order.
`cookiePolicy` is the accept policy read from the cookie jar. The jar itself,
the `changed` signal that each `soup_cookie_jar_add_cookie` emits and the
handler connected to that signal (line 743) are taken along by
`process_set_cookie_header_with_signal`. -/
def _cookie_permission_manager_process_set_cookie_header (k : PolicyCodes)
    (gtk_dialog_run : Message → Int) (database : Option Store)
    (cookiePolicy : SoupCookieJarAcceptPolicy) (inMessage : SoupMessage) :
    Option Store × List Event :=
  if cookiePolicy = SoupCookieJarAcceptPolicy.never then (database, [])
  else
    let unknownCookies := (classified k database cookiePolicy inMessage).1
    let acceptedCookies := (classified k database cookiePolicy inMessage).2
    if unknownCookies.length > 0 then
      let asked := _cookie_permission_manager_ask_for_policy k gtk_dialog_run database
        unknownCookies
      let unknownCookiesPolicy := asked.policy
      if unknownCookiesPolicy = k.accept ∨ unknownCookiesPolicy = k.accept_for_session then
        (asked.database,
          asked.events ++ unknownCookies.map Event.jar_add ++ acceptedCookies.map Event.jar_add)
      else (asked.database, asked.events ++ acceptedCookies.map Event.jar_add)
    else (database, acceptedCookies.map Event.jar_add)

/-! ## Cookies changed outside a request -/

/-- Embedding of `_cookie_permission_manager_on_cookie_changed`: the database
afterwards and the events, in order; `none` stands for a `NULL` cookie. The
`switch` has no `default` label: a policy that is none of the four codes
falls through it. -/
def _cookie_permission_manager_on_cookie_changed (k : PolicyCodes)
    (gtk_dialog_run : Message → Int) (database : Option Store)
    (inOldCookie inNewCookie : Option SoupCookie) : Option Store × List Event :=
  match inNewCookie, inOldCookie with
  | none, _ => (database, [])
  | some _, some _ => (database, [])
  | some newCookie, none =>
    let policy := _cookie_permission_manager_get_policy k database newCookie
    if policy = k.block then (database, [Event.jar_delete newCookie])
    else if policy = k.undetermined then
      let newCookies := [newCookie]
      let asked := _cookie_permission_manager_ask_for_policy k gtk_dialog_run database newCookies
      let newCookiePolicy := asked.policy
      if newCookiePolicy = k.block then
        (asked.database, asked.events ++ [Event.jar_delete newCookie])
      else (asked.database, asked.events)
    else (database, [])

/-! ## Opening the database and the session cleanup -/

/-- The cookie jar: the cookies it holds. -/
abbrev CookieJar := List SoupCookie

/-- Model of `soup_cookie_jar_delete_cookie`: the cookie equal to the given
one leaves the jar. -/
def soup_cookie_jar_delete_cookie (jar : CookieJar) (cookie : SoupCookie) : CookieJar :=
  jar.filter (fun c => c ≠ cookie)

/-- The domains returned by
`SELECT domain FROM policies WHERE value=? ORDER BY domain DESC`. -/
def select_domains (db : Store) (value : Int) : List (List Char) :=
  ((db.filter (fun r => r.value = value)).insertionSort
    (fun r s => binary_ge r.domain s.domain = true)).map (fun r => r.domain)

/-- The cookie loop of the variant without `HAVE_LIBSOUP_2_40_0` (lines
210-219) for one domain: it walks the list returned by
`soup_cookie_jar_all_cookies` and deletes from the jar each cookie that
matches the domain. -/
def cleanup_cookie_loop (domain : List Char) : List SoupCookie → CookieJar → CookieJar
  | [], jar => jar
  | cookie :: next, jar =>
    if soup_cookie_domain_matches cookie domain then
      cleanup_cookie_loop domain next (soup_cookie_jar_delete_cookie jar cookie)
    else cleanup_cookie_loop domain next jar

/-- The `while` loop over the selected domains in the variant without
`HAVE_LIBSOUP_2_40_0`; `soup_cookie_jar_all_cookies` gives the cookies the
jar holds at that moment. -/
def cleanup_domains (domains : List (List Char)) (jar : CookieJar) : CookieJar :=
  domains.foldl (fun j domain => cleanup_cookie_loop domain j j) jar

/-- The cookie loop of the variant with `HAVE_LIBSOUP_2_40_0` (lines
199-205), `for(cookie=cookies; cookie; cookie->next)`: the third expression
reads `cookie->next` and drops it, so `cookie` keeps its value from one
iteration to the next. The loop runs on fuel; `none` says the fuel ran out
before the loop ended. -/
def cleanup_cookie_loop_2_40 : Nat → List SoupCookie → CookieJar → Option CookieJar
  | 0, _, _ => none
  | _ + 1, [], jar => some jar
  | fuel + 1, cookie :: next, jar =>
    cleanup_cookie_loop_2_40 fuel (cookie :: next) (soup_cookie_jar_delete_cookie jar cookie)

/-- The `while` loop over the selected domains in the variant with
`HAVE_LIBSOUP_2_40_0`. What `soup_cookie_jar_get_cookie_list` returns for the
URI made of the domain is a parameter. -/
def cleanup_domains_2_40 (soup_cookie_jar_get_cookie_list : CookieJar → List Char → List SoupCookie)
    (fuel : Nat) : List (List Char) → CookieJar → Option CookieJar
  | [], jar => some jar
  | domain :: rest, jar =>
    match cleanup_cookie_loop_2_40 fuel (soup_cookie_jar_get_cookie_list jar domain) jar with
    | none => none
    | some jar2 => cleanup_domains_2_40 soup_cookie_jar_get_cookie_list fuel rest jar2

/-- Lines 177-226 of `_cookie_permission_manager_open_database`: the cookies of
the domains accepted for one session are deleted from the jar. The flag says
which variant was compiled; the statement is taken to succeed on the open
database. The result is the jar afterwards, `none` when the fuel ran out. -/
def session_cleanup (k : PolicyCodes) (HAVE_LIBSOUP_2_40_0 : Bool)
    (soup_cookie_jar_get_cookie_list : CookieJar → List Char → List SoupCookie) (fuel : Nat)
    (db : Store) (jar : CookieJar) : Option CookieJar :=
  if HAVE_LIBSOUP_2_40_0 then
    cleanup_domains_2_40 soup_cookie_jar_get_cookie_list fuel
      (select_domains db k.accept_for_session) jar
  else some (cleanup_domains (select_domains db k.accept_for_session) jar)

/-- What `sqlite3_open` does: it succeeds and yields the handle of a
database with its rows, or it fails, with or without a handle allocated. -/
inductive SqliteOpen where
  | ok (db : Store)
  | failed (handle_allocated : Bool)
  deriving DecidableEq, Repr

/-- What one `sqlite3_exec` yields: whether the result code is `SQLITE_OK`
and whether an error message was set. -/
structure SqliteExec where
  rc_ok : Bool
  error_set : Bool
  deriving DecidableEq, Repr

/-- What `_cookie_permission_manager_open_database` meets outside: the
configuration directory (`none` for `NULL`), whether
`katze_mkdir_with_parents` fails, what `sqlite3_open` does and what the three
schema statements yield. -/
structure OpenEnvironment where
  configDir : Option (List Char)
  mkdir_fails : Bool
  sqlite_open : SqliteOpen
  create_table : SqliteExec
  create_index : SqliteExec
  journal_mode : SqliteExec
  deriving DecidableEq, Repr

/-- The reasons handed to `_cookie_permission_manager_error`. -/
inductive ErrorReason where
  /-- Could not get path to configuration of extension. -/
  | config_path
  /-- Could not create configuration folder for extension. -/
  | config_folder
  /-- Could not open database of extension. -/
  | open_database
  /-- Could not set up database structure of extension. -/
  | database_structure
  deriving DecidableEq, Repr

/-- The state `_cookie_permission_manager_open_database` leaves: the handle
`priv->database` (`none` for `NULL`), the jar, the calls of
`_cookie_permission_manager_error` in order, and the number of handles closed
with `sqlite3_close`. -/
structure OpenResult where
  database : Option Store
  jar : CookieJar
  errors : List ErrorReason
  closed : Nat
  deriving DecidableEq, Repr

/-- The three schema statements of lines 136-160 and the test of line 162:
a statement runs when the one before returned `SQLITE_OK`, `error` is what
the last statement run left, and the result says whether
`success!=SQLITE_OK || error` holds. -/
def schema_fails (env : OpenEnvironment) : Bool :=
  if env.create_table.rc_ok then
    if env.create_index.rc_ok then
      !env.journal_mode.rc_ok || env.journal_mode.error_set
    else true
  else true

/-- Lines 98-175 of `_cookie_permission_manager_open_database`: everything
before the session cleanup. `database` is the handle held on entry. -/
def open_database_setup (env : OpenEnvironment) (database : Option Store) (jar : CookieJar) :
    OpenResult :=
  let closed := if database.isSome then 1 else 0
  match env.configDir with
  | none => ⟨none, jar, [ErrorReason.config_path], closed⟩
  | some _ =>
    if env.mkdir_fails then ⟨none, jar, [ErrorReason.config_folder], closed⟩
    else
      match env.sqlite_open with
      | SqliteOpen.failed handle_allocated =>
        ⟨none, jar, [ErrorReason.open_database],
          closed + (if handle_allocated then 1 else 0)⟩
      | SqliteOpen.ok db =>
        if schema_fails env then ⟨none, jar, [ErrorReason.database_structure], closed + 1⟩
        else ⟨some db, jar, [], closed⟩

/-- Embedding of `_cookie_permission_manager_open_database`: the set-up, and
when it left the database open, the session cleanup. `none` says the fuel ran
out before the function returned. -/
def _cookie_permission_manager_open_database (k : PolicyCodes) (HAVE_LIBSOUP_2_40_0 : Bool)
    (soup_cookie_jar_get_cookie_list : CookieJar → List Char → List SoupCookie) (fuel : Nat)
    (env : OpenEnvironment) (database : Option Store) (jar : CookieJar) : Option OpenResult :=
  let opened := open_database_setup env database jar
  match opened.database with
  | none => some opened
  | some db =>
    match session_cleanup k HAVE_LIBSOUP_2_40_0 soup_cookie_jar_get_cookie_list fuel db jar with
    | none => none
    | some jar2 => some { opened with jar := jar2 }

/-! ## The preferences window: deleting rows -/

/-- The execution of `DELETE FROM policies WHERE domain='...'`: the row with
that very domain leaves the table. -/
def delete_where_domain (db : Store) (domain : List Char) : Store :=
  db.filter (fun r => r.domain ≠ domain)

/-- Embedding of `_cookie_permission_manager_preferences_on_delete_selection`
in what it does to the table: one `DELETE` statement per selected row of the
list, with the domain shown in that row. -/
def _cookie_permission_manager_preferences_on_delete_selection (database : Option Store)
    (selected : List (List Char)) : Option Store :=
  database.map (fun db => selected.foldl delete_where_domain db)

/-- The response id `GTK_RESPONSE_NO` of GTK. -/
def GTK_RESPONSE_NO : Int := -9

/-- Embedding of `_cookie_permission_manager_preferences_on_delete_all` in
what it does to the table: unless the dialog is answered with No,
`DELETE FROM policies` empties the table. -/
def _cookie_permission_manager_preferences_on_delete_all (database : Option Store)
    (dialogResponse : Int) : Option Store :=
  if dialogResponse = GTK_RESPONSE_NO then database
  else database.map (fun _ => [])

/-- The operations that touch the table, each run to its end before the next
one starts. -/
inductive Operation where
  /-- a response with cookies is handled -/
  | process_set_cookie_header (gtk_dialog_run : Message → Int)
      (cookiePolicy : SoupCookieJarAcceptPolicy) (inMessage : SoupMessage)
  /-- the jar reports a change -/
  | on_cookie_changed (gtk_dialog_run : Message → Int)
      (inOldCookie inNewCookie : Option SoupCookie)
  /-- rows are deleted in the preferences window -/
  | on_delete_selection (selected : List (List Char))
  /-- all rows are deleted in the preferences window -/
  | on_delete_all (dialogResponse : Int)

/-- The table after one operation. -/
def apply_operation (k : PolicyCodes) (database : Option Store) : Operation → Option Store
  | Operation.process_set_cookie_header gtk_dialog_run cookiePolicy inMessage =>
    (_cookie_permission_manager_process_set_cookie_header k gtk_dialog_run database cookiePolicy
      inMessage).1
  | Operation.on_cookie_changed gtk_dialog_run inOldCookie inNewCookie =>
    (_cookie_permission_manager_on_cookie_changed k gtk_dialog_run database inOldCookie
      inNewCookie).1
  | Operation.on_delete_selection selected =>
    _cookie_permission_manager_preferences_on_delete_selection database selected
  | Operation.on_delete_all dialogResponse =>
    _cookie_permission_manager_preferences_on_delete_all database dialogResponse

/-- The table after a sequence of operations. -/
def run_operations (k : PolicyCodes) (database : Option Store) (ops : List Operation) :
    Option Store :=
  ops.foldl (apply_operation k) database

/-! ## Definitions used to state the properties -/

/-- The loop of `_cookie_permission_manager_get_policy` once more, carrying
next to `policy` the row whose value was last assigned to it (line 262);
`none` as long as nothing was assigned. -/
def get_policy_loop_row (k : PolicyCodes) (inCookie : SoupCookie) :
    Int × Option PolicyRow → List PolicyRow → Int × Option PolicyRow
  | state, [] => state
  | (policy, source), row :: rows =>
    if policy = k.undetermined then
      if soup_cookie_domain_matches inCookie row.domain then
        get_policy_loop_row k inCookie (row.value, some row) rows
      else get_policy_loop_row k inCookie (policy, source) rows
    else (policy, source)

/-- The stored row that decided the lookup of `inCookie`, if any. -/
def deciding_row (k : PolicyCodes) (database : Option Store) (inCookie : SoupCookie) :
    Option PolicyRow :=
  match database with
  | none => none
  | some db =>
    (get_policy_loop_row k inCookie (k.undetermined, none)
      (select_like db (like_pattern inCookie))).2

/-- A stored row covers a cookie when it is a `LIKE` candidate for the
cookie's query parameter and passes the domain match test. -/
def covers (inCookie : SoupCookie) (row : PolicyRow) : Bool :=
  sqlite3_like (like_pattern inCookie) row.domain &&
    soup_cookie_domain_matches inCookie row.domain

/-- The resolution in the words of the specification: the first row, in
descending byte-wise order of the stored domain, among the rows that cover the
cookie. -/
def first_covering_row (db : Store) (inCookie : SoupCookie) : Option PolicyRow :=
  ((db.filter (covers inCookie)).insertionSort
    (fun r s => binary_ge r.domain s.domain = true)).head?

/-- The decision in the words of the specification: that of the first
covering row, undetermined when there is none. -/
def resolve_spec (k : PolicyCodes) (db : Store) (inCookie : SoupCookie) : Int :=
  match first_covering_row db inCookie with
  | some row => row.value
  | none => k.undetermined

/-- Coverage in the direction the specification words it: the cookie's
domain, a leading dot skipped, equals the stored pattern (ASCII case ignored)
or ends with a dot followed by the pattern. -/
def cookie_under_pattern (cookieDomain pattern : List Char) : Bool :=
  g_ascii_strcasecmp (skip_dot cookieDomain) pattern = Ordering.eq ||
    g_str_has_suffix (skip_dot cookieDomain) ('.' :: pattern)

/-- The rows of the `INSERT OR REPLACE` statements among the events, in
order. -/
def sql_writes (events : List Event) : List PolicyRow :=
  events.filterMap (fun e =>
    match e with
    | Event.insert_or_replace domain value => some ⟨domain, value⟩
    | _ => none)

/-- The lists of cookies the dialog was run for, in order. -/
def prompts (events : List Event) : List (List SoupCookie) :=
  events.filterMap (fun e =>
    match e with
    | Event.ask inUnknownCookies _ => some inUnknownCookies
    | _ => none)

/-- The cookies handed to `soup_cookie_jar_add_cookie`, in order. -/
def jar_additions (events : List Event) : List SoupCookie :=
  events.filterMap (fun e =>
    match e with
    | Event.jar_add cookie => some cookie
    | _ => none)

/-- The ASCII case fold of a string, as the list of its character codes: two
strings compare equal under `g_ascii_strcasecmp` when their folds are equal. -/
def casefold (s : List Char) : List Nat :=
  s.map g_ascii_tolower

/-- The domain of a cookie as the batch compares it: one leading dot skipped,
ASCII case folded. -/
def domain_key (cookie : SoupCookie) : List Nat :=
  casefold (skip_dot cookie.domain)

/-- Lexicographic order `a ≤ b` on case folds. -/
def key_le : List Nat → List Nat → Bool
  | [], _ => true
  | _ :: _, [] => false
  | a :: as, b :: bs => a < b || (a = b && key_le as bs)

/-- The domain of a written row as the batch compares it. -/
def row_key (w : PolicyRow) : List Nat :=
  casefold w.domain

/-- The cookies of a response that resolve to undetermined and pass the
accept policy of the jar, in the order of the response. -/
def undetermined_batch (k : PolicyCodes) (database : Option Store)
    (cookiePolicy : SoupCookieJarAcceptPolicy) (inMessage : SoupMessage) : List SoupCookie :=
  inMessage.cookies.filter (fun c =>
    decide (_cookie_permission_manager_get_policy k database c = k.undetermined) &&
      passes_accept_policy cookiePolicy inMessage.first_party c)

/-- The `case` labels for accept and accept for session of the `switch` on
the policy. -/
def policy_is_accepted (k : PolicyCodes) (database : Option Store) (c : SoupCookie) : Bool :=
  decide (_cookie_permission_manager_get_policy k database c = k.accept ∨
    _cookie_permission_manager_get_policy k database c = k.accept_for_session)

/-- The branch `case ..._UNDETERMINED: default:` of the `switch` on the
policy: every value that is none of block, accept, accept for session. -/
def policy_is_unknown (k : PolicyCodes) (database : Option Store) (c : SoupCookie) : Bool :=
  decide (_cookie_permission_manager_get_policy k database c ≠ k.block ∧
    _cookie_permission_manager_get_policy k database c ≠ k.accept ∧
    _cookie_permission_manager_get_policy k database c ≠ k.accept_for_session)

/-- The store holds decisions only: every row carries accept, accept for
session or block. -/
def valid_store (k : PolicyCodes) (database : Option Store) : Prop :=
  ∀ db, database = some db → ∀ r ∈ db,
    r.value = k.accept ∨ r.value = k.accept_for_session ∨ r.value = k.block

/-- The cookies handed to `soup_cookie_jar_delete_cookie`, in order. -/
def jar_deletions (events : List Event) : List SoupCookie :=
  events.filterMap (fun e =>
    match e with
    | Event.jar_delete cookie => some cookie
    | _ => none)

/-- The cookies of a response whose policy is accept or accept for session
and that pass the accept policy of the jar, in the order of the response. -/
def accepted_batch (k : PolicyCodes) (database : Option Store)
    (cookiePolicy : SoupCookieJarAcceptPolicy) (inMessage : SoupMessage) : List SoupCookie :=
  inMessage.cookies.filter (fun c =>
    policy_is_accepted k database c && passes_accept_policy cookiePolicy inMessage.first_party c)

/-- A resolver without the `LIKE` filter, in the words of the claim: it scans
all rows in descending order of the domain and returns the first value other
than undetermined whose domain passes `soup_cookie_domain_matches`. -/
def resolve_by_full_scan (k : PolicyCodes) (db : Store) (inCookie : SoupCookie) : Int :=
  match (db.insertionSort (fun r s => binary_ge r.domain s.domain = true)).find?
      (fun r => soup_cookie_domain_matches inCookie r.domain &&
        decide (r.value ≠ k.undetermined)) with
  | some row => row.value
  | none => k.undetermined

/-- Model of `soup_cookie_jar_get_cookie_list` as documented, for a URI that
holds a host only: the cookies of the jar that would be sent to that host,
which are those whose domain matches it. -/
def cookies_for_host (jar : CookieJar) (host : List Char) : List SoupCookie :=
  jar.filter (fun c => soup_cookie_domain_matches c host)

/-- The failure paths of `_cookie_permission_manager_open_database`: the
configuration directory is `NULL`, the directory cannot be created,
`sqlite3_open` fails, or one of the three schema statements fails. -/
def open_fails (env : OpenEnvironment) : Bool :=
  env.configDir.isNone || env.mkdir_fails ||
    (match env.sqlite_open with
     | SqliteOpen.failed _ => true
     | SqliteOpen.ok _ => false) ||
    !env.create_table.rc_ok || !env.create_index.rc_ok || !env.journal_mode.rc_ok ||
    env.journal_mode.error_set

/-- The number of handles `sqlite3_open` allocated during the call: one when
it was reached and did not fail without a handle. -/
def handles_opened (env : OpenEnvironment) : Nat :=
  if env.configDir.isSome && !env.mkdir_fails then
    match env.sqlite_open with
    | SqliteOpen.ok _ => 1
    | SqliteOpen.failed handle_allocated => if handle_allocated then 1 else 0
  else 0

/-- An environment in which everything succeeds and `sqlite3_open` yields the
given rows. -/
def open_succeeds (db : Store) : OpenEnvironment :=
  ⟨some "config".toList, false, SqliteOpen.ok db, ⟨true, false⟩, ⟨true, false⟩, ⟨true, false⟩⟩

/-- What the confirmation dialog can return: the response id of one of its
three buttons, or a negative id when it is closed without a choice. -/
def dialog_answers (k : PolicyCodes) (gtk_dialog_run : Message → Int) : Prop :=
  ∀ m, gtk_dialog_run m < 0 ∨ gtk_dialog_run m = k.accept ∨
    gtk_dialog_run m = k.accept_for_session ∨ gtk_dialog_run m = k.block

/-- The dialogs of an operation return what the confirmation dialog can
return. -/
def operation_answers (k : PolicyCodes) : Operation → Prop
  | Operation.process_set_cookie_header gtk_dialog_run _ _ => dialog_answers k gtk_dialog_run
  | Operation.on_cookie_changed gtk_dialog_run _ _ => dialog_answers k gtk_dialog_run
  | Operation.on_delete_selection _ => True
  | Operation.on_delete_all _ => True

/-- No two rows of the table carry domains that are equal when ASCII case is
ignored. -/
def case_insensitive_unique (db : Store) : Prop :=
  db.Pairwise (fun r s => g_ascii_strcasecmp r.domain s.domain ≠ Ordering.eq)

/-! ## The jar and its `changed` signal -/

/-- The state of a response handler that takes the jar along: the database,
the jar and the events so far. -/
structure HandlerState where
  database : Option Store
  jar : CookieJar
  events : List Event
  deriving DecidableEq, Repr

/-- An emission of the jar's `changed` signal with the old and the new cookie:
the handler connected at line 743,
`_cookie_permission_manager_on_cookie_changed`, runs on the database as it is
at that moment; each `soup_cookie_jar_delete_cookie` it calls takes the
cookie out of the jar (the emission this causes has no new cookie, so the
handler returns at once). -/
def soup_cookie_jar_changed (k : PolicyCodes) (gtk_dialog_run : Message → Int)
    (state : HandlerState) (inOldCookie inNewCookie : Option SoupCookie) : HandlerState :=
  let changed := _cookie_permission_manager_on_cookie_changed k gtk_dialog_run state.database
    inOldCookie inNewCookie
  ⟨changed.1, (jar_deletions changed.2).foldl soup_cookie_jar_delete_cookie state.jar,
    state.events ++ changed.2⟩

/-- The cookies `soup_cookie_jar_add_cookie` takes for one cookie: the names
are equal and the domains are equal when ASCII case is ignored (the jar keeps
its cookies by domain, letter case ignored, and compares the names; paths are
not kept here). -/
def same_cookie (a b : SoupCookie) : Bool :=
  decide (a.name = b.name) && decide (g_ascii_strcasecmp a.domain b.domain = Ordering.eq)

/-- The search of `soup_cookie_jar_add_cookie` for a cookie to modify: the
first cookie of the jar that is the same cookie as the new one gives way to
it. The result is the old cookie and the jar afterwards, `none` when the jar
holds no such cookie. -/
def jar_replace (cookie : SoupCookie) : CookieJar → Option (SoupCookie × CookieJar)
  | [] => none
  | c :: rest =>
    if same_cookie cookie c then some (c, cookie :: rest)
    else (jar_replace cookie rest).map (fun r => (r.1, c :: r.2))

/-- Model of `soup_cookie_jar_add_cookie` with the signal it emits, as
documented: when the jar holds the cookie already, the cookie is modified and
`changed` carries the old and the new cookie; otherwise the cookie is added
and `changed` carries the new cookie only. The call is recorded before the
signal handler runs. Cookies are taken as not expired. -/
def soup_cookie_jar_add_cookie (k : PolicyCodes) (gtk_dialog_run : Message → Int)
    (state : HandlerState) (cookie : SoupCookie) : HandlerState :=
  match jar_replace cookie state.jar with
  | some (old, jar) =>
    soup_cookie_jar_changed k gtk_dialog_run
      ⟨state.database, jar, state.events ++ [Event.jar_add cookie]⟩ (some old) (some cookie)
  | none =>
    soup_cookie_jar_changed k gtk_dialog_run
      ⟨state.database, state.jar ++ [cookie], state.events ++ [Event.jar_add cookie]⟩
      none (some cookie)

/-- Embedding of `_cookie_permission_manager_process_set_cookie_header` on
the jar: the same steps as the embedding of its own calls, with every
`soup_cookie_jar_add_cookie` run on the jar, signal included. The result is
the database, the jar and all events, those of the signal handler among
them. -/
def process_set_cookie_header_with_signal (k : PolicyCodes) (gtk_dialog_run : Message → Int)
    (database : Option Store) (cookiePolicy : SoupCookieJarAcceptPolicy) (jar : CookieJar)
    (inMessage : SoupMessage) : HandlerState :=
  if cookiePolicy = SoupCookieJarAcceptPolicy.never then ⟨database, jar, []⟩
  else
    let unknownCookies := (classified k database cookiePolicy inMessage).1
    let acceptedCookies := (classified k database cookiePolicy inMessage).2
    if unknownCookies.length > 0 then
      let asked := _cookie_permission_manager_ask_for_policy k gtk_dialog_run database
        unknownCookies
      let unknownCookiesPolicy := asked.policy
      if unknownCookiesPolicy = k.accept ∨ unknownCookiesPolicy = k.accept_for_session then
        acceptedCookies.foldl (soup_cookie_jar_add_cookie k gtk_dialog_run)
          (unknownCookies.foldl (soup_cookie_jar_add_cookie k gtk_dialog_run)
            ⟨asked.database, jar, asked.events⟩)
      else
        acceptedCookies.foldl (soup_cookie_jar_add_cookie k gtk_dialog_run)
          ⟨asked.database, jar, asked.events⟩
    else
      acceptedCookies.foldl (soup_cookie_jar_add_cookie k gtk_dialog_run) ⟨database, jar, []⟩

/-- No two different cookies of the list are the same cookie to
`soup_cookie_jar_add_cookie`. -/
def cookies_distinct (cookies : List SoupCookie) : Prop :=
  ∀ a ∈ cookies, ∀ b ∈ cookies, same_cookie a b = true → a = b

/-- A store with one row: `example.com` is accepted. -/
def example_store : Option Store :=
  some [⟨"example.com".toList, enum_codes.accept⟩]

/-- A response that sets one cookie for `.example.com` and one for
`www.example.com`. -/
def example_response : SoupMessage :=
  ⟨[⟨".example.com".toList, "a".toList⟩, ⟨"www.example.com".toList, "b".toList⟩], none⟩

/-! ## Facts about the string routines -/

theorem strcasecmp_eq_iff (a b : List Char) :
    g_ascii_strcasecmp a b = Ordering.eq ↔ a.map g_ascii_tolower = b.map g_ascii_tolower := by
  induction a generalizing b with
  | nil => cases b <;> simp [g_ascii_strcasecmp]
  | cons c1 s1 ih =>
    cases b with
    | nil => simp [g_ascii_strcasecmp]
    | cons c2 s2 =>
      simp only [g_ascii_strcasecmp, List.map_cons, List.cons.injEq]
      split_ifs with h1 h2
      · simp; omega
      · simp; omega
      · rw [ih]
        constructor
        · intro h; exact ⟨by omega, h⟩
        · intro h; exact h.2

theorem strcasecmp_self (a : List Char) : g_ascii_strcasecmp a a = Ordering.eq :=
  (strcasecmp_eq_iff a a).2 rfl

theorem strcasecmp_total (a b : List Char) :
    g_ascii_strcasecmp a b ≠ Ordering.gt ∨ g_ascii_strcasecmp b a ≠ Ordering.gt := by
  induction a generalizing b with
  | nil => cases b <;> simp [g_ascii_strcasecmp]
  | cons c1 s1 ih =>
    cases b with
    | nil => simp [g_ascii_strcasecmp]
    | cons c2 s2 =>
      simp only [g_ascii_strcasecmp]
      split_ifs <;> first | omega | exact ih s2 | exact Or.inl (by decide) | exact Or.inr (by decide)

theorem strcasecmp_trans (a b c : List Char) (h1 : g_ascii_strcasecmp a b ≠ Ordering.gt)
    (h2 : g_ascii_strcasecmp b c ≠ Ordering.gt) : g_ascii_strcasecmp a c ≠ Ordering.gt := by
  induction a generalizing b c with
  | nil => cases c <;> simp [g_ascii_strcasecmp]
  | cons c1 s1 ih =>
    cases b with
    | nil => simp [g_ascii_strcasecmp] at h1
    | cons c2 s2 =>
      cases c with
      | nil => simp [g_ascii_strcasecmp] at h2
      | cons c3 s3 =>
        simp only [g_ascii_strcasecmp] at h1 h2 ⊢
        split_ifs at h1 h2 ⊢ <;>
          first | omega | exact ih s2 s3 h1 h2 | exact absurd rfl h1 | exact absurd rfl h2 | decide

theorem strcasecmp_antisymm (a b : List Char) (h1 : g_ascii_strcasecmp a b ≠ Ordering.gt)
    (h2 : g_ascii_strcasecmp b a ≠ Ordering.gt) : g_ascii_strcasecmp a b = Ordering.eq := by
  induction a generalizing b with
  | nil => cases b <;> simp [g_ascii_strcasecmp] at h2 ⊢
  | cons c1 s1 ih =>
    cases b with
    | nil => simp [g_ascii_strcasecmp] at h1
    | cons c2 s2 =>
      simp only [g_ascii_strcasecmp] at h1 h2 ⊢
      split_ifs at h1 h2 ⊢ <;>
        first | omega | exact ih s2 h1 h2 | exact absurd rfl h1 | exact absurd rfl h2

theorem binary_ge_refl (a : List Char) : binary_ge a a = true := by
  induction a with
  | nil => rfl
  | cons c s ih => simp [binary_ge, ih]

theorem binary_ge_total (a b : List Char) : binary_ge a b = true ∨ binary_ge b a = true := by
  induction a generalizing b with
  | nil => cases b <;> simp [binary_ge]
  | cons c1 s1 ih =>
    cases b with
    | nil => simp [binary_ge]
    | cons c2 s2 =>
      simp only [binary_ge, Bool.or_eq_true, Bool.and_eq_true, decide_eq_true_eq]
      rcases Nat.lt_trichotomy c1.toNat c2.toNat with h | h | h
      · exact Or.inr (Or.inl h)
      · rcases ih s2 with h' | h'
        · exact Or.inl (Or.inr ⟨h, h'⟩)
        · exact Or.inr (Or.inr ⟨h.symm, h'⟩)
      · exact Or.inl (Or.inl h)

theorem binary_ge_trans (a b c : List Char) (h1 : binary_ge a b = true)
    (h2 : binary_ge b c = true) : binary_ge a c = true := by
  induction a generalizing b c with
  | nil =>
    cases b with
    | nil => exact h2
    | cons c2 s2 => simp [binary_ge] at h1
  | cons c1 s1 ih =>
    cases c with
    | nil => simp [binary_ge]
    | cons c3 s3 =>
      cases b with
      | nil => simp [binary_ge] at h2
      | cons c2 s2 =>
        simp only [binary_ge, Bool.or_eq_true, Bool.and_eq_true, decide_eq_true_eq] at h1 h2 ⊢
        rcases h1 with h1 | ⟨h1, h1'⟩ <;> rcases h2 with h2 | ⟨h2, h2'⟩
        · exact Or.inl (by omega)
        · exact Or.inl (by omega)
        · exact Or.inl (by omega)
        · exact Or.inr ⟨by omega, ih s2 s3 h1' h2'⟩

theorem char_eq_of_toNat_eq (a b : Char) (h : a.toNat = b.toNat) : a = b := by
  apply Char.ext
  apply UInt32.ext
  exact h

theorem binary_ge_antisymm (a b : List Char) (h1 : binary_ge a b = true)
    (h2 : binary_ge b a = true) : a = b := by
  induction a generalizing b with
  | nil =>
    cases b with
    | nil => rfl
    | cons c2 s2 => simp [binary_ge] at h1
  | cons c1 s1 ih =>
    cases b with
    | nil => simp [binary_ge] at h2
    | cons c2 s2 =>
      simp only [binary_ge, Bool.or_eq_true, Bool.and_eq_true, decide_eq_true_eq] at h1 h2
      rcases h1 with h1 | ⟨h1, h1'⟩ <;> rcases h2 with h2 | ⟨h2, h2'⟩
      · omega
      · omega
      · omega
      · rw [char_eq_of_toNat_eq c1 c2 h1, ih s2 h1' h2']

theorem like_any_tail_self (f : List Char → Bool) (s : List Char) (h : f s = true) :
    like_any_tail f s = true := by
  cases s with
  | nil => simpa [like_any_tail] using h
  | cons c s => simp [like_any_tail, h]

theorem like_any_tail_append (f : List Char → Bool) (pre s : List Char) (h : f s = true) :
    like_any_tail f (pre ++ s) = true := by
  induction pre with
  | nil => exact like_any_tail_self f s h
  | cons c pre ih => simp [like_any_tail, ih]

/-- A string matches a pattern it is equal to up to ASCII case, whatever
wildcards the pattern holds. -/
theorem sqlite3_like_of_casefold_eq (p s : List Char)
    (h : p.map g_ascii_tolower = s.map g_ascii_tolower) : sqlite3_like p s = true := by
  induction p generalizing s with
  | nil =>
    cases s with
    | nil => rfl
    | cons c s => simp at h
  | cons c p ih =>
    cases s with
    | nil => simp at h
    | cons d s =>
      simp only [List.map_cons, List.cons.injEq] at h
      simp only [sqlite3_like]
      split_ifs with hc
      · exact like_any_tail_append _ [d] s (ih s h.2)
      · simp [h.1, ih s h.2]

/-! ## Facts about the lookup -/

theorem select_like_sorted (db : Store) (pattern : List Char) :
    (select_like db pattern).Sorted (fun r s => binary_ge r.domain s.domain = true) := by
  haveI : IsTotal PolicyRow (fun r s => binary_ge r.domain s.domain = true) :=
    ⟨fun r s => binary_ge_total r.domain s.domain⟩
  haveI : IsTrans PolicyRow (fun r s => binary_ge r.domain s.domain = true) :=
    ⟨fun r s t => binary_ge_trans r.domain s.domain t.domain⟩
  exact List.sorted_insertionSort _ _

theorem mem_select_like (db : Store) (pattern : List Char) (r : PolicyRow) :
    r ∈ select_like db pattern ↔ r ∈ db ∧ sqlite3_like pattern r.domain = true := by
  simp [select_like, List.mem_insertionSort]

/-- The loop returns the value of the first row that matches the cookie and
carries a value other than undetermined. -/
theorem get_policy_loop_eq_find (k : PolicyCodes) (c : SoupCookie) (rows : List PolicyRow) :
    get_policy_loop k c k.undetermined rows =
      match rows.find? (fun r => soup_cookie_domain_matches c r.domain &&
          decide (r.value ≠ k.undetermined)) with
      | some r => r.value
      | none => k.undetermined := by
  induction rows with
  | nil => simp [get_policy_loop]
  | cons row rows ih =>
    simp only [get_policy_loop, if_true, List.find?_cons]
    by_cases hm : soup_cookie_domain_matches c row.domain = true
    · by_cases hv : row.value = k.undetermined
      · simp [hm, hv, ih]
      · simp only [hm, if_true, hv, ne_eq, not_false_eq_true, decide_True, Bool.and_self]
        cases rows with
        | nil => simp [get_policy_loop]
        | cons r2 rows => simp [get_policy_loop, hv]
    · simp [hm, ih]

theorem get_policy_loop_row_fst (k : PolicyCodes) (c : SoupCookie) (rows : List PolicyRow)
    (policy : Int) (source : Option PolicyRow) :
    (get_policy_loop_row k c (policy, source) rows).1 = get_policy_loop k c policy rows := by
  induction rows generalizing policy source with
  | nil => simp [get_policy_loop_row, get_policy_loop]
  | cons row rows ih =>
    simp only [get_policy_loop_row, get_policy_loop]
    split_ifs <;> simp [ih]

theorem get_policy_loop_row_inv (k : PolicyCodes) (c : SoupCookie) (Q : PolicyRow → Prop)
    (rows : List PolicyRow) (policy : Int) (source : Option PolicyRow)
    (h0 : ∀ p, source = some p → policy = p.value ∧ Q p)
    (hrows : ∀ r ∈ rows, soup_cookie_domain_matches c r.domain = true → Q r) :
    ∀ p, (get_policy_loop_row k c (policy, source) rows).2 = some p →
      (get_policy_loop_row k c (policy, source) rows).1 = p.value ∧ Q p := by
  induction rows generalizing policy source with
  | nil => simpa [get_policy_loop_row] using h0
  | cons row rows ih =>
    have hrest : ∀ r ∈ rows, soup_cookie_domain_matches c r.domain = true → Q r :=
      fun r hr => hrows r (List.mem_cons_of_mem _ hr)
    simp only [get_policy_loop_row]
    split_ifs with h1 h2
    · refine ih _ _ ?_ hrest
      intro p hp
      cases hp
      exact ⟨rfl, hrows row (List.mem_cons_self _ _) h2⟩
    · exact ih _ _ h0 hrest
    · simpa using h0

theorem get_policy_singleton (k : PolicyCodes) (row : PolicyRow) (c : SoupCookie) :
    _cookie_permission_manager_get_policy k (some [row]) c =
      if covers c row = true then row.value else k.undetermined := by
  simp only [_cookie_permission_manager_get_policy, select_like, covers, List.filter]
  by_cases hl : sqlite3_like (like_pattern c) row.domain = true
  · by_cases hm : soup_cookie_domain_matches c row.domain = true
    · simp [hl, hm, get_policy_loop]
    · simp [hl, hm, get_policy_loop]
  · simp [hl, get_policy_loop]

theorem like_pattern_self (c : SoupCookie) :
    sqlite3_like (like_pattern c) c.domain = true := by
  unfold like_pattern
  cases hd : c.domain with
  | nil => rfl
  | cons c0 rest =>
    simp only
    split_ifs with h0
    · simp only [sqlite3_like, if_true]
      exact like_any_tail_append _ [c0] rest (sqlite3_like_of_casefold_eq rest rest rfl)
    · exact sqlite3_like_of_casefold_eq _ _ rfl

theorem soup_matches_self (c : SoupCookie) : soup_cookie_domain_matches c c.domain = true := by
  simp [soup_cookie_domain_matches, soup_host_matches_host, strcasecmp_self]

theorem covers_self (c : SoupCookie) (v : Int) : covers c ⟨c.domain, v⟩ = true := by
  simp [covers, like_pattern_self, soup_matches_self]

theorem codes_ne_undetermined (k : PolicyCodes) (X : Int)
    (hX : X = k.accept ∨ X = k.accept_for_session ∨ X = k.block) : X ≠ k.undetermined := by
  have h := k.distinct
  simp only [List.nodup_cons, List.mem_cons, List.mem_singleton, not_or] at h
  rcases hX with rfl | rfl | rfl
  · exact fun e => h.1.1 e.symm
  · exact fun e => h.1.2.1 e.symm
  · exact fun e => h.1.2.2.1 e.symm

/-! ## C1: lookup after an insert-or-replace -/

/-- C1, the claim as stated fails: with a row for `example.com` (Block)
stored, writing `EXAMPLE.COM` (Accept) and looking up a cookie whose domain is
exactly `EXAMPLE.COM` gives Block, the value of the case variant that sorts
first; and with a row for `sub.example.com` (Block) stored, writing
`.example.com` (Accept) and looking up a cookie for `.example.com` gives
Block as well. -/
theorem C1_counterexample :
    _cookie_permission_manager_get_policy enum_codes
        (some (insert_or_replace [⟨"example.com".toList, enum_codes.block⟩]
          "EXAMPLE.COM".toList enum_codes.accept))
        ⟨"EXAMPLE.COM".toList, "id".toList⟩ = enum_codes.block ∧
      _cookie_permission_manager_get_policy enum_codes
        (some (insert_or_replace [⟨"sub.example.com".toList, enum_codes.block⟩]
          ".example.com".toList enum_codes.accept))
        ⟨".example.com".toList, "id".toList⟩ = enum_codes.block ∧
      enum_codes.block ≠ enum_codes.accept := by
  decide

/-- C1, amended: after the row `(d, X)` is inserted or replaced, with `X` one
of the three decisions, the lookup returns `X` for every cookie whose domain is
exactly `d`, provided every other stored row that covers the cookie (a `LIKE`
candidate passing the domain match) has a domain that sorts below `d`
byte-wise. -/
theorem C1_lookup_after_insert_or_replace (k : PolicyCodes) (db : Store) (d : List Char)
    (X : Int) (c : SoupCookie)
    (hX : X = k.accept ∨ X = k.accept_for_session ∨ X = k.block)
    (hc : c.domain = d)
    (hbelow : ∀ r ∈ db, r.domain ≠ d → covers c r = true → binary_ge r.domain d = false) :
    _cookie_permission_manager_get_policy k (some (insert_or_replace db d X)) c = X := by
  have hXu : X ≠ k.undetermined := codes_ne_undetermined k X hX
  have hcov : covers c ⟨d, X⟩ = true := by rw [← hc]; exact covers_self c X
  simp only [covers, Bool.and_eq_true] at hcov
  have hmem : (⟨d, X⟩ : PolicyRow) ∈ select_like (insert_or_replace db d X) (like_pattern c) :=
    (mem_select_like _ _ _).2 ⟨by simp [insert_or_replace], hcov.1⟩
  have hsorted := select_like_sorted (insert_or_replace db d X) (like_pattern c)
  simp only [_cookie_permission_manager_get_policy, get_policy_loop_eq_find]
  cases hfind : (select_like (insert_or_replace db d X) (like_pattern c)).find?
      (fun r => soup_cookie_domain_matches c r.domain && decide (r.value ≠ k.undetermined)) with
  | none =>
    have h := List.find?_eq_none.1 hfind _ hmem
    simp [hcov.2, hXu] at h
  | some b =>
    obtain ⟨hpb, as, bs, hsplit, has⟩ := List.find?_eq_some.1 hfind
    have hb : b ∈ select_like (insert_or_replace db d X) (like_pattern c) := by
      rw [hsplit]; simp
    have hb' := (mem_select_like _ _ _).1 hb
    simp only [Bool.and_eq_true, decide_eq_true_eq] at hpb
    show b.value = X
    by_cases hbd : b.domain = d
    · have h1 := hb'.1
      simp only [insert_or_replace, List.mem_append, List.mem_filter, List.mem_singleton] at h1
      rcases h1 with h1 | h1
      · simp [hbd] at h1
      · rw [h1]
    · exfalso
      have h1 := hb'.1
      simp only [insert_or_replace, List.mem_append, List.mem_filter, List.mem_singleton] at h1
      have hbdb : b ∈ db := by
        rcases h1 with h1 | h1
        · exact h1.1
        · exact absurd (by rw [h1]) hbd
      have hlt := hbelow b hbdb hbd (by simp [covers, hb'.2, hpb.1])
      rw [hsplit] at hmem hsorted
      rcases List.mem_append.1 hmem with h2 | h2
      · have := has _ h2
        simp [hcov.2, hXu] at this
      · rcases List.mem_cons.1 h2 with h2 | h2
        · exact hbd (by rw [← h2])
        · have h3 := (List.pairwise_append.1 hsorted).2.1
          have h4 := List.rel_of_pairwise_cons h3 h2
          simp only at h4
          rw [hlt] at h4
          exact Bool.false_ne_true h4

/-- C1, the amended statement at a concrete input: a row for `EXAMPLE.COM`
(Block) is stored, `example.com` (Accept) is written, and a cookie for
`example.com` resolves to Accept, since the other row sorts below. -/
theorem C1_lookup_after_insert_or_replace_witness :
    _cookie_permission_manager_get_policy enum_codes
      (some (insert_or_replace [⟨"EXAMPLE.COM".toList, enum_codes.block⟩]
        "example.com".toList enum_codes.accept))
      ⟨"example.com".toList, "id".toList⟩ = enum_codes.accept :=
  C1_lookup_after_insert_or_replace enum_codes [⟨"EXAMPLE.COM".toList, enum_codes.block⟩]
    "example.com".toList enum_codes.accept ⟨"example.com".toList, "id".toList⟩
    (Or.inl rfl) rfl (by decide)

/-! ## C3: which rows can decide a lookup -/

/-- C3, the claim as stated fails: a cookie with domain `.example.com` is
decided by the row stored for `sub.example.com`, although the cookie's domain
neither equals that pattern nor is a subdomain of it. -/
theorem C3_counterexample :
    deciding_row enum_codes (some [⟨"sub.example.com".toList, enum_codes.block⟩])
        ⟨".example.com".toList, "id".toList⟩ =
        some ⟨"sub.example.com".toList, enum_codes.block⟩ ∧
      _cookie_permission_manager_get_policy enum_codes
        (some [⟨"sub.example.com".toList, enum_codes.block⟩])
        ⟨".example.com".toList, "id".toList⟩ = enum_codes.block ∧
      cookie_under_pattern ".example.com".toList "sub.example.com".toList = false := by
  decide

/-- C3, amended: the lookup only takes a decision from a stored row that the
cookie's domain covers. If the row `p` decided the lookup, then `p` is a
stored row, the result is its value, `p` is a `LIKE` candidate, and the stored
domain equals the cookie's domain (ASCII case ignored) or the cookie's domain
starts with a dot and the stored domain equals the rest of it (case ignored)
or ends with the whole of it. In particular a cookie with domain
`sub.example.com` is never decided by a row stored for `.example.com`. -/
theorem C3_deciding_row_is_under_cookie_domain (k : PolicyCodes) (db : Store) (c : SoupCookie) :
    (∀ p : PolicyRow, deciding_row k (some db) c = some p →
      p ∈ db ∧ _cookie_permission_manager_get_policy k (some db) c = p.value ∧
        sqlite3_like (like_pattern c) p.domain = true ∧
        (g_ascii_strcasecmp c.domain p.domain = Ordering.eq ∨
          ∃ rest, c.domain = '.' :: rest ∧
            (g_ascii_strcasecmp rest p.domain = Ordering.eq ∨
              g_str_has_suffix p.domain c.domain = true))) ∧
      (c.domain = "sub.example.com".toList →
        ∀ p : PolicyRow, deciding_row k (some db) c = some p →
          p.domain ≠ ".example.com".toList) := by
  have main : ∀ p : PolicyRow, deciding_row k (some db) c = some p →
      p ∈ db ∧ _cookie_permission_manager_get_policy k (some db) c = p.value ∧
        sqlite3_like (like_pattern c) p.domain = true ∧
        (g_ascii_strcasecmp c.domain p.domain = Ordering.eq ∨
          ∃ rest, c.domain = '.' :: rest ∧
            (g_ascii_strcasecmp rest p.domain = Ordering.eq ∨
              g_str_has_suffix p.domain c.domain = true)) := by
    intro p hp
    simp only [deciding_row] at hp
    have h := get_policy_loop_row_inv k c
      (fun r => r ∈ select_like db (like_pattern c) ∧
        soup_cookie_domain_matches c r.domain = true)
      (select_like db (like_pattern c)) k.undetermined none (by simp)
      (fun r hr hm => ⟨hr, hm⟩) p hp
    rw [get_policy_loop_row_fst] at h
    obtain ⟨hval, hmem, hm⟩ := h
    have hmem' := (mem_select_like _ _ _).1 hmem
    refine ⟨hmem'.1, hval, hmem'.2, ?_⟩
    simp only [soup_cookie_domain_matches, soup_host_matches_host] at hm
    by_cases h1 : g_ascii_strcasecmp c.domain p.domain = Ordering.eq
    · exact Or.inl h1
    · right
      cases hd : c.domain with
      | nil => simp [hd, h1] at hm; simp [hd, hm] at h1
      | cons c0 rest =>
        rw [hd] at hm h1
        simp only [h1, if_false] at hm
        by_cases h0 : c0 = '.'
        · subst h0
          refine ⟨rest, rfl, ?_⟩
          by_cases h2 : g_ascii_strcasecmp rest p.domain = Ordering.eq
          · exact Or.inl h2
          · right; simpa [h2] using hm
        · simp [h0] at hm
  refine ⟨main, ?_⟩
  intro hc p hp h
  obtain ⟨-, -, -, h1⟩ := main p hp
  rw [hc, h] at h1
  rcases h1 with h1 | ⟨rest, h2, -⟩
  · exact absurd h1 (by decide)
  · exact absurd h2 (by simp)

/-- C3, the amended statement at a concrete input: the row for
`sub.example.com` decides the cookie for `.example.com`, and its domain ends
with the cookie's domain. -/
theorem C3_deciding_row_is_under_cookie_domain_witness :
    deciding_row enum_codes (some [⟨"sub.example.com".toList, enum_codes.block⟩])
        ⟨".example.com".toList, "id".toList⟩ =
        some ⟨"sub.example.com".toList, enum_codes.block⟩ ∧
      g_str_has_suffix "sub.example.com".toList ".example.com".toList = true ∧
      _cookie_permission_manager_get_policy enum_codes
        (some [⟨"sub.example.com".toList, enum_codes.block⟩])
        ⟨".example.com".toList, "id".toList⟩ = enum_codes.block :=
  ⟨by decide, by decide,
    ((C3_deciding_row_is_under_cookie_domain enum_codes
      [⟨"sub.example.com".toList, enum_codes.block⟩]
      ⟨".example.com".toList, "id".toList⟩).1 ⟨"sub.example.com".toList, enum_codes.block⟩
      (by decide)).2.1⟩

/-! ## C4: the first covering row in descending order -/

theorem find_eq_head_filter {α : Type} (p : α → Bool) (l : List α) :
    l.find? p = (l.filter p).head? := by
  induction l with
  | nil => rfl
  | cons a l ih =>
    by_cases h : p a = true
    · rw [List.find?_cons_of_pos _ h, List.filter_cons_of_pos h]; rfl
    · rw [List.find?_cons_of_neg _ h, List.filter_cons_of_neg h, ih]

theorem filter_congr_mem {α : Type} (p q : α → Bool) (l : List α)
    (h : ∀ a ∈ l, p a = q a) : l.filter p = l.filter q := by
  induction l with
  | nil => rfl
  | cons a l ih =>
    have ha := h a (List.mem_cons_self _ _)
    have hl := ih (fun b hb => h b (List.mem_cons_of_mem _ hb))
    simp [List.filter_cons, ha, hl]

theorem filter_orderedInsert {α : Type} (r : α → α → Prop) [DecidableRel r] [IsTrans α r]
    (p : α → Bool) (a : α) (l : List α) (hl : l.Sorted r) :
    (l.orderedInsert r a).filter p =
      if p a = true then (l.filter p).orderedInsert r a else l.filter p := by
  induction l with
  | nil => by_cases h : p a = true <;> simp [h]
  | cons b l ih =>
    have hl' : l.Sorted r := hl.of_cons
    have hbl : ∀ x ∈ l, r b x := List.rel_of_sorted_cons hl
    simp only [List.orderedInsert]
    by_cases hab : r a b
    · simp only [hab, if_true]
      by_cases hpa : p a = true
      · simp only [hpa, if_true]
        rw [List.filter_cons_of_pos hpa]
        cases hf : (b :: l).filter p with
        | nil => simp
        | cons x rest =>
          have hx : x ∈ (b :: l).filter p := by rw [hf]; simp
          have hx' : x ∈ b :: l := (List.mem_filter.1 hx).1
          have hax : r a x := by
            rcases List.mem_cons.1 hx' with h | h
            · rw [h]; exact hab
            · exact IsTrans.trans _ _ _ hab (hbl x h)
          simp [List.orderedInsert, hax]
      · simp only [hpa]
        rw [List.filter_cons_of_neg hpa]
        simp
    · simp only [hab, if_false]
      by_cases hpb : p b = true
      · rw [List.filter_cons_of_pos hpb, List.filter_cons_of_pos hpb, ih hl']
        by_cases hpa : p a = true
        · simp [hpa, List.orderedInsert, hab]
        · simp [hpa]
      · rw [List.filter_cons_of_neg hpb, List.filter_cons_of_neg hpb, ih hl']

theorem filter_insertionSort {α : Type} (r : α → α → Prop) [DecidableRel r] [IsTrans α r]
    [IsTotal α r] (p : α → Bool) (l : List α) :
    (l.insertionSort r).filter p = (l.filter p).insertionSort r := by
  induction l with
  | nil => rfl
  | cons a l ih =>
    simp only [List.insertionSort]
    rw [filter_orderedInsert r p a _ (List.sorted_insertionSort r l), ih]
    by_cases hpa : p a = true
    · simp [hpa, List.filter_cons_of_pos]
    · simp [hpa, List.filter_cons_of_neg]

theorem select_like_filter_matches (db : Store) (c : SoupCookie) :
    (select_like db (like_pattern c)).filter (fun r => soup_cookie_domain_matches c r.domain) =
      (db.filter (covers c)).insertionSort (fun r s => binary_ge r.domain s.domain = true) := by
  haveI : IsTotal PolicyRow (fun r s => binary_ge r.domain s.domain = true) :=
    ⟨fun r s => binary_ge_total r.domain s.domain⟩
  haveI : IsTrans PolicyRow (fun r s => binary_ge r.domain s.domain = true) :=
    ⟨fun r s t => binary_ge_trans r.domain s.domain t.domain⟩
  simp only [select_like]
  rw [filter_insertionSort, List.filter_filter]
  congr 1
  apply filter_congr_mem
  intro r _
  simp [covers, Bool.and_comm]

/-- C4: for every store whose rows carry one of the three decisions and every
cookie, the lookup returns the decision of the first row, in descending
byte-wise order of the stored domain, among the rows that are `LIKE`
candidates for the cookie's query parameter and pass the domain match test,
and undetermined when there is none. That first row is a stored covering row
whose domain is byte-wise greater than or equal to that of every stored
covering row. -/
theorem C4_lookup_is_first_covering_row (k : PolicyCodes) (db : Store) (c : SoupCookie)
    (hvalid : ∀ r ∈ db,
      r.value = k.accept ∨ r.value = k.accept_for_session ∨ r.value = k.block) :
    _cookie_permission_manager_get_policy k (some db) c = resolve_spec k db c ∧
      (∀ row, first_covering_row db c = some row →
        row ∈ db ∧ covers c row = true ∧
          ∀ r ∈ db, covers c r = true → binary_ge row.domain r.domain = true) ∧
      (first_covering_row db c = none → ∀ r ∈ db, covers c r = false) := by
  haveI : IsTotal PolicyRow (fun r s => binary_ge r.domain s.domain = true) :=
    ⟨fun r s => binary_ge_total r.domain s.domain⟩
  haveI : IsTrans PolicyRow (fun r s => binary_ge r.domain s.domain = true) :=
    ⟨fun r s t => binary_ge_trans r.domain s.domain t.domain⟩
  refine ⟨?_, ?_, ?_⟩
  · simp only [_cookie_permission_manager_get_policy, get_policy_loop_eq_find, resolve_spec,
      first_covering_row]
    rw [find_eq_head_filter, ← select_like_filter_matches]
    congr 2
    apply filter_congr_mem
    intro r hr
    have hv := codes_ne_undetermined k r.value (hvalid r ((mem_select_like _ _ _).1 hr).1)
    simp [hv]
  · intro row hrow
    simp only [first_covering_row] at hrow
    obtain ⟨rest, hrest⟩ := List.head?_eq_some_iff.1 hrow
    have hsorted := List.sorted_insertionSort (fun r s => binary_ge r.domain s.domain = true)
      (db.filter (covers c))
    have hmem : ∀ r, r ∈ row :: rest ↔ r ∈ db.filter (covers c) := by
      intro r; rw [← hrest]; exact List.mem_insertionSort _
    have h1 := (hmem row).1 (List.mem_cons_self _ _)
    rw [List.mem_filter] at h1
    refine ⟨h1.1, h1.2, ?_⟩
    intro r hr hcr
    have h2 := (hmem r).2 (List.mem_filter.2 ⟨hr, hcr⟩)
    rw [hrest] at hsorted
    rcases List.mem_cons.1 h2 with h3 | h3
    · rw [h3]; exact binary_ge_refl _
    · exact List.rel_of_sorted_cons hsorted r h3
  · intro hnone r hr
    simp only [first_covering_row, List.head?_eq_none_iff] at hnone
    have h1 : r ∉ db.filter (covers c) := by
      intro h
      have h2 := (List.mem_insertionSort (fun r s => binary_ge r.domain s.domain = true)).2 h
      rw [hnone] at h2
      exact List.not_mem_nil _ h2
    rw [List.mem_filter] at h1
    cases hcr : covers c r with
    | false => rfl
    | true => exact absurd ⟨hr, hcr⟩ h1

/-- C4 at the input named by the claim: with `.example.com` (Block) and
`a.example.com` (Accept) stored, a cookie with domain `a.example.com`
resolves to Accept. -/
theorem C4_lookup_is_first_covering_row_witness :
    _cookie_permission_manager_get_policy enum_codes
        (some [⟨".example.com".toList, enum_codes.block⟩,
          ⟨"a.example.com".toList, enum_codes.accept⟩])
        ⟨"a.example.com".toList, "id".toList⟩ = enum_codes.accept ∧
      first_covering_row [⟨".example.com".toList, enum_codes.block⟩,
          ⟨"a.example.com".toList, enum_codes.accept⟩]
        ⟨"a.example.com".toList, "id".toList⟩ =
        some ⟨"a.example.com".toList, enum_codes.accept⟩ :=
  ⟨(C4_lookup_is_first_covering_row enum_codes
      [⟨".example.com".toList, enum_codes.block⟩, ⟨"a.example.com".toList, enum_codes.accept⟩]
      ⟨"a.example.com".toList, "id".toList⟩ (by decide)).1.trans (by decide),
    by decide⟩

/-! ## C5: hosts that are not subdomains -/

/-- C5: a store whose only row is for `example.com`, plain, as `.example.com`
or as `%example.com`, leaves a cookie whose domain is `otherexample.com`
undetermined, whatever value the row carries; and a cookie with domain
`.example.com` is undetermined against a store whose only row is
`otherexample.com`, although that row is a `LIKE` candidate for the query
parameter `%example.com`. -/
theorem C5_non_subdomain_is_undetermined (k : PolicyCodes) (v : Int) (name : List Char) :
    _cookie_permission_manager_get_policy k (some [⟨"example.com".toList, v⟩])
        ⟨"otherexample.com".toList, name⟩ = k.undetermined ∧
      _cookie_permission_manager_get_policy k (some [⟨".example.com".toList, v⟩])
        ⟨"otherexample.com".toList, name⟩ = k.undetermined ∧
      _cookie_permission_manager_get_policy k (some [⟨"%example.com".toList, v⟩])
        ⟨"otherexample.com".toList, name⟩ = k.undetermined ∧
      _cookie_permission_manager_get_policy k (some [⟨"otherexample.com".toList, v⟩])
        ⟨".example.com".toList, name⟩ = k.undetermined ∧
      like_pattern ⟨".example.com".toList, name⟩ = "%example.com".toList ∧
      sqlite3_like "%example.com".toList "otherexample.com".toList = true ∧
      select_like [⟨"otherexample.com".toList, v⟩] (like_pattern ⟨".example.com".toList, name⟩) =
        [⟨"otherexample.com".toList, v⟩] := by
  have h1 : covers ⟨"otherexample.com".toList, name⟩ ⟨"example.com".toList, v⟩ = false := by
    simp only [covers, like_pattern, soup_cookie_domain_matches]
    decide
  have h2 : covers ⟨"otherexample.com".toList, name⟩ ⟨".example.com".toList, v⟩ = false := by
    simp only [covers, like_pattern, soup_cookie_domain_matches]
    decide
  have h3 : covers ⟨"otherexample.com".toList, name⟩ ⟨"%example.com".toList, v⟩ = false := by
    simp only [covers, like_pattern, soup_cookie_domain_matches]
    decide
  have h4 : covers ⟨".example.com".toList, name⟩ ⟨"otherexample.com".toList, v⟩ = false := by
    simp only [covers, like_pattern, soup_cookie_domain_matches]
    decide
  have h5 : like_pattern ⟨".example.com".toList, name⟩ = "%example.com".toList := by
    simp only [like_pattern]
    decide
  have h6 : sqlite3_like "%example.com".toList "otherexample.com".toList = true := by decide
  refine ⟨?_, ?_, ?_, ?_, h5, h6, ?_⟩
  · rw [get_policy_singleton, h1]; rfl
  · rw [get_policy_singleton, h2]; rfl
  · rw [get_policy_singleton, h3]; rfl
  · rw [get_policy_singleton, h4]; rfl
  · rw [h5]
    simp only [select_like, List.filter, h6, List.insertionSort, List.orderedInsert]

/-! ## Facts about the batch order -/

theorem key_le_total (a b : List Nat) : key_le a b = true ∨ key_le b a = true := by
  induction a generalizing b with
  | nil => simp [key_le]
  | cons x as ih =>
    cases b with
    | nil => simp [key_le]
    | cons y bs =>
      simp only [key_le, Bool.or_eq_true, Bool.and_eq_true, decide_eq_true_eq]
      rcases Nat.lt_trichotomy x y with h | h | h
      · exact Or.inl (Or.inl h)
      · rcases ih bs with h' | h'
        · exact Or.inl (Or.inr ⟨h, h'⟩)
        · exact Or.inr (Or.inr ⟨h.symm, h'⟩)
      · exact Or.inr (Or.inl h)

theorem key_le_trans (a b c : List Nat) (h1 : key_le a b = true) (h2 : key_le b c = true) :
    key_le a c = true := by
  induction a generalizing b c with
  | nil => simp [key_le]
  | cons x as ih =>
    cases b with
    | nil => simp [key_le] at h1
    | cons y bs =>
      cases c with
      | nil => simp [key_le] at h2
      | cons z cs =>
        simp only [key_le, Bool.or_eq_true, Bool.and_eq_true, decide_eq_true_eq] at h1 h2 ⊢
        rcases h1 with h1 | ⟨h1, h1'⟩ <;> rcases h2 with h2 | ⟨h2, h2'⟩
        · exact Or.inl (by omega)
        · exact Or.inl (by omega)
        · exact Or.inl (by omega)
        · exact Or.inr ⟨by omega, ih bs cs h1' h2'⟩

theorem key_le_antisymm (a b : List Nat) (h1 : key_le a b = true) (h2 : key_le b a = true) :
    a = b := by
  induction a generalizing b with
  | nil =>
    cases b with
    | nil => rfl
    | cons y bs => simp [key_le] at h2
  | cons x as ih =>
    cases b with
    | nil => simp [key_le] at h1
    | cons y bs =>
      simp only [key_le, Bool.or_eq_true, Bool.and_eq_true, decide_eq_true_eq] at h1 h2
      rcases h1 with h1 | ⟨h1, h1'⟩ <;> rcases h2 with h2 | ⟨h2, h2'⟩
      · omega
      · omega
      · omega
      · rw [h1, ih bs h1' h2']

theorem strcasecmp_ne_gt_iff (a b : List Char) :
    g_ascii_strcasecmp a b ≠ Ordering.gt ↔ key_le (casefold a) (casefold b) = true := by
  induction a generalizing b with
  | nil => cases b <;> simp [g_ascii_strcasecmp, casefold, key_le]
  | cons c1 s1 ih =>
    cases b with
    | nil => simp [g_ascii_strcasecmp, casefold, key_le]
    | cons c2 s2 =>
      have ih' := ih s2
      simp only [casefold] at ih' ⊢
      simp only [g_ascii_strcasecmp, List.map_cons, key_le, Bool.or_eq_true, Bool.and_eq_true,
        decide_eq_true_eq]
      split_ifs with h1 h2
      · simp [h1]
      · constructor
        · intro h; exact absurd rfl h
        · intro h; rcases h with h | ⟨h, -⟩ <;> omega
      · rw [ih']
        constructor
        · intro h; exact Or.inr ⟨by omega, h⟩
        · intro h; rcases h with h | ⟨-, h⟩
          · omega
          · exact h

theorem strcasecmp_eq_iff_casefold (a b : List Char) :
    g_ascii_strcasecmp a b = Ordering.eq ↔ casefold a = casefold b :=
  strcasecmp_eq_iff a b

/-- The sorted copy, seen through the keys, is the sorted list of the keys. -/
theorem sorted_keys (batch : List SoupCookie) :
    (g_slist_sort batch _cookie_permission_manager_sort_cookies_by_domain).map domain_key =
      (batch.map domain_key).insertionSort (fun a b => key_le a b = true) := by
  unfold g_slist_sort
  apply List.map_insertionSort
  intro a _ b _
  exact strcasecmp_ne_gt_iff _ _

theorem sorted_keys_perm (batch batch2 : List SoupCookie) (h : batch2.Perm batch) :
    (batch2.map domain_key).insertionSort (fun a b => key_le a b = true) =
      (batch.map domain_key).insertionSort (fun a b => key_le a b = true) := by
  haveI : IsTotal (List Nat) (fun a b => key_le a b = true) := ⟨key_le_total⟩
  haveI : IsTrans (List Nat) (fun a b => key_le a b = true) := ⟨key_le_trans⟩
  haveI : IsAntisymm (List Nat) (fun a b => key_le a b = true) := ⟨key_le_antisymm⟩
  apply List.eq_of_perm_of_sorted (r := fun a b => key_le a b = true)
  · exact ((List.perm_insertionSort _ _).trans (h.map domain_key)).trans
      (List.perm_insertionSort _ _).symm
  · exact List.sorted_insertionSort _ _
  · exact List.sorted_insertionSort _ _

theorem destutter_head_tail {α : Type} (R : α → α → Prop) [DecidableRel R] (a : α)
    (l : List α) : a :: (List.destutter' R a l).tail = List.destutter' R a l := by
  induction l generalizing a with
  | nil => simp
  | cons b l ih =>
    by_cases h : R a b
    · rw [List.destutter'_cons_pos _ h]; rfl
    · rw [List.destutter'_cons_neg _ h]; exact ih a

theorem store_loop_some_keys (r : Int) (a : List Char) (l : List SoupCookie) :
    (store_loop r (some a) l).map row_key =
      (List.destutter' (fun x y => x ≠ y) (casefold a) (l.map domain_key)).tail := by
  induction l generalizing a with
  | nil => simp [store_loop]
  | cons c l ih =>
    simp only [store_loop, is_new_domain, List.map_cons]
    by_cases h : g_ascii_strcasecmp a (skip_dot c.domain) = Ordering.eq
    · have hk : ¬ (casefold a ≠ domain_key c) := by
        simpa [domain_key] using (strcasecmp_eq_iff_casefold _ _).1 h
      have hb : (g_ascii_strcasecmp a (skip_dot c.domain) != Ordering.eq) = false := by
        rw [h]; rfl
      rw [List.destutter'_cons_neg _ hk]
      simp only [hb, Bool.false_eq_true, if_false, ih]
    · have hk : casefold a ≠ domain_key c := by
        intro e; exact h ((strcasecmp_eq_iff_casefold _ _).2 e)
      have hb : (g_ascii_strcasecmp a (skip_dot c.domain) != Ordering.eq) = true := by
        cases hc : g_ascii_strcasecmp a (skip_dot c.domain) <;>
          first | rfl | exact absurd hc h
      rw [List.destutter'_cons_pos _ hk]
      simp only [hb, if_true, List.map_cons, List.tail_cons, ih]
      exact destutter_head_tail _ _ _

theorem store_loop_none_keys (r : Int) (l : List SoupCookie) :
    (store_loop r none l).map row_key =
      List.destutter (fun x y => x ≠ y) (l.map domain_key) := by
  cases l with
  | nil => simp [store_loop]
  | cons c l =>
    simp only [store_loop, is_new_domain, if_true, List.map_cons, List.destutter_cons',
      store_loop_some_keys]
    exact destutter_head_tail _ _ _

theorem store_loop_rows (r : Int) (last : Option (List Char)) (l : List SoupCookie) :
    ∀ w ∈ store_loop r last l, w.value = r ∧ ∃ c ∈ l, w.domain = skip_dot c.domain := by
  induction l generalizing last with
  | nil => simp [store_loop]
  | cons c l ih =>
    intro w hw
    simp only [store_loop] at hw
    split_ifs at hw
    · rcases List.mem_cons.1 hw with h | h
      · subst h; exact ⟨rfl, c, List.mem_cons_self _ _, rfl⟩
      · obtain ⟨h1, c2, h2, h3⟩ := ih _ w h
        exact ⟨h1, c2, List.mem_cons_of_mem _ h2, h3⟩
    · obtain ⟨h1, c2, h2, h3⟩ := ih _ w hw
      exact ⟨h1, c2, List.mem_cons_of_mem _ h2, h3⟩

theorem mem_destutter_ne {α : Type} [DecidableEq α] (a : α) (l : List α) :
    ∀ x ∈ a :: l, x ∈ List.destutter' (fun x y => x ≠ y) a l := by
  induction l generalizing a with
  | nil => simp
  | cons b l ih =>
    intro x hx
    by_cases h : a ≠ b
    · rw [List.destutter'_cons_pos _ h]
      rcases List.mem_cons.1 hx with h1 | h1
      · rw [h1]; exact List.mem_cons_self _ _
      · exact List.mem_cons_of_mem _ (ih b x h1)
    · rw [List.destutter'_cons_neg _ h]
      apply ih a
      rcases List.mem_cons.1 hx with h1 | h1
      · rw [h1]; exact List.mem_cons_self _ _
      · rcases List.mem_cons.1 h1 with h2 | h2
        · rw [h2]; simp only [ne_eq, not_not] at h; rw [h]; exact List.mem_cons_self _ _
        · exact List.mem_cons_of_mem _ h2

theorem mem_destutter_ne_iff (l : List (List Nat)) (x : List Nat) :
    x ∈ List.destutter (fun x y => x ≠ y) l ↔ x ∈ l := by
  constructor
  · intro h; exact (List.destutter_sublist _ l).subset h
  · intro h
    cases l with
    | nil => exact absurd h (List.not_mem_nil _)
    | cons a l => exact mem_destutter_ne a l x h

theorem chain_and {α : Type} (R S : α → α → Prop) (l : List α) (h1 : l.Chain' R)
    (h2 : l.Chain' S) : l.Chain' (fun a b => R a b ∧ S a b) := by
  induction l with
  | nil => exact List.chain'_nil
  | cons a l ih =>
    cases l with
    | nil => exact List.chain'_singleton a
    | cons b l =>
      rw [List.chain'_cons] at h1 h2 ⊢
      exact ⟨⟨h1.1, h2.1⟩, ih h1.2 h2.2⟩

theorem nodup_destutter_sorted (l : List (List Nat))
    (hl : l.Sorted (fun a b => key_le a b = true)) :
    (List.destutter (fun x y => x ≠ y) l).Nodup := by
  haveI : IsTrans (List Nat) (fun a b => key_le a b = true ∧ a ≠ b) :=
    ⟨fun a b c h1 h2 => ⟨key_le_trans a b c h1.1 h2.1, fun e => by
      subst e
      exact h1.2 (key_le_antisymm _ _ h1.1 h2.1)⟩⟩
  have hsub := List.destutter_sublist (fun x y : List Nat => x ≠ y) l
  have hsorted : (List.destutter (fun x y => x ≠ y) l).Pairwise
      (fun a b => key_le a b = true) := List.Pairwise.sublist hsub hl
  have hchain := List.destutter_is_chain' (fun x y : List Nat => x ≠ y) l
  have hchain2 : (List.destutter (fun x y => x ≠ y) l).Chain'
      (fun a b => key_le a b = true ∧ a ≠ b) := by
    exact chain_and _ _ _ (List.Pairwise.chain' hsorted) hchain
  exact (List.chain'_iff_pairwise.1 hchain2).imp (fun h => h.2)

/-! ## C6: one write per distinct domain -/

theorem sql_writes_map (ws : List PolicyRow) :
    sql_writes (ws.map (fun w => Event.insert_or_replace w.domain w.value)) = ws := by
  induction ws with
  | nil => rfl
  | cons w ws ih =>
    simp only [sql_writes] at ih
    simp [sql_writes, ih]

theorem ask_sql_writes (k : PolicyCodes) (gtk_dialog_run : Message → Int)
    (database : Option Store) (batch : List SoupCookie) :
    sql_writes (_cookie_permission_manager_ask_for_policy k gtk_dialog_run database batch).events =
      ask_writes (g_slist_sort batch _cookie_permission_manager_sort_cookies_by_domain)
        (gtk_dialog_run (ask_message batch)) := by
  have h := sql_writes_map (ask_writes
    (g_slist_sort batch _cookie_permission_manager_sort_cookies_by_domain)
    (gtk_dialog_run (ask_message batch)))
  simp only [sql_writes] at h
  simp only [_cookie_permission_manager_ask_for_policy, sql_writes, List.filterMap_cons,
    _cookie_permission_manager_get_number_domains_and_cookies]
  exact h

theorem ask_writes_keys (batch : List SoupCookie) (r : Int) (hr : 0 ≤ r) :
    (ask_writes (g_slist_sort batch _cookie_permission_manager_sort_cookies_by_domain) r).map
        row_key =
      List.destutter (fun x y => x ≠ y)
        ((batch.map domain_key).insertionSort (fun a b => key_le a b = true)) := by
  simp only [ask_writes, ge_iff_le, hr, if_true]
  rw [store_loop_none_keys, sorted_keys]

theorem ask_writes_rows (batch : List SoupCookie) (r : Int) :
    ∀ w ∈ ask_writes (g_slist_sort batch _cookie_permission_manager_sort_cookies_by_domain) r,
      w.value = r ∧ ∃ c ∈ batch, w.domain = skip_dot c.domain := by
  intro w hw
  simp only [ask_writes] at hw
  split_ifs at hw
  · obtain ⟨h1, c, h2, h3⟩ := store_loop_rows r none _ w hw
    refine ⟨h1, c, ?_, h3⟩
    unfold g_slist_sort at h2
    exact (List.mem_insertionSort _).1 h2
  · exact absurd hw (List.not_mem_nil _)

/-- C6, the claim as stated fails in its last part: the two cookies `A.com`
and `a.com` are one domain of the batch, and the batch gives one write in
either order, but the row written is `A.com` for one order and `a.com` for the
other: the set of writes is not the same for every permutation. -/
theorem C6_counterexample :
    sql_writes (_cookie_permission_manager_ask_for_policy enum_codes
        (fun _ => enum_codes.accept) (some [])
        [⟨"A.com".toList, "x".toList⟩, ⟨"a.com".toList, "y".toList⟩]).events =
        [⟨"A.com".toList, enum_codes.accept⟩] ∧
      sql_writes (_cookie_permission_manager_ask_for_policy enum_codes
        (fun _ => enum_codes.accept) (some [])
        [⟨"a.com".toList, "y".toList⟩, ⟨"A.com".toList, "x".toList⟩]).events =
        [⟨"a.com".toList, enum_codes.accept⟩] ∧
      ([⟨"a.com".toList, "y".toList⟩, ⟨"A.com".toList, "x".toList⟩] : List SoupCookie).Perm
        [⟨"A.com".toList, "x".toList⟩, ⟨"a.com".toList, "y".toList⟩] ∧
      (⟨"A.com".toList, enum_codes.accept⟩ : PolicyRow) ≠ ⟨"a.com".toList, enum_codes.accept⟩ :=
  ⟨by decide, by decide, List.Perm.swap _ _ _, by decide⟩

/-- C6, amended: for every list of cookies and every response `r` that is
not negative, `_cookie_permission_manager_ask_for_policy` executes exactly one
`INSERT OR REPLACE` per distinct domain of the batch (domains compared with
one leading dot skipped and ASCII case ignored): the number of writes is the
number of distinct domain keys, no two writes share a key, every cookie's
domain is written, every write carries the value `r` and the domain of a
cookie of the batch with its leading dot skipped. For every permutation of
the batch answered by the same `r` the writes are the same up to ASCII case
of the domain, in number and in order. -/
theorem C6_one_write_per_distinct_domain (k : PolicyCodes) (gtk_dialog_run : Message → Int)
    (database : Option Store) (batch : List SoupCookie) (r : Int) (hr : 0 ≤ r)
    (hrun : gtk_dialog_run (ask_message batch) = r) :
    (sql_writes (_cookie_permission_manager_ask_for_policy k gtk_dialog_run database
        batch).events).length = ((batch.map domain_key).dedup).length ∧
      ((sql_writes (_cookie_permission_manager_ask_for_policy k gtk_dialog_run database
        batch).events).map row_key).Nodup ∧
      (∀ c ∈ batch, ∃ w ∈ sql_writes (_cookie_permission_manager_ask_for_policy k
        gtk_dialog_run database batch).events, row_key w = domain_key c) ∧
      (∀ w ∈ sql_writes (_cookie_permission_manager_ask_for_policy k gtk_dialog_run database
        batch).events, w.value = r ∧ ∃ c ∈ batch, w.domain = skip_dot c.domain) ∧
      (∀ batch2 : List SoupCookie, batch2.Perm batch →
        gtk_dialog_run (ask_message batch2) = r →
        (sql_writes (_cookie_permission_manager_ask_for_policy k gtk_dialog_run database
          batch2).events).map (fun w => (row_key w, w.value)) =
        (sql_writes (_cookie_permission_manager_ask_for_policy k gtk_dialog_run database
          batch).events).map (fun w => (row_key w, w.value))) := by
  haveI : IsTotal (List Nat) (fun a b => key_le a b = true) := ⟨key_le_total⟩
  haveI : IsTrans (List Nat) (fun a b => key_le a b = true) := ⟨key_le_trans⟩
  have hkeys := ask_writes_keys batch r hr
  have hrows := ask_writes_rows batch r
  have hsorted : ((batch.map domain_key).insertionSort (fun a b => key_le a b = true)).Sorted
      (fun a b => key_le a b = true) := List.sorted_insertionSort _ _
  have hnodup := nodup_destutter_sorted _ hsorted
  have hmem : ∀ x, x ∈ List.destutter (fun x y => x ≠ y)
      ((batch.map domain_key).insertionSort (fun a b => key_le a b = true)) ↔
      x ∈ batch.map domain_key := by
    intro x
    rw [mem_destutter_ne_iff]
    exact List.mem_insertionSort _
  have hpairs : ∀ (b : List SoupCookie),
      (ask_writes (g_slist_sort b _cookie_permission_manager_sort_cookies_by_domain) r).map
          (fun w => (row_key w, w.value)) =
        ((ask_writes (g_slist_sort b _cookie_permission_manager_sort_cookies_by_domain) r).map
          row_key).map (fun x => (x, r)) := by
    intro b
    rw [List.map_map]
    apply List.map_congr_left
    intro w hw
    simp [(ask_writes_rows b r w hw).1]
  rw [ask_sql_writes, hrun]
  refine ⟨?_, ?_, ?_, hrows, ?_⟩
  · rw [← List.length_map _ row_key, hkeys]
    apply List.Perm.length_eq
    rw [List.perm_ext_iff_of_nodup hnodup (List.nodup_dedup _)]
    intro x
    rw [hmem, List.mem_dedup]
  · rw [hkeys]; exact hnodup
  · intro c hc
    have h1 : domain_key c ∈ (ask_writes
        (g_slist_sort batch _cookie_permission_manager_sort_cookies_by_domain) r).map row_key := by
      rw [hkeys, hmem]
      exact List.mem_map_of_mem _ hc
    obtain ⟨w, hw, hwk⟩ := List.mem_map.1 h1
    exact ⟨w, hw, hwk⟩
  · intro batch2 hperm hrun2
    rw [ask_sql_writes, hrun2, hpairs batch2, hpairs batch, hkeys, ask_writes_keys batch2 r hr,
      sorted_keys_perm batch batch2 hperm]

/-- C6 at the input named by the claim: five cookies across two domains,
answered with Accept, give exactly two writes, one per domain. -/
theorem C6_one_write_per_distinct_domain_witness :
    (sql_writes (_cookie_permission_manager_ask_for_policy enum_codes
        (fun _ => enum_codes.accept) (some [])
        [⟨"shop.example".toList, "a".toList⟩, ⟨".ads.example".toList, "b".toList⟩,
          ⟨".shop.example".toList, "c".toList⟩, ⟨"ADS.example".toList, "d".toList⟩,
          ⟨"shop.example".toList, "e".toList⟩]).events).length = 2 ∧
      sql_writes (_cookie_permission_manager_ask_for_policy enum_codes
        (fun _ => enum_codes.accept) (some [])
        [⟨"shop.example".toList, "a".toList⟩, ⟨".ads.example".toList, "b".toList⟩,
          ⟨".shop.example".toList, "c".toList⟩, ⟨"ADS.example".toList, "d".toList⟩,
          ⟨"shop.example".toList, "e".toList⟩]).events =
        [⟨"ads.example".toList, enum_codes.accept⟩, ⟨"shop.example".toList, enum_codes.accept⟩] :=
  ⟨(C6_one_write_per_distinct_domain enum_codes (fun _ => enum_codes.accept) (some [])
      [⟨"shop.example".toList, "a".toList⟩, ⟨".ads.example".toList, "b".toList⟩,
        ⟨".shop.example".toList, "c".toList⟩, ⟨"ADS.example".toList, "d".toList⟩,
        ⟨"shop.example".toList, "e".toList⟩] enum_codes.accept (by decide) rfl).1.trans
      (by decide),
    by decide⟩

/-! ## C7: closing the dialog -/

/-- C7: for every batch, when the dialog returns a negative response (it was
closed without a choice), `_cookie_permission_manager_ask_for_policy` returns
Block, executes no `INSERT OR REPLACE` and leaves the database exactly as it
was, and the only event is the dialog itself; when the response is one of the
three choices, it returns that choice. -/
theorem C7_dismissal_is_block_without_write (k : PolicyCodes) (gtk_dialog_run : Message → Int)
    (database : Option Store) (batch : List SoupCookie) :
    (gtk_dialog_run (ask_message batch) < 0 →
      (_cookie_permission_manager_ask_for_policy k gtk_dialog_run database batch).policy =
          k.block ∧
        (_cookie_permission_manager_ask_for_policy k gtk_dialog_run database batch).database =
          database ∧
        sql_writes (_cookie_permission_manager_ask_for_policy k gtk_dialog_run database
          batch).events = [] ∧
        (_cookie_permission_manager_ask_for_policy k gtk_dialog_run database batch).events =
          [Event.ask batch (ask_message batch)]) ∧
      (gtk_dialog_run (ask_message batch) = k.accept ∨
          gtk_dialog_run (ask_message batch) = k.accept_for_session ∨
          gtk_dialog_run (ask_message batch) = k.block →
        (_cookie_permission_manager_ask_for_policy k gtk_dialog_run database batch).policy =
          gtk_dialog_run (ask_message batch)) := by
  constructor
  · intro hneg
    have h0 : ¬ (gtk_dialog_run (ask_message batch) ≥ 0) := by omega
    have hw : ask_writes (g_slist_sort batch _cookie_permission_manager_sort_cookies_by_domain)
        (gtk_dialog_run (ask_message batch)) = [] := by
      simp [ask_writes, h0]
    refine ⟨?_, ?_, ?_, ?_⟩
    · simp [_cookie_permission_manager_ask_for_policy, h0]
    · simp only [_cookie_permission_manager_ask_for_policy,
        _cookie_permission_manager_get_number_domains_and_cookies, hw, exec_writes,
        List.foldl_nil]
      cases database <;> rfl
    · rw [ask_sql_writes, hw]
    · simp only [_cookie_permission_manager_ask_for_policy,
        _cookie_permission_manager_get_number_domains_and_cookies, hw, List.map_nil]
  · intro hchoice
    have h0 : gtk_dialog_run (ask_message batch) ≥ 0 := by
      have hn := k.nonneg
      rcases hchoice with h | h | h <;> rw [h] <;> omega
    simp [_cookie_permission_manager_ask_for_policy, h0]

/-- C7 at a concrete input: the dialog for one cookie is closed (response
`-4`, the delete event), the call returns Block and the database keeps its
one row; and the response Accept is returned as it is. -/
theorem C7_dismissal_is_block_without_write_witness :
    ((_cookie_permission_manager_ask_for_policy enum_codes (fun _ => -4)
        (some [⟨"b.com".toList, enum_codes.accept⟩])
        [⟨"a.com".toList, "id".toList⟩]).policy = enum_codes.block ∧
      (_cookie_permission_manager_ask_for_policy enum_codes (fun _ => -4)
        (some [⟨"b.com".toList, enum_codes.accept⟩])
        [⟨"a.com".toList, "id".toList⟩]).database =
        some [⟨"b.com".toList, enum_codes.accept⟩]) ∧
      (_cookie_permission_manager_ask_for_policy enum_codes (fun _ => enum_codes.accept)
        (some [⟨"b.com".toList, enum_codes.accept⟩])
        [⟨"a.com".toList, "id".toList⟩]).policy = enum_codes.accept :=
  ⟨⟨((C7_dismissal_is_block_without_write enum_codes (fun _ => -4)
        (some [⟨"b.com".toList, enum_codes.accept⟩]) [⟨"a.com".toList, "id".toList⟩]).1
        (by decide)).1,
      ((C7_dismissal_is_block_without_write enum_codes (fun _ => -4)
        (some [⟨"b.com".toList, enum_codes.accept⟩]) [⟨"a.com".toList, "id".toList⟩]).1
        (by decide)).2.1⟩,
    (C7_dismissal_is_block_without_write enum_codes (fun _ => enum_codes.accept)
      (some [⟨"b.com".toList, enum_codes.accept⟩]) [⟨"a.com".toList, "id".toList⟩]).2
      (Or.inl rfl)⟩

/-! ## C8: the numbers shown in the dialog -/

/-- C8, the code at the failing input: for the two cookies `.a.com` and
`a.com`, one domain under the batch order, the counting loop compares the
domains with the dot left in and counts two domains, so the dialog shows the
message for multiple websites, while the storing loop, which skips the dot,
writes one row. -/
theorem C8_count_at_failing_input :
    _cookie_permission_manager_sort_cookies_by_domain ⟨".a.com".toList, "x".toList⟩
        ⟨"a.com".toList, "y".toList⟩ = Ordering.eq ∧
      (_cookie_permission_manager_get_number_domains_and_cookies
        [⟨".a.com".toList, "x".toList⟩, ⟨"a.com".toList, "y".toList⟩]).2 = (2, 2) ∧
      ask_message [⟨".a.com".toList, "x".toList⟩, ⟨"a.com".toList, "y".toList⟩] =
        Message.multiple_websites 2 ∧
      sql_writes (_cookie_permission_manager_ask_for_policy enum_codes
        (fun _ => enum_codes.accept) (some [])
        [⟨".a.com".toList, "x".toList⟩, ⟨"a.com".toList, "y".toList⟩]).events =
        [⟨"a.com".toList, enum_codes.accept⟩] ∧
      (([⟨".a.com".toList, "x".toList⟩, ⟨"a.com".toList, "y".toList⟩] : List SoupCookie).map
        domain_key).dedup.length = 1 := by
  decide

/-! ## Facts about the response handler -/

theorem codes_facts (k : PolicyCodes) :
    k.undetermined ≠ k.accept ∧ k.undetermined ≠ k.accept_for_session ∧
      k.undetermined ≠ k.block ∧ k.accept ≠ k.accept_for_session ∧ k.accept ≠ k.block ∧
      k.accept_for_session ≠ k.block := by
  have h := k.distinct
  simp only [List.nodup_cons, List.mem_cons, List.mem_singleton, not_or, List.not_mem_nil,
    not_false_eq_true, List.nodup_nil, and_true] at h
  exact ⟨h.1.1, h.1.2.1, h.1.2.2, h.2.1.1, h.2.1.2, h.2.2⟩

theorem classify_loop_eq (k : PolicyCodes) (database : Option Store)
    (cookiePolicy : SoupCookieJarAcceptPolicy) (firstParty : Option SoupURI)
    (cookies unknown accepted : List SoupCookie) :
    classify_loop k database cookiePolicy firstParty cookies (unknown, accepted) =
      ((cookies.filter (fun c => policy_is_unknown k database c &&
          passes_accept_policy cookiePolicy firstParty c)).reverse ++ unknown,
        (cookies.filter (fun c => policy_is_accepted k database c &&
          passes_accept_policy cookiePolicy firstParty c)).reverse ++ accepted) := by
  obtain ⟨-, -, -, -, hab, hsb⟩ := codes_facts k
  induction cookies generalizing unknown accepted with
  | nil => simp [classify_loop]
  | cons c rest ih =>
    simp only [classify_loop, List.filter_cons]
    by_cases hb : _cookie_permission_manager_get_policy k database c = k.block
    · have hu : policy_is_unknown k database c = false := by
        simp [policy_is_unknown, hb]
      have hacc : policy_is_accepted k database c = false := by
        simp only [policy_is_accepted, hb, decide_eq_false_iff_not, not_or]
        exact ⟨fun e => hab e.symm, fun e => hsb e.symm⟩
      simp only [hb, if_true, ih, hu, hacc, Bool.false_and, Bool.false_eq_true, if_false]
    · by_cases ha : _cookie_permission_manager_get_policy k database c = k.accept ∨
          _cookie_permission_manager_get_policy k database c = k.accept_for_session
      · have hu : policy_is_unknown k database c = false := by
          simp only [policy_is_unknown, decide_eq_false_iff_not]
          intro h; rcases ha with ha | ha
          · exact h.2.1 ha
          · exact h.2.2 ha
        have hacc : policy_is_accepted k database c = true := by
          simp only [policy_is_accepted, decide_eq_true_eq]; exact ha
        by_cases hp : passes_accept_policy cookiePolicy firstParty c = true
        · simp only [hb, ha, if_true, if_false, ih, hu, hacc, hp, Bool.false_and,
            Bool.false_eq_true, Bool.and_self, List.reverse_cons, List.append_assoc,
            List.singleton_append]
        · simp only [Bool.not_eq_true] at hp
          simp only [hb, ha, if_true, if_false, ih, hu, hacc, hp, Bool.false_and,
            Bool.false_eq_true, Bool.and_false]
      · have hu : policy_is_unknown k database c = true := by
          simp only [policy_is_unknown, decide_eq_true_eq]
          exact ⟨hb, fun e => ha (Or.inl e), fun e => ha (Or.inr e)⟩
        have hacc : policy_is_accepted k database c = false := by
          simp only [policy_is_accepted, decide_eq_false_iff_not]; exact ha
        by_cases hp : passes_accept_policy cookiePolicy firstParty c = true
        · simp only [hb, ha, if_true, if_false, ih, hu, hacc, hp, Bool.false_and,
            Bool.false_eq_true, Bool.and_self, List.reverse_cons, List.append_assoc,
            List.singleton_append]
        · simp only [Bool.not_eq_true] at hp
          simp only [hb, ha, if_true, if_false, ih, hu, hacc, hp, Bool.false_and,
            Bool.false_eq_true, Bool.and_false]

theorem classified_eq (k : PolicyCodes) (database : Option Store)
    (cookiePolicy : SoupCookieJarAcceptPolicy) (inMessage : SoupMessage) :
    classified k database cookiePolicy inMessage =
      (inMessage.cookies.filter (fun c => policy_is_unknown k database c &&
          passes_accept_policy cookiePolicy inMessage.first_party c),
        inMessage.cookies.filter (fun c => policy_is_accepted k database c &&
          passes_accept_policy cookiePolicy inMessage.first_party c)) := by
  simp [classified, classify_loop_eq]

/-- On a store that holds decisions only, the lookup returns one of the four
codes. -/
theorem get_policy_range (k : PolicyCodes) (database : Option Store) (c : SoupCookie)
    (hvalid : valid_store k database) :
    _cookie_permission_manager_get_policy k database c = k.undetermined ∨
      _cookie_permission_manager_get_policy k database c = k.accept ∨
      _cookie_permission_manager_get_policy k database c = k.accept_for_session ∨
      _cookie_permission_manager_get_policy k database c = k.block := by
  cases database with
  | none => exact Or.inl rfl
  | some db =>
    simp only [_cookie_permission_manager_get_policy, get_policy_loop_eq_find]
    cases hfind : (select_like db (like_pattern c)).find?
        (fun r => soup_cookie_domain_matches c r.domain && decide (r.value ≠ k.undetermined)) with
    | none => exact Or.inl rfl
    | some b =>
      have hb := List.mem_of_find?_eq_some hfind
      exact Or.inr (hvalid db rfl b ((mem_select_like _ _ _).1 hb).1)

theorem policy_is_unknown_iff (k : PolicyCodes) (database : Option Store) (c : SoupCookie)
    (hvalid : valid_store k database) :
    policy_is_unknown k database c =
      decide (_cookie_permission_manager_get_policy k database c = k.undetermined) := by
  obtain ⟨hua, hus, hub, -, -, -⟩ := codes_facts k
  simp only [policy_is_unknown, decide_eq_decide]
  constructor
  · intro h
    rcases get_policy_range k database c hvalid with h1 | h1 | h1 | h1
    · exact h1
    · exact absurd h1 h.2.1
    · exact absurd h1 h.2.2
    · exact absurd h1 h.1
  · intro h
    rw [h]
    exact ⟨hub, hua, hus⟩

theorem prompts_jar_add (l : List SoupCookie) : prompts (l.map Event.jar_add) = [] := by
  induction l with
  | nil => rfl
  | cons c l ih =>
    simp only [prompts] at ih
    simp [prompts, ih]

theorem prompts_insert (ws : List PolicyRow) :
    prompts (ws.map (fun w => Event.insert_or_replace w.domain w.value)) = [] := by
  induction ws with
  | nil => rfl
  | cons w ws ih =>
    simp only [prompts] at ih
    simp [prompts, ih]

theorem prompts_append (l1 l2 : List Event) : prompts (l1 ++ l2) = prompts l1 ++ prompts l2 := by
  simp [prompts, List.filterMap_append]

theorem prompts_ask (k : PolicyCodes) (gtk_dialog_run : Message → Int)
    (database : Option Store) (batch : List SoupCookie) :
    prompts (_cookie_permission_manager_ask_for_policy k gtk_dialog_run database batch).events =
      [batch] := by
  have h := prompts_insert (ask_writes
    (g_slist_sort batch _cookie_permission_manager_sort_cookies_by_domain)
    (gtk_dialog_run (ask_message batch)))
  simp only [prompts] at h
  simp only [_cookie_permission_manager_ask_for_policy, prompts, List.filterMap_cons,
    _cookie_permission_manager_get_number_domains_and_cookies]
  rw [h]

theorem classified_unknown_eq (k : PolicyCodes) (database : Option Store)
    (cookiePolicy : SoupCookieJarAcceptPolicy) (inMessage : SoupMessage)
    (hvalid : valid_store k database) :
    (classified k database cookiePolicy inMessage).1 =
      undetermined_batch k database cookiePolicy inMessage := by
  rw [classified_eq]
  simp only [undetermined_batch]
  apply filter_congr_mem
  intro c _
  rw [policy_is_unknown_iff k database c hvalid]

theorem passes_no_third_party_iff (firstParty : Option SoupURI) (c : SoupCookie) :
    passes_accept_policy SoupCookieJarAcceptPolicy.no_third_party firstParty c = true ↔
      ∃ uri host, firstParty = some uri ∧ uri.host = some host ∧
        soup_cookie_domain_matches c host = true := by
  cases firstParty with
  | none => simp [passes_accept_policy]
  | some uri =>
    cases hh : uri.host with
    | none => simp [passes_accept_policy, hh]
    | some host => simp [passes_accept_policy, hh]

theorem passes_always (firstParty : Option SoupURI) (c : SoupCookie) :
    passes_accept_policy SoupCookieJarAcceptPolicy.always firstParty c = true := by
  simp [passes_accept_policy]

theorem passes_never (firstParty : Option SoupURI) (c : SoupCookie) :
    passes_accept_policy SoupCookieJarAcceptPolicy.never firstParty c = false := by
  simp [passes_accept_policy]

/-! ## C2: wildcard coverage -/

/-- C2, the claim as stated fails: with the single row `.example.com`
(Accept), and likewise with the single row `%example.com` (Accept), a cookie
whose domain is `sub.example.com` resolves to undetermined, not to Accept:
the row is not even a `LIKE` candidate for the parameter `sub.example.com`.
In the response handler the dialog is then run for the cookie and, answered
with Block, a row is written and nothing is added to the jar. -/
theorem C2_counterexample :
    _cookie_permission_manager_get_policy enum_codes
        (some [⟨".example.com".toList, enum_codes.accept⟩])
        ⟨"sub.example.com".toList, "id".toList⟩ = enum_codes.undetermined ∧
      _cookie_permission_manager_get_policy enum_codes
        (some [⟨"%example.com".toList, enum_codes.accept⟩])
        ⟨"sub.example.com".toList, "id".toList⟩ = enum_codes.undetermined ∧
      enum_codes.undetermined ≠ enum_codes.accept ∧
      _cookie_permission_manager_process_set_cookie_header enum_codes
        (fun _ => enum_codes.block) (some [⟨".example.com".toList, enum_codes.accept⟩])
        SoupCookieJarAcceptPolicy.always
        ⟨[⟨"sub.example.com".toList, "id".toList⟩], some ⟨some "sub.example.com".toList⟩⟩ =
        (some [⟨".example.com".toList, enum_codes.accept⟩,
            ⟨"sub.example.com".toList, enum_codes.block⟩],
          [Event.ask [⟨"sub.example.com".toList, "id".toList⟩]
              (Message.website_cookie "sub.example.com".toList),
            Event.insert_or_replace "sub.example.com".toList enum_codes.block]) := by
  decide

/-- C2, amended: the wildcard is on the side of the cookie. When the store
holds exactly one row, `sub.example.com` with decision Accept, the lookup
returns Accept for a cookie whose domain is `.example.com` (the dot marks
"example.com and its subdomains"), and the response handler, the jar
accepting every cookie, adds that cookie to the jar with no dialog and no
write; and a single row stored as `.example.com` or `%example.com` leaves a
cookie whose domain is `sub.example.com` undetermined, whatever the codes and
the cookie's name. -/
theorem C2_wildcard_is_the_cookie_domain (k : PolicyCodes) (name : List Char)
    (gtk_dialog_run : Message → Int) (firstParty : Option SoupURI) :
    _cookie_permission_manager_get_policy k (some [⟨"sub.example.com".toList, k.accept⟩])
        ⟨".example.com".toList, name⟩ = k.accept ∧
      _cookie_permission_manager_process_set_cookie_header k gtk_dialog_run
        (some [⟨"sub.example.com".toList, k.accept⟩]) SoupCookieJarAcceptPolicy.always
        ⟨[⟨".example.com".toList, name⟩], firstParty⟩ =
        (some [⟨"sub.example.com".toList, k.accept⟩],
          [Event.jar_add ⟨".example.com".toList, name⟩]) ∧
      _cookie_permission_manager_get_policy k (some [⟨".example.com".toList, k.accept⟩])
        ⟨"sub.example.com".toList, name⟩ = k.undetermined ∧
      _cookie_permission_manager_get_policy k (some [⟨"%example.com".toList, k.accept⟩])
        ⟨"sub.example.com".toList, name⟩ = k.undetermined := by
  have h1 : covers ⟨".example.com".toList, name⟩ ⟨"sub.example.com".toList, k.accept⟩ = true := by
    simp only [covers, like_pattern, soup_cookie_domain_matches]
    decide
  have h2 : covers ⟨"sub.example.com".toList, name⟩ ⟨".example.com".toList, k.accept⟩ = false := by
    simp only [covers, like_pattern, soup_cookie_domain_matches]
    decide
  have h3 : covers ⟨"sub.example.com".toList, name⟩ ⟨"%example.com".toList, k.accept⟩ = false := by
    simp only [covers, like_pattern, soup_cookie_domain_matches]
    decide
  have hp : _cookie_permission_manager_get_policy k
      (some [⟨"sub.example.com".toList, k.accept⟩]) ⟨".example.com".toList, name⟩ = k.accept := by
    rw [get_policy_singleton, h1]; rfl
  refine ⟨hp, ?_, ?_, ?_⟩
  · obtain ⟨hua, hus, hub, has, hab, hsb⟩ := codes_facts k
    have hu : policy_is_unknown k (some [⟨"sub.example.com".toList, k.accept⟩])
        ⟨".example.com".toList, name⟩ = false := by
      simp only [policy_is_unknown, hp, decide_eq_false_iff_not]
      exact fun h => h.2.1 rfl
    have ha : policy_is_accepted k (some [⟨"sub.example.com".toList, k.accept⟩])
        ⟨".example.com".toList, name⟩ = true := by
      simp only [policy_is_accepted, hp, decide_eq_true_eq]
      exact Or.inl trivial
    have hcl : classified k (some [⟨"sub.example.com".toList, k.accept⟩])
        SoupCookieJarAcceptPolicy.always ⟨[⟨".example.com".toList, name⟩], firstParty⟩ =
        ([], [⟨".example.com".toList, name⟩]) := by
      rw [classified_eq]
      simp only [List.filter, hu, ha, passes_always, Bool.false_and, Bool.and_self]
    simp only [_cookie_permission_manager_process_set_cookie_header, hcl]
    rfl
  · rw [get_policy_singleton, h2]; rfl
  · rw [get_policy_singleton, h3]; rfl

/-! ## C9: one prompt per response -/

/-- C10: when the jar accepts no third party, a cookie of the response whose
policy is accept or accept for session is put on the accepted list, and one
whose policy is undetermined on the list of unknown cookies, if and only if
the first party is present, has a host, and the cookie's domain matches that
host; when the jar accepts every cookie, each such cookie is put on its list.
When the jar accepts no third party and the message has no first party, the
handler produces no event: nothing is added to the jar, no dialog is run and
the database is as before. -/
theorem C10_third_party_filter (k : PolicyCodes) (gtk_dialog_run : Message → Int)
    (database : Option Store) (inMessage : SoupMessage) :
    (∀ c ∈ inMessage.cookies,
      (_cookie_permission_manager_get_policy k database c = k.accept ∨
        _cookie_permission_manager_get_policy k database c = k.accept_for_session) →
      (c ∈ (classified k database SoupCookieJarAcceptPolicy.no_third_party inMessage).2 ↔
        ∃ uri host, inMessage.first_party = some uri ∧ uri.host = some host ∧
          soup_cookie_domain_matches c host = true) ∧
      c ∈ (classified k database SoupCookieJarAcceptPolicy.always inMessage).2) ∧
    (∀ c ∈ inMessage.cookies,
      _cookie_permission_manager_get_policy k database c = k.undetermined →
      (c ∈ (classified k database SoupCookieJarAcceptPolicy.no_third_party inMessage).1 ↔
        ∃ uri host, inMessage.first_party = some uri ∧ uri.host = some host ∧
          soup_cookie_domain_matches c host = true) ∧
      c ∈ (classified k database SoupCookieJarAcceptPolicy.always inMessage).1) ∧
    (inMessage.first_party = none →
      _cookie_permission_manager_process_set_cookie_header k gtk_dialog_run database
        SoupCookieJarAcceptPolicy.no_third_party inMessage = (database, [])) := by
  obtain ⟨hua, hus, hub, -, -, -⟩ := codes_facts k
  refine ⟨?_, ?_, ?_⟩
  · intro c hc hp
    have hacc : policy_is_accepted k database c = true := by
      simp only [policy_is_accepted, decide_eq_true_eq]; exact hp
    simp only [classified_eq, List.mem_filter, hc, hacc, Bool.true_and, true_and,
      passes_always, and_true]
    exact passes_no_third_party_iff _ _
  · intro c hc hp
    have hu : policy_is_unknown k database c = true := by
      simp only [policy_is_unknown, decide_eq_true_eq, hp]
      exact ⟨hub, hua, hus⟩
    simp only [classified_eq, List.mem_filter, hc, hu, Bool.true_and, true_and,
      passes_always, and_true]
    exact passes_no_third_party_iff _ _
  · intro hfp
    have hpass : ∀ c, passes_accept_policy SoupCookieJarAcceptPolicy.no_third_party
        inMessage.first_party c = false := by
      intro c; simp [passes_accept_policy, hfp]
    have hcl : classified k database SoupCookieJarAcceptPolicy.no_third_party inMessage =
        ([], []) := by
      simp [classified_eq, hpass]
    simp [_cookie_permission_manager_process_set_cookie_header, hcl]

/-- C10 at a concrete input: `a.com` and `b.com` are stored with Accept, the
first party is `a.com`; with no third party accepted, the cookie of `a.com`
is on the accepted list and the cookie of `b.com` is not. -/
theorem C10_third_party_filter_witness :
    (⟨"a.com".toList, "x".toList⟩ : SoupCookie) ∈
        (classified enum_codes
          (some [⟨"a.com".toList, enum_codes.accept⟩, ⟨"b.com".toList, enum_codes.accept⟩])
          SoupCookieJarAcceptPolicy.no_third_party
          ⟨[⟨"a.com".toList, "x".toList⟩, ⟨"b.com".toList, "y".toList⟩],
            some ⟨some "a.com".toList⟩⟩).2 ∧
      (⟨"b.com".toList, "y".toList⟩ : SoupCookie) ∉
        (classified enum_codes
          (some [⟨"a.com".toList, enum_codes.accept⟩, ⟨"b.com".toList, enum_codes.accept⟩])
          SoupCookieJarAcceptPolicy.no_third_party
          ⟨[⟨"a.com".toList, "x".toList⟩, ⟨"b.com".toList, "y".toList⟩],
            some ⟨some "a.com".toList⟩⟩).2 :=
  ⟨((C10_third_party_filter enum_codes (fun _ => enum_codes.block)
      (some [⟨"a.com".toList, enum_codes.accept⟩, ⟨"b.com".toList, enum_codes.accept⟩])
      ⟨[⟨"a.com".toList, "x".toList⟩, ⟨"b.com".toList, "y".toList⟩],
        some ⟨some "a.com".toList⟩⟩).1 ⟨"a.com".toList, "x".toList⟩ (by decide)
      (Or.inl (by decide))).1.2 ⟨⟨some "a.com".toList⟩, "a.com".toList, rfl, rfl, by decide⟩,
    by decide⟩

/-! ## C11: the order of the cookies -/

theorem jar_additions_jar_add (l : List SoupCookie) :
    jar_additions (l.map Event.jar_add) = l := by
  induction l with
  | nil => rfl
  | cons c l ih =>
    simp only [jar_additions] at ih
    simp [jar_additions, ih]

theorem jar_additions_insert (ws : List PolicyRow) :
    jar_additions (ws.map (fun w => Event.insert_or_replace w.domain w.value)) = [] := by
  induction ws with
  | nil => rfl
  | cons w ws ih =>
    simp only [jar_additions] at ih
    simp [jar_additions, ih]

theorem jar_additions_append (l1 l2 : List Event) :
    jar_additions (l1 ++ l2) = jar_additions l1 ++ jar_additions l2 := by
  simp [jar_additions, List.filterMap_append]

theorem jar_additions_ask (k : PolicyCodes) (gtk_dialog_run : Message → Int)
    (database : Option Store) (batch : List SoupCookie) :
    jar_additions (_cookie_permission_manager_ask_for_policy k gtk_dialog_run database
      batch).events = [] := by
  have h := jar_additions_insert (ask_writes
    (g_slist_sort batch _cookie_permission_manager_sort_cookies_by_domain)
    (gtk_dialog_run (ask_message batch)))
  simp only [jar_additions] at h
  simp only [_cookie_permission_manager_ask_for_policy, jar_additions, List.filterMap_cons,
    _cookie_permission_manager_get_number_domains_and_cookies]
  rw [h]

theorem classified_accepted_eq (k : PolicyCodes) (database : Option Store)
    (cookiePolicy : SoupCookieJarAcceptPolicy) (inMessage : SoupMessage) :
    (classified k database cookiePolicy inMessage).2 =
      accepted_batch k database cookiePolicy inMessage := by
  rw [classified_eq]; rfl

/-- C11: on a store that holds decisions only, for every response the list
of cookies handed to the prompt, when one is run, is the subsequence of the
response's cookies that resolve to undetermined and pass the filter, in the
order of the response; and the sequence of jar additions is that list (when
the prompt was run and returned accept or accept for session, otherwise
nothing) followed by the subsequence of the accepted cookies that pass the
filter, in the order of the response. -/
theorem C11_order_preservation (k : PolicyCodes) (gtk_dialog_run : Message → Int)
    (database : Option Store) (cookiePolicy : SoupCookieJarAcceptPolicy)
    (inMessage : SoupMessage) (hvalid : valid_store k database) :
    (∀ batch ∈ prompts (_cookie_permission_manager_process_set_cookie_header k gtk_dialog_run
        database cookiePolicy inMessage).2,
      batch = undetermined_batch k database cookiePolicy inMessage) ∧
    (undetermined_batch k database cookiePolicy inMessage).Sublist inMessage.cookies ∧
    (accepted_batch k database cookiePolicy inMessage).Sublist inMessage.cookies ∧
    jar_additions (_cookie_permission_manager_process_set_cookie_header k gtk_dialog_run
        database cookiePolicy inMessage).2 =
      (if undetermined_batch k database cookiePolicy inMessage ≠ [] ∧
          ((_cookie_permission_manager_ask_for_policy k gtk_dialog_run database
              (undetermined_batch k database cookiePolicy inMessage)).policy = k.accept ∨
            (_cookie_permission_manager_ask_for_policy k gtk_dialog_run database
              (undetermined_batch k database cookiePolicy inMessage)).policy =
              k.accept_for_session)
        then undetermined_batch k database cookiePolicy inMessage else []) ++
      accepted_batch k database cookiePolicy inMessage := by
  have hbatch := classified_unknown_eq k database cookiePolicy inMessage hvalid
  have hacc := classified_accepted_eq k database cookiePolicy inMessage
  refine ⟨?_, List.filter_sublist _, List.filter_sublist _, ?_⟩
  · intro batch hb
    unfold _cookie_permission_manager_process_set_cookie_header at hb
    by_cases hn : cookiePolicy = SoupCookieJarAcceptPolicy.never
    · simp [hn, prompts] at hb
    · simp only [hn, if_false, hbatch, hacc] at hb
      split_ifs at hb
      · simp only [prompts_append, prompts_ask, prompts_jar_add, List.append_nil,
          List.mem_singleton] at hb
        exact hb
      · simp only [prompts_append, prompts_ask, prompts_jar_add, List.append_nil,
          List.mem_singleton] at hb
        exact hb
      · rw [prompts_jar_add] at hb
        exact absurd hb (List.not_mem_nil _)
  · unfold _cookie_permission_manager_process_set_cookie_header
    by_cases hn : cookiePolicy = SoupCookieJarAcceptPolicy.never
    · subst hn
      have he : undetermined_batch k database SoupCookieJarAcceptPolicy.never inMessage = [] := by
        simp [undetermined_batch, passes_never]
      have ha : accepted_batch k database SoupCookieJarAcceptPolicy.never inMessage = [] := by
        simp [accepted_batch, passes_never]
      simp [he, ha, jar_additions]
    · simp only [hn, if_false, hbatch, hacc]
      by_cases he : undetermined_batch k database cookiePolicy inMessage = []
      · simp only [he, List.length_nil, gt_iff_lt, lt_self_iff_false, if_false, ne_eq,
          not_true_eq_false, false_and, List.nil_append]
        exact jar_additions_jar_add _
      · have hlen : (undetermined_batch k database cookiePolicy inMessage).length > 0 :=
          List.length_pos.2 he
        simp only [hlen, if_true, ne_eq, he, not_false_eq_true, true_and]
        split_ifs
        · simp only [jar_additions_append, jar_additions_ask, jar_additions_jar_add,
            List.nil_append]
        · simp only [jar_additions_append, jar_additions_ask, jar_additions_jar_add,
            List.nil_append]

/-- C11 at a concrete input: `b.com` is stored with Accept and `d.com` with
accept for session, the response sets cookies for `a.com`, `b.com`, `c.com`
and `d.com`, the prompt returns Accept; the jar receives `a.com`, `c.com`,
then `b.com`, `d.com`. -/
theorem C11_order_preservation_witness :
    jar_additions (_cookie_permission_manager_process_set_cookie_header enum_codes
        (fun _ => enum_codes.accept)
        (some [⟨"b.com".toList, enum_codes.accept⟩,
          ⟨"d.com".toList, enum_codes.accept_for_session⟩])
        SoupCookieJarAcceptPolicy.always
        ⟨[⟨"a.com".toList, "w".toList⟩, ⟨"b.com".toList, "x".toList⟩,
          ⟨"c.com".toList, "y".toList⟩, ⟨"d.com".toList, "z".toList⟩], none⟩).2 =
      [⟨"a.com".toList, "w".toList⟩, ⟨"c.com".toList, "y".toList⟩,
        ⟨"b.com".toList, "x".toList⟩, ⟨"d.com".toList, "z".toList⟩] :=
  (C11_order_preservation enum_codes (fun _ => enum_codes.accept)
    (some [⟨"b.com".toList, enum_codes.accept⟩,
      ⟨"d.com".toList, enum_codes.accept_for_session⟩])
    SoupCookieJarAcceptPolicy.always
    ⟨[⟨"a.com".toList, "w".toList⟩, ⟨"b.com".toList, "x".toList⟩,
      ⟨"c.com".toList, "y".toList⟩, ⟨"d.com".toList, "z".toList⟩], none⟩
    (fun db h => by cases h; decide)).2.2.2.trans (by decide)

/-! ## Facts about lookups that stay undetermined -/

/-- A lookup is undetermined exactly when every stored row that covers the
cookie carries the value undetermined. -/
theorem get_policy_undetermined_iff (k : PolicyCodes) (db : Store) (c : SoupCookie) :
    _cookie_permission_manager_get_policy k (some db) c = k.undetermined ↔
      ∀ r ∈ db, covers c r = true → r.value = k.undetermined := by
  simp only [_cookie_permission_manager_get_policy, get_policy_loop_eq_find]
  constructor
  · intro h r hr hcov
    simp only [covers, Bool.and_eq_true] at hcov
    cases hfind : (select_like db (like_pattern c)).find?
        (fun r => soup_cookie_domain_matches c r.domain && decide (r.value ≠ k.undetermined)) with
    | none =>
      have h1 := List.find?_eq_none.1 hfind r ((mem_select_like _ _ _).2 ⟨hr, hcov.1⟩)
      simpa [hcov.2] using h1
    | some b =>
      rw [hfind] at h
      have h2 := List.find?_some hfind
      simp only [Bool.and_eq_true, decide_eq_true_eq] at h2
      exact absurd h h2.2
  · intro h
    have hnone : (select_like db (like_pattern c)).find?
        (fun r => soup_cookie_domain_matches c r.domain && decide (r.value ≠ k.undetermined)) =
        none := by
      rw [List.find?_eq_none]
      intro x hx
      have hx2 := (mem_select_like _ _ _).1 hx
      simp only [Bool.and_eq_true, decide_eq_true_eq, not_and, not_not]
      intro hm
      exact h x hx2.1 (by simp [covers, hx2.2, hm])
    rw [hnone]

/-- A row whose domain is the cookie's domain up to the leading dot and ASCII
case covers the cookie. -/
theorem covers_of_key_eq (c : SoupCookie) (w : PolicyRow) (h : row_key w = domain_key c) :
    covers c w = true := by
  simp only [row_key, domain_key] at h
  simp only [covers, like_pattern, soup_cookie_domain_matches, soup_host_matches_host,
    Bool.and_eq_true]
  cases hd : c.domain with
  | nil =>
    rw [hd] at h
    have hw : w.domain = [] := by simpa [casefold, skip_dot] using h
    simp [hw, sqlite3_like, g_ascii_strcasecmp]
  | cons c0 rest =>
    rw [hd] at h
    by_cases h0 : c0 = '.'
    · subst h0
      simp only [skip_dot, if_true] at h
      have heq : g_ascii_strcasecmp rest w.domain = Ordering.eq :=
        (strcasecmp_eq_iff_casefold _ _).2 h.symm
      constructor
      · simp only [if_true, sqlite3_like]
        exact like_any_tail_self _ _ (sqlite3_like_of_casefold_eq _ _ h.symm)
      · simp [heq]
    · simp only [skip_dot, h0, if_false] at h
      have heq : g_ascii_strcasecmp (c0 :: rest) w.domain = Ordering.eq :=
        (strcasecmp_eq_iff_casefold _ _).2 h.symm
      constructor
      · simp only [h0, if_false]
        exact sqlite3_like_of_casefold_eq _ _ h.symm
      · simp [heq]

/-- What the storing loop writes for a response that is not negative: one
row per distinct domain key, each with the response as value. -/
theorem ask_writes_facts (batch : List SoupCookie) (r : Int) (hr : 0 ≤ r) :
    ((ask_writes (g_slist_sort batch _cookie_permission_manager_sort_cookies_by_domain) r).map
        row_key).Nodup ∧
      (ask_writes (g_slist_sort batch _cookie_permission_manager_sort_cookies_by_domain)
        r).length = ((batch.map domain_key).dedup).length ∧
      (∀ c ∈ batch, ∃ w ∈ ask_writes
        (g_slist_sort batch _cookie_permission_manager_sort_cookies_by_domain) r,
        row_key w = domain_key c) := by
  haveI : IsTotal (List Nat) (fun a b => key_le a b = true) := ⟨key_le_total⟩
  haveI : IsTrans (List Nat) (fun a b => key_le a b = true) := ⟨key_le_trans⟩
  have hkeys := ask_writes_keys batch r hr
  have hsorted : ((batch.map domain_key).insertionSort (fun a b => key_le a b = true)).Sorted
      (fun a b => key_le a b = true) := List.sorted_insertionSort _ _
  have hnodup := nodup_destutter_sorted _ hsorted
  have hmem : ∀ x, x ∈ List.destutter (fun x y => x ≠ y)
      ((batch.map domain_key).insertionSort (fun a b => key_le a b = true)) ↔
      x ∈ batch.map domain_key := by
    intro x
    rw [mem_destutter_ne_iff]
    exact List.mem_insertionSort _
  refine ⟨?_, ?_, ?_⟩
  · rw [hkeys]; exact hnodup
  · rw [← List.length_map _ row_key, hkeys]
    apply List.Perm.length_eq
    rw [List.perm_ext_iff_of_nodup hnodup (List.nodup_dedup _)]
    intro x
    rw [hmem, List.mem_dedup]
  · intro c hc
    have h1 : domain_key c ∈ (ask_writes
        (g_slist_sort batch _cookie_permission_manager_sort_cookies_by_domain) r).map row_key := by
      rw [hkeys, hmem]
      exact List.mem_map_of_mem _ hc
    obtain ⟨w, hw, hwk⟩ := List.mem_map.1 h1
    exact ⟨w, hw, hwk⟩

/-- Writes of pairwise distinct domains, none of them stored yet, are appended
to the table. -/
theorem foldl_insert_eq_append (ws : List PolicyRow) (db : Store)
    (hnew : ∀ w ∈ ws, ∀ r ∈ db, r.domain ≠ w.domain)
    (hdistinct : ws.Pairwise (fun a b => a.domain ≠ b.domain)) :
    ws.foldl (fun d w => insert_or_replace d w.domain w.value) db = db ++ ws := by
  induction ws generalizing db with
  | nil => simp
  | cons w ws ih =>
    have hw : insert_or_replace db w.domain w.value = db ++ [w] := by
      simp only [insert_or_replace]
      congr 1
      rw [List.filter_eq_self]
      intro r hr
      simpa using hnew w (List.mem_cons_self _ _) r hr
    simp only [List.foldl_cons, hw]
    rw [ih]
    · simp
    · intro w2 hw2 r hr
      rcases List.mem_append.1 hr with h | h
      · exact hnew w2 (List.mem_cons_of_mem _ hw2) r h
      · rw [List.mem_singleton.1 h]
        exact List.rel_of_pairwise_cons hdistinct hw2
    · exact (List.pairwise_cons.1 hdistinct).2

/-! ## C12: a blocked response, end to end -/

theorem sql_writes_jar_add (l : List SoupCookie) : sql_writes (l.map Event.jar_add) = [] := by
  induction l with
  | nil => rfl
  | cons c l ih =>
    simp only [sql_writes] at ih
    simp [sql_writes, ih]

theorem sql_writes_append (l1 l2 : List Event) :
    sql_writes (l1 ++ l2) = sql_writes l1 ++ sql_writes l2 := by
  simp [sql_writes, List.filterMap_append]

theorem ask_database (k : PolicyCodes) (gtk_dialog_run : Message → Int)
    (database : Option Store) (batch : List SoupCookie) :
    (_cookie_permission_manager_ask_for_policy k gtk_dialog_run database batch).database =
      exec_writes database (ask_writes
        (g_slist_sort batch _cookie_permission_manager_sort_cookies_by_domain)
        (gtk_dialog_run (ask_message batch))) := rfl

theorem ask_policy (k : PolicyCodes) (gtk_dialog_run : Message → Int)
    (database : Option Store) (batch : List SoupCookie)
    (h : 0 ≤ gtk_dialog_run (ask_message batch)) :
    (_cookie_permission_manager_ask_for_policy k gtk_dialog_run database batch).policy =
      gtk_dialog_run (ask_message batch) := by
  simp [_cookie_permission_manager_ask_for_policy, h]

/-- The rows written for a batch of cookies that are all undetermined on a
store of decisions carry domains the store does not hold yet, pairwise
distinct. -/
theorem ask_writes_fresh (k : PolicyCodes) (db : Store) (batch : List SoupCookie) (r : Int)
    (hr : 0 ≤ r) (hvalid : valid_store k (some db))
    (hall : ∀ c ∈ batch, _cookie_permission_manager_get_policy k (some db) c = k.undetermined) :
    (∀ w ∈ ask_writes (g_slist_sort batch _cookie_permission_manager_sort_cookies_by_domain) r,
        ∀ row ∈ db, row.domain ≠ w.domain) ∧
      (ask_writes (g_slist_sort batch _cookie_permission_manager_sort_cookies_by_domain)
        r).Pairwise (fun a b => a.domain ≠ b.domain) := by
  constructor
  · intro w hw row hrow heq
    obtain ⟨-, c, hc, hwc⟩ := ask_writes_rows batch r w hw
    have hcov : covers c row = true := by
      apply covers_of_key_eq
      simp only [row_key, domain_key, heq, hwc]
    have hu := (get_policy_undetermined_iff k db c).1 (hall c hc) row hrow hcov
    exact codes_ne_undetermined k row.value (hvalid db rfl row hrow) hu
  · have hnodup := (ask_writes_facts batch r hr).1
    rw [List.Nodup, List.pairwise_map] at hnodup
    exact hnodup.imp (fun h e => h (by simp only [row_key, e]))

/-- C12: for every response all of whose cookies are undetermined on an open
store of decisions, with the jar accepting every cookie and the prompt
returning Block, the response handler adds no cookie to the jar and the store
afterwards is the store before followed by the rows written: one row per
distinct cookie domain (one leading dot skipped, ASCII case ignored), each
with the value Block and a domain the store did not hold. -/
theorem C12_block_end_to_end (k : PolicyCodes) (gtk_dialog_run : Message → Int) (db : Store)
    (inMessage : SoupMessage) (hvalid : valid_store k (some db))
    (hall : ∀ c ∈ inMessage.cookies,
      _cookie_permission_manager_get_policy k (some db) c = k.undetermined)
    (hrun : gtk_dialog_run (ask_message inMessage.cookies) = k.block) :
    jar_additions (_cookie_permission_manager_process_set_cookie_header k gtk_dialog_run
        (some db) SoupCookieJarAcceptPolicy.always inMessage).2 = [] ∧
      (_cookie_permission_manager_process_set_cookie_header k gtk_dialog_run (some db)
        SoupCookieJarAcceptPolicy.always inMessage).1 =
        some (db ++ sql_writes (_cookie_permission_manager_process_set_cookie_header k
          gtk_dialog_run (some db) SoupCookieJarAcceptPolicy.always inMessage).2) ∧
      (∀ w ∈ sql_writes (_cookie_permission_manager_process_set_cookie_header k gtk_dialog_run
          (some db) SoupCookieJarAcceptPolicy.always inMessage).2,
        w.value = k.block ∧ (∃ c ∈ inMessage.cookies, w.domain = skip_dot c.domain) ∧
          ∀ row ∈ db, row.domain ≠ w.domain) ∧
      ((sql_writes (_cookie_permission_manager_process_set_cookie_header k gtk_dialog_run
          (some db) SoupCookieJarAcceptPolicy.always inMessage).2).map row_key).Nodup ∧
      (sql_writes (_cookie_permission_manager_process_set_cookie_header k gtk_dialog_run
          (some db) SoupCookieJarAcceptPolicy.always inMessage).2).length =
        ((inMessage.cookies.map domain_key).dedup).length ∧
      (∀ c ∈ inMessage.cookies,
        ∃ w ∈ sql_writes (_cookie_permission_manager_process_set_cookie_header k gtk_dialog_run
          (some db) SoupCookieJarAcceptPolicy.always inMessage).2, row_key w = domain_key c) := by
  obtain ⟨hua, hus, hub, -, hab, hsb⟩ := codes_facts k
  have hr : (0 : Int) ≤ k.block := k.nonneg.2.2
  have hbatch : (classified k (some db) SoupCookieJarAcceptPolicy.always inMessage).1 =
      inMessage.cookies := by
    rw [classified_unknown_eq k (some db) _ inMessage hvalid]
    simp only [undetermined_batch, passes_always, Bool.and_true]
    rw [List.filter_eq_self]
    intro c hc
    simp [hall c hc]
  have hacc : (classified k (some db) SoupCookieJarAcceptPolicy.always inMessage).2 = [] := by
    rw [classified_accepted_eq]
    simp only [accepted_batch, passes_always, Bool.and_true]
    rw [List.filter_eq_nil_iff]
    intro c hc
    simp only [policy_is_accepted, hall c hc, decide_eq_true_eq, not_or]
    exact ⟨hua, hus⟩
  have hfacts := ask_writes_facts inMessage.cookies k.block hr
  have hfresh := ask_writes_fresh k db inMessage.cookies k.block hr hvalid hall
  have hrows := ask_writes_rows inMessage.cookies k.block
  have hres : _cookie_permission_manager_process_set_cookie_header k gtk_dialog_run (some db)
      SoupCookieJarAcceptPolicy.always inMessage =
      (some (db ++ ask_writes
          (g_slist_sort inMessage.cookies _cookie_permission_manager_sort_cookies_by_domain)
          k.block),
        if inMessage.cookies.length > 0 then
          (_cookie_permission_manager_ask_for_policy k gtk_dialog_run (some db)
            inMessage.cookies).events
        else []) := by
    unfold _cookie_permission_manager_process_set_cookie_header
    simp only [reduceCtorEq, if_false, hbatch, hacc, List.map_nil, List.append_nil]
    by_cases hlen : inMessage.cookies.length > 0
    · have hpol : (_cookie_permission_manager_ask_for_policy k gtk_dialog_run (some db)
          inMessage.cookies).policy = k.block := by
        rw [ask_policy _ _ _ _ (by rw [hrun]; exact hr), hrun]
      have hno : ¬ (k.block = k.accept ∨ k.block = k.accept_for_session) := by
        intro h; rcases h with h | h
        · exact hab h.symm
        · exact hsb h.symm
      simp only [hlen, if_true, hpol, hno, if_false, ask_database, hrun, exec_writes,
        Option.map_some']
      rw [foldl_insert_eq_append _ _ hfresh.1 hfresh.2]
    · have hnil : inMessage.cookies = [] := by
        cases hc : inMessage.cookies with
        | nil => rfl
        | cons a l => rw [hc] at hlen; simp at hlen
      simp only [hlen, if_false]
      rw [hnil]
      simp [ask_writes, g_slist_sort, store_loop]
  have hW : sql_writes (_cookie_permission_manager_process_set_cookie_header k gtk_dialog_run
      (some db) SoupCookieJarAcceptPolicy.always inMessage).2 =
      ask_writes
        (g_slist_sort inMessage.cookies _cookie_permission_manager_sort_cookies_by_domain)
        k.block := by
    rw [hres]
    by_cases hlen : inMessage.cookies.length > 0
    · simp only [hlen, if_true]
      rw [ask_sql_writes, hrun]
    · have hnil : inMessage.cookies = [] := by
        cases hc : inMessage.cookies with
        | nil => rfl
        | cons a l => rw [hc] at hlen; simp at hlen
      simp only [hlen, if_false]
      rw [hnil]
      simp [ask_writes, g_slist_sort, store_loop, sql_writes]
  refine ⟨?_, ?_, ?_, ?_, ?_, ?_⟩
  · rw [hres]
    by_cases hlen : inMessage.cookies.length > 0
    · simp only [hlen, if_true]
      exact jar_additions_ask k gtk_dialog_run (some db) inMessage.cookies
    · simp only [hlen, if_false]
      rfl
  · rw [hW, hres]
  · rw [hW]
    intro w hw
    exact ⟨(hrows w hw).1, (hrows w hw).2, hfresh.1 w hw⟩
  · rw [hW]; exact hfacts.1
  · rw [hW]; exact hfacts.2.1
  · rw [hW]; exact hfacts.2.2

/-- C12 at the input named by the claim: cookies for `shop.example` and
`ads.example` on an empty store, the prompt returning Block, leave the jar as
it was and the store with exactly the two rows `ads.example` and
`shop.example`, both Block. -/
theorem C12_block_end_to_end_witness :
    jar_additions (_cookie_permission_manager_process_set_cookie_header enum_codes
        (fun _ => enum_codes.block) (some []) SoupCookieJarAcceptPolicy.always
        ⟨[⟨"shop.example".toList, "session".toList⟩, ⟨"ads.example".toList, "track".toList⟩],
          some ⟨some "shop.example".toList⟩⟩).2 = [] ∧
      (_cookie_permission_manager_process_set_cookie_header enum_codes
        (fun _ => enum_codes.block) (some []) SoupCookieJarAcceptPolicy.always
        ⟨[⟨"shop.example".toList, "session".toList⟩, ⟨"ads.example".toList, "track".toList⟩],
          some ⟨some "shop.example".toList⟩⟩).1 =
        some [⟨"ads.example".toList, enum_codes.block⟩,
          ⟨"shop.example".toList, enum_codes.block⟩] :=
  ⟨(C12_block_end_to_end enum_codes (fun _ => enum_codes.block) []
      ⟨[⟨"shop.example".toList, "session".toList⟩, ⟨"ads.example".toList, "track".toList⟩],
        some ⟨some "shop.example".toList⟩⟩
      (fun db h => by cases h; decide) (by decide) rfl).1,
    by decide⟩

/-! ## C13: cookies added outside a request -/

theorem jar_deletions_insert (ws : List PolicyRow) :
    jar_deletions (ws.map (fun w => Event.insert_or_replace w.domain w.value)) = [] := by
  induction ws with
  | nil => rfl
  | cons w ws ih =>
    simp only [jar_deletions] at ih
    simp [jar_deletions, ih]

theorem jar_deletions_append (l1 l2 : List Event) :
    jar_deletions (l1 ++ l2) = jar_deletions l1 ++ jar_deletions l2 := by
  simp [jar_deletions, List.filterMap_append]

theorem jar_deletions_ask (k : PolicyCodes) (gtk_dialog_run : Message → Int)
    (database : Option Store) (batch : List SoupCookie) :
    jar_deletions (_cookie_permission_manager_ask_for_policy k gtk_dialog_run database
      batch).events = [] := by
  have h := jar_deletions_insert (ask_writes
    (g_slist_sort batch _cookie_permission_manager_sort_cookies_by_domain)
    (gtk_dialog_run (ask_message batch)))
  simp only [jar_deletions] at h
  simp only [_cookie_permission_manager_ask_for_policy, jar_deletions, List.filterMap_cons,
    _cookie_permission_manager_get_number_domains_and_cookies]
  rw [h]

/-- C13: for every jar-change notification,
`_cookie_permission_manager_on_cookie_changed` deletes a cookie from the jar
if and only if the old cookie is absent, that cookie is the new cookie, and
either its policy is Block, or it is undetermined and the prompt for that one
cookie returns Block; it deletes at most once; the prompt returns Block when
the dialog is closed without a choice; and when the old cookie is present or
the new one is absent there is no event at all (no jar change, no dialog, no
write) and the database is as before. -/
theorem C13_out_of_band_addition (k : PolicyCodes) (gtk_dialog_run : Message → Int)
    (database : Option Store) (inOldCookie inNewCookie : Option SoupCookie) :
    (∀ c, c ∈ jar_deletions (_cookie_permission_manager_on_cookie_changed k gtk_dialog_run
          database inOldCookie inNewCookie).2 ↔
        inOldCookie = none ∧ inNewCookie = some c ∧
          (_cookie_permission_manager_get_policy k database c = k.block ∨
            (_cookie_permission_manager_get_policy k database c = k.undetermined ∧
              (_cookie_permission_manager_ask_for_policy k gtk_dialog_run database [c]).policy =
                k.block))) ∧
      (jar_deletions (_cookie_permission_manager_on_cookie_changed k gtk_dialog_run database
          inOldCookie inNewCookie).2).length ≤ 1 ∧
      (∀ c, gtk_dialog_run (ask_message [c]) < 0 →
        (_cookie_permission_manager_ask_for_policy k gtk_dialog_run database [c]).policy =
          k.block) ∧
      (inOldCookie ≠ none ∨ inNewCookie = none →
        _cookie_permission_manager_on_cookie_changed k gtk_dialog_run database inOldCookie
          inNewCookie = (database, [])) := by
  obtain ⟨hua, hus, hub, -, hab, hsb⟩ := codes_facts k
  refine ⟨?_, ?_, ?_, ?_⟩
  · intro c
    cases inNewCookie with
    | none => simp [_cookie_permission_manager_on_cookie_changed, jar_deletions]
    | some n =>
      cases inOldCookie with
      | some o => simp [_cookie_permission_manager_on_cookie_changed, jar_deletions]
      | none =>
        simp only [_cookie_permission_manager_on_cookie_changed, true_and, Option.some.injEq]
        by_cases hb : _cookie_permission_manager_get_policy k database n = k.block
        · rw [if_pos hb]
          simp only [jar_deletions, List.filterMap_cons, List.filterMap_nil,
            List.mem_singleton]
          constructor
          · intro h; subst h; exact ⟨rfl, Or.inl hb⟩
          · intro h; exact h.1.symm
        · by_cases hu : _cookie_permission_manager_get_policy k database n = k.undetermined
          · rw [if_neg hb, if_pos hu]
            by_cases hp : (_cookie_permission_manager_ask_for_policy k gtk_dialog_run database
                [n]).policy = k.block
            · rw [if_pos hp]
              simp only [jar_deletions_append, jar_deletions_ask, List.nil_append]
              simp only [jar_deletions, List.filterMap_cons, List.filterMap_nil,
                List.mem_singleton]
              constructor
              · intro h; subst h; exact ⟨rfl, Or.inr ⟨hu, hp⟩⟩
              · intro h; exact h.1.symm
            · rw [if_neg hp]
              simp only [jar_deletions_ask, List.not_mem_nil, false_iff, not_and]
              intro h; subst h
              intro h2; rcases h2 with h2 | h2
              · exact hb h2
              · exact hp h2.2
          · rw [if_neg hb, if_neg hu]
            simp only [jar_deletions, List.filterMap_nil, List.not_mem_nil,
              false_iff, not_and]
            intro h; subst h
            intro h2; rcases h2 with h2 | h2
            · exact hb h2
            · exact hu h2.1
  · cases inNewCookie with
    | none => simp [_cookie_permission_manager_on_cookie_changed, jar_deletions]
    | some n =>
      cases inOldCookie with
      | some o => simp [_cookie_permission_manager_on_cookie_changed, jar_deletions]
      | none =>
        simp only [_cookie_permission_manager_on_cookie_changed]
        split_ifs
        · simp [jar_deletions]
        · simp only [jar_deletions_append, jar_deletions_ask, List.nil_append]
          simp [jar_deletions]
        · simp [jar_deletions_ask]
        · simp [jar_deletions]
  · intro c hneg
    have h0 : ¬ (gtk_dialog_run (ask_message [c]) ≥ 0) := by omega
    simp [_cookie_permission_manager_ask_for_policy, h0]
  · intro h
    cases inNewCookie with
    | none => simp [_cookie_permission_manager_on_cookie_changed]
    | some n =>
      cases inOldCookie with
      | some o => simp [_cookie_permission_manager_on_cookie_changed]
      | none => simp at h

/-- C13 at a concrete input: a new cookie for `a.com` appears in the jar with
nothing stored for it, the dialog is closed without a choice, and the cookie
is deleted from the jar. -/
theorem C13_out_of_band_addition_witness :
    (⟨"a.com".toList, "id".toList⟩ : SoupCookie) ∈
      jar_deletions (_cookie_permission_manager_on_cookie_changed enum_codes (fun _ => -4)
        (some []) none (some ⟨"a.com".toList, "id".toList⟩)).2 :=
  ((C13_out_of_band_addition enum_codes (fun _ => -4) (some []) none
    (some ⟨"a.com".toList, "id".toList⟩)).1 ⟨"a.com".toList, "id".toList⟩).2
    ⟨rfl, rfl, Or.inr ⟨by decide,
      (C13_out_of_band_addition enum_codes (fun _ => -4) (some []) none
        (some ⟨"a.com".toList, "id".toList⟩)).2.2.1 ⟨"a.com".toList, "id".toList⟩
        (by decide)⟩⟩

/-! ## C16: the decision is found again -/

theorem mem_foldl_insert (ws : List PolicyRow) (db : Store) (row : PolicyRow)
    (h : row ∈ ws.foldl (fun d w => insert_or_replace d w.domain w.value) db) :
    row ∈ db ∨ row ∈ ws := by
  induction ws generalizing db with
  | nil => exact Or.inl h
  | cons w ws ih =>
    simp only [List.foldl_cons] at h
    rcases ih _ h with h1 | h1
    · simp only [insert_or_replace, List.mem_append, List.mem_filter, List.mem_singleton] at h1
      rcases h1 with h2 | h2
      · exact Or.inl h2.1
      · exact Or.inr (by rw [h2]; exact List.mem_cons_self _ _)
    · exact Or.inr (List.mem_cons_of_mem _ h1)

theorem foldl_insert_keeps (r : Int) (d : List Char) (ws : List PolicyRow) (db : Store)
    (hval : ∀ w ∈ ws, w.value = r)
    (h : ∃ row ∈ db, row.domain = d ∧ row.value = r) :
    ∃ row ∈ ws.foldl (fun d w => insert_or_replace d w.domain w.value) db,
      row.domain = d ∧ row.value = r := by
  induction ws generalizing db with
  | nil => exact h
  | cons w ws ih =>
    simp only [List.foldl_cons]
    apply ih _ (fun x hx => hval x (List.mem_cons_of_mem _ hx))
    obtain ⟨row, hrow, hd, hv⟩ := h
    by_cases hw : w.domain = d
    · refine ⟨⟨w.domain, w.value⟩, ?_, hw, hval w (List.mem_cons_self _ _)⟩
      simp [insert_or_replace]
    · refine ⟨row, ?_, hd, hv⟩
      simp only [insert_or_replace, List.mem_append, List.mem_filter]
      left
      refine ⟨hrow, ?_⟩
      simp only [decide_eq_true_eq]
      rw [hd]; exact fun e => hw e.symm

theorem foldl_insert_has (r : Int) (ws : List PolicyRow) (db : Store)
    (hval : ∀ w ∈ ws, w.value = r) :
    ∀ w ∈ ws, ∃ row ∈ ws.foldl (fun d w => insert_or_replace d w.domain w.value) db,
      row.domain = w.domain ∧ row.value = r := by
  induction ws generalizing db with
  | nil => intro w hw; exact absurd hw (List.not_mem_nil _)
  | cons w0 ws ih =>
    intro w hw
    simp only [List.foldl_cons]
    rcases List.mem_cons.1 hw with h | h
    · subst h
      apply foldl_insert_keeps r w.domain ws _ (fun x hx => hval x (List.mem_cons_of_mem _ hx))
      refine ⟨⟨w.domain, w.value⟩, ?_, rfl, hval w (List.mem_cons_self _ _)⟩
      simp [insert_or_replace]
    · exact ih _ (fun x hx => hval x (List.mem_cons_of_mem _ hx)) w h

/-- C16: for every open store and every batch of cookies that all resolve to
undetermined, after `_cookie_permission_manager_ask_for_policy` got a
response `r` that is not negative and wrote it, the lookup returns `r` for
every cookie of the batch, whatever its leading dot and its letter case. -/
theorem C16_ask_once_per_domain (k : PolicyCodes) (gtk_dialog_run : Message → Int) (db : Store)
    (batch : List SoupCookie) (r : Int) (hr : 0 ≤ r)
    (hrun : gtk_dialog_run (ask_message batch) = r)
    (hall : ∀ c ∈ batch, _cookie_permission_manager_get_policy k (some db) c = k.undetermined) :
    ∀ c ∈ batch,
      _cookie_permission_manager_get_policy k
        (_cookie_permission_manager_ask_for_policy k gtk_dialog_run (some db) batch).database
        c = r := by
  intro c hc
  have hrows := ask_writes_rows batch r
  have hfacts := ask_writes_facts batch r hr
  rw [ask_database, hrun]
  simp only [exec_writes, Option.map_some']
  obtain ⟨w, hw, hwk⟩ := hfacts.2.2 c hc
  obtain ⟨row, hrow, hrd, hrv⟩ := foldl_insert_has r _ db (fun x hx => (hrows x hx).1) w hw
  have hcov : covers c row = true := by
    apply covers_of_key_eq
    simp only [row_key, hrd]
    exact hwk
  have hold : ∀ x ∈ db, covers c x = true → x.value = k.undetermined :=
    (get_policy_undetermined_iff k db c).1 (hall c hc)
  by_cases hru : r = k.undetermined
  · have hgoal : _cookie_permission_manager_get_policy k
        (some ((ask_writes
          (g_slist_sort batch _cookie_permission_manager_sort_cookies_by_domain) r).foldl
          (fun d w => insert_or_replace d w.domain w.value) db)) c = k.undetermined := by
      rw [get_policy_undetermined_iff]
      intro x hx hcx
      rcases mem_foldl_insert _ _ _ hx with h | h
      · exact hold x h hcx
      · rw [(hrows x h).1]; exact hru
    rw [hgoal]; exact hru.symm
  · simp only [_cookie_permission_manager_get_policy, get_policy_loop_eq_find]
    simp only [covers, Bool.and_eq_true] at hcov
    cases hfind : (select_like ((ask_writes
          (g_slist_sort batch _cookie_permission_manager_sort_cookies_by_domain) r).foldl
          (fun d w => insert_or_replace d w.domain w.value) db) (like_pattern c)).find?
        (fun x => soup_cookie_domain_matches c x.domain && decide (x.value ≠ k.undetermined)) with
    | none =>
      have h := List.find?_eq_none.1 hfind row ((mem_select_like _ _ _).2 ⟨hrow, hcov.1⟩)
      simp [hcov.2, hrv, hru] at h
    | some b =>
      have hb := (mem_select_like _ _ _).1 (List.mem_of_find?_eq_some hfind)
      have hpb := List.find?_some hfind
      simp only [Bool.and_eq_true, decide_eq_true_eq] at hpb
      show b.value = r
      rcases mem_foldl_insert _ _ _ hb.1 with h | h
      · exact absurd (hold b h (by simp [covers, hb.2, hpb.1])) hpb.2
      · exact (hrows b h).1

/-- C16 at a concrete input: the cookies `.Example.com` and `example.com`,
both undetermined on a store that holds `other.org`, are answered with accept
for session; one row `Example.com` is written and both cookies resolve to
accept for session afterwards. -/
theorem C16_ask_once_per_domain_witness :
    _cookie_permission_manager_get_policy enum_codes
        (_cookie_permission_manager_ask_for_policy enum_codes
          (fun _ => enum_codes.accept_for_session)
          (some [⟨"other.org".toList, enum_codes.block⟩])
          [⟨".Example.com".toList, "a".toList⟩, ⟨"example.com".toList, "b".toList⟩]).database
        ⟨"example.com".toList, "b".toList⟩ = enum_codes.accept_for_session ∧
      (_cookie_permission_manager_ask_for_policy enum_codes
          (fun _ => enum_codes.accept_for_session)
          (some [⟨"other.org".toList, enum_codes.block⟩])
          [⟨".Example.com".toList, "a".toList⟩, ⟨"example.com".toList, "b".toList⟩]).database =
        some [⟨"other.org".toList, enum_codes.block⟩,
          ⟨"Example.com".toList, enum_codes.accept_for_session⟩] :=
  ⟨C16_ask_once_per_domain enum_codes (fun _ => enum_codes.accept_for_session)
      [⟨"other.org".toList, enum_codes.block⟩]
      [⟨".Example.com".toList, "a".toList⟩, ⟨"example.com".toList, "b".toList⟩]
      enum_codes.accept_for_session (by decide) rfl (by decide)
      ⟨"example.com".toList, "b".toList⟩ (by decide),
    by decide⟩

/-! ## Facts about the additions the response handler calls for -/

/-- The jar additions of the response handler are the accepted cookies,
preceded by nothing or by the unknown cookies. -/
theorem jar_additions_process (k : PolicyCodes) (gtk_dialog_run : Message → Int)
    (database : Option Store) (cookiePolicy : SoupCookieJarAcceptPolicy)
    (inMessage : SoupMessage) :
    jar_additions (_cookie_permission_manager_process_set_cookie_header k gtk_dialog_run
        database cookiePolicy inMessage).2 =
        accepted_batch k database cookiePolicy inMessage ∨
      jar_additions (_cookie_permission_manager_process_set_cookie_header k gtk_dialog_run
        database cookiePolicy inMessage).2 =
        (classified k database cookiePolicy inMessage).1 ++
          accepted_batch k database cookiePolicy inMessage := by
  have hacc := classified_accepted_eq k database cookiePolicy inMessage
  unfold _cookie_permission_manager_process_set_cookie_header
  by_cases hn : cookiePolicy = SoupCookieJarAcceptPolicy.never
  · subst hn
    have ha : accepted_batch k database SoupCookieJarAcceptPolicy.never inMessage = [] := by
      simp [accepted_batch, passes_never]
    left
    simp [ha, jar_additions]
  · simp only [hn, if_false, hacc]
    split_ifs
    · right
      simp only [jar_additions_append, jar_additions_ask, jar_additions_jar_add,
        List.nil_append]
    · left
      simp only [jar_additions_append, jar_additions_ask, jar_additions_jar_add,
        List.nil_append]
    · left
      exact jar_additions_jar_add _

theorem not_mem_unknown_of_decided (k : PolicyCodes) (database : Option Store)
    (cookiePolicy : SoupCookieJarAcceptPolicy) (inMessage : SoupMessage) (c : SoupCookie)
    (h : _cookie_permission_manager_get_policy k database c = k.block ∨
      _cookie_permission_manager_get_policy k database c = k.accept ∨
      _cookie_permission_manager_get_policy k database c = k.accept_for_session) :
    c ∉ (classified k database cookiePolicy inMessage).1 := by
  rw [classified_eq]
  simp only [List.mem_filter, Bool.and_eq_true, policy_is_unknown, decide_eq_true_eq, not_and]
  intro _ hu
  rcases h with h | h | h
  · exact absurd h hu.1
  · exact absurd h hu.2.1
  · exact absurd h hu.2.2

/-- The additions the response handler calls for, for a cookie whose policy is
Block, Accept or accept for session: the cookie is handed to
`soup_cookie_jar_add_cookie` as often as it stands on the accepted list,
whatever the prompt returns; never when its policy is Block, and at least once
when it is a cookie of the response whose policy is Accept or accept for
session and that passes the filter. -/
theorem add_calls_of_decided_cookie (k : PolicyCodes)
    (run1 run2 : Message → Int) (database : Option Store)
    (cookiePolicy : SoupCookieJarAcceptPolicy) (inMessage : SoupMessage) (c : SoupCookie) :
    (_cookie_permission_manager_get_policy k database c = k.block ∨
        _cookie_permission_manager_get_policy k database c = k.accept ∨
        _cookie_permission_manager_get_policy k database c = k.accept_for_session →
      (jar_additions (_cookie_permission_manager_process_set_cookie_header k run1 database
          cookiePolicy inMessage).2).count c =
        (jar_additions (_cookie_permission_manager_process_set_cookie_header k run2 database
          cookiePolicy inMessage).2).count c ∧
      (jar_additions (_cookie_permission_manager_process_set_cookie_header k run1 database
          cookiePolicy inMessage).2).count c =
        (accepted_batch k database cookiePolicy inMessage).count c) ∧
    (_cookie_permission_manager_get_policy k database c = k.block →
      c ∉ jar_additions (_cookie_permission_manager_process_set_cookie_header k run1 database
        cookiePolicy inMessage).2) ∧
    (_cookie_permission_manager_get_policy k database c = k.accept ∨
        _cookie_permission_manager_get_policy k database c = k.accept_for_session →
      c ∈ inMessage.cookies →
      passes_accept_policy cookiePolicy inMessage.first_party c = true →
      c ∈ jar_additions (_cookie_permission_manager_process_set_cookie_header k run1 database
        cookiePolicy inMessage).2) := by
  obtain ⟨-, -, -, -, hab, hsb⟩ := codes_facts k
  have hcount : ∀ run : Message → Int,
      _cookie_permission_manager_get_policy k database c = k.block ∨
        _cookie_permission_manager_get_policy k database c = k.accept ∨
        _cookie_permission_manager_get_policy k database c = k.accept_for_session →
      (jar_additions (_cookie_permission_manager_process_set_cookie_header k run database
          cookiePolicy inMessage).2).count c =
        (accepted_batch k database cookiePolicy inMessage).count c := by
    intro run h
    rcases jar_additions_process k run database cookiePolicy inMessage with h1 | h1
    · rw [h1]
    · rw [h1, List.count_append,
        List.count_eq_zero.2 (not_mem_unknown_of_decided k database cookiePolicy inMessage c h)]
      simp
  refine ⟨fun h => ⟨(hcount run1 h).trans (hcount run2 h).symm, hcount run1 h⟩, ?_, ?_⟩
  · intro hb
    have h1 := hcount run1 (Or.inl hb)
    have h2 : c ∉ accepted_batch k database cookiePolicy inMessage := by
      simp only [accepted_batch, List.mem_filter, Bool.and_eq_true, policy_is_accepted, hb,
        decide_eq_true_eq, not_and]
      intro _ h
      rcases h with h | h
      · exact absurd h.symm hab
      · exact absurd h.symm hsb
    rw [List.count_eq_zero.2 h2] at h1
    exact List.count_eq_zero.1 h1
  · intro ha hc hp
    have h1 := hcount run1 (Or.inr ha)
    have h2 : c ∈ accepted_batch k database cookiePolicy inMessage := by
      simp only [accepted_batch, List.mem_filter, Bool.and_eq_true, policy_is_accepted,
        decide_eq_true_eq]
      exact ⟨hc, ha, hp⟩
    have h3 := List.count_pos_iff.2 h2
    rw [← h1] at h3
    exact List.count_pos_iff.1 h3

/-! ## C20: the `LIKE` filter -/

/-- Every host that passes the domain match is a `LIKE` candidate for the
query parameter made of the cookie's domain. -/
theorem like_of_matches (c : SoupCookie) (host : List Char)
    (h : soup_cookie_domain_matches c host = true) :
    sqlite3_like (like_pattern c) host = true := by
  simp only [soup_cookie_domain_matches, soup_host_matches_host] at h
  unfold like_pattern
  by_cases heq : g_ascii_strcasecmp c.domain host = Ordering.eq
  · have hfold : c.domain.map g_ascii_tolower = host.map g_ascii_tolower :=
      (strcasecmp_eq_iff _ _).1 heq
    cases hd : c.domain with
    | nil => rw [hd] at hfold; exact sqlite3_like_of_casefold_eq _ _ hfold
    | cons c0 rest =>
      rw [hd] at hfold
      simp only
      by_cases h0 : c0 = '.'
      · simp only [h0, if_true, sqlite3_like]
        cases host with
        | nil => simp at hfold
        | cons h0 hrest =>
          simp only [List.map_cons, List.cons.injEq] at hfold
          exact like_any_tail_append _ [h0] hrest (sqlite3_like_of_casefold_eq _ _ hfold.2)
      · simp only [h0, if_false]
        exact sqlite3_like_of_casefold_eq _ _ hfold
  · simp only [heq, if_false] at h
    cases hd : c.domain with
    | nil => rw [hd] at h; simp at h
    | cons c0 rest =>
      rw [hd] at h
      simp only at h ⊢
      by_cases h0 : c0 = '.'
      · subst h0
        simp only [ne_eq, not_true_eq_false, if_false] at h
        simp only [if_true, sqlite3_like]
        by_cases h2 : g_ascii_strcasecmp rest host = Ordering.eq
        · exact like_any_tail_self _ _
            (sqlite3_like_of_casefold_eq _ _ ((strcasecmp_eq_iff _ _).1 h2))
        · simp only [h2, if_false, g_str_has_suffix, List.isSuffixOf_iff_suffix] at h
          obtain ⟨pre, hpre⟩ := h
          rw [← hpre]
          have : pre ++ '.' :: rest = (pre ++ ['.']) ++ rest := by simp
          rw [this]
          exact like_any_tail_append _ _ rest (sqlite3_like_of_casefold_eq rest rest rfl)
      · simp [h0] at h

/-- C20: for every store and cookie, the lookup returns the same decision as
a resolver that scans all rows in descending order of the domain and returns
the first value other than undetermined whose domain passes
`soup_cookie_domain_matches`; every row that passes the domain match is a
`LIKE` candidate for the cookie's query parameter. -/
theorem C20_like_filter_is_transparent (k : PolicyCodes) (db : Store) (c : SoupCookie) :
    _cookie_permission_manager_get_policy k (some db) c = resolve_by_full_scan k db c ∧
      ∀ row : PolicyRow, soup_cookie_domain_matches c row.domain = true →
        sqlite3_like (like_pattern c) row.domain = true := by
  haveI : IsTotal PolicyRow (fun r s => binary_ge r.domain s.domain = true) :=
    ⟨fun r s => binary_ge_total r.domain s.domain⟩
  haveI : IsTrans PolicyRow (fun r s => binary_ge r.domain s.domain = true) :=
    ⟨fun r s t => binary_ge_trans r.domain s.domain t.domain⟩
  refine ⟨?_, fun row h => like_of_matches c row.domain h⟩
  simp only [_cookie_permission_manager_get_policy, get_policy_loop_eq_find,
    resolve_by_full_scan, select_like]
  rw [find_eq_head_filter, find_eq_head_filter, filter_insertionSort, filter_insertionSort,
    List.filter_filter]
  congr 3
  apply filter_congr_mem
  intro r _
  by_cases hm : soup_cookie_domain_matches c r.domain = true
  · simp [hm, like_of_matches c r.domain hm]
  · simp [hm]

/-! ## Facts about the session cleanup -/

theorem cleanup_cookie_loop_eq (domain : List Char) (cookies : List SoupCookie)
    (jar : CookieJar) :
    cleanup_cookie_loop domain cookies jar =
      jar.filter (fun c => !(decide (c ∈ cookies) && soup_cookie_domain_matches c domain)) := by
  induction cookies generalizing jar with
  | nil => simp [cleanup_cookie_loop]
  | cons cookie next ih =>
    simp only [cleanup_cookie_loop]
    by_cases hm : soup_cookie_domain_matches cookie domain = true
    · rw [if_pos hm, ih, soup_cookie_jar_delete_cookie, List.filter_filter]
      apply filter_congr_mem
      intro c _
      by_cases hc : c = cookie
      · subst hc; simp [hm]
      · simp [hc]
    · rw [if_neg hm, ih]
      apply filter_congr_mem
      intro c _
      by_cases hc : c = cookie
      · subst hc
        simp only [Bool.not_eq_true] at hm
        simp [hm]
      · simp [hc]

theorem mem_cleanup_domains (domains : List (List Char)) (jar : CookieJar) (c : SoupCookie) :
    c ∈ cleanup_domains domains jar ↔
      c ∈ jar ∧ ∀ d ∈ domains, soup_cookie_domain_matches c d = false := by
  unfold cleanup_domains
  induction domains generalizing jar with
  | nil => simp
  | cons d rest ih =>
    rw [List.foldl_cons, ih, cleanup_cookie_loop_eq, List.mem_filter]
    simp only [List.mem_cons, forall_eq_or_imp]
    constructor
    · rintro ⟨⟨h1, h2⟩, h3⟩
      refine ⟨h1, ?_, h3⟩
      simpa [h1] using h2
    · rintro ⟨h1, h2, h3⟩
      exact ⟨⟨h1, by simp [h1, h2]⟩, h3⟩

theorem mem_select_domains (db : Store) (value : Int) (d : List Char) :
    d ∈ select_domains db value ↔ ∃ r ∈ db, r.value = value ∧ r.domain = d := by
  simp only [select_domains, List.mem_map, List.mem_insertionSort, List.mem_filter,
    decide_eq_true_eq]
  constructor
  · rintro ⟨r, ⟨h1, h2⟩, h3⟩; exact ⟨r, h1, h2, h3⟩
  · rintro ⟨r, h1, h2, h3⟩; exact ⟨r, ⟨h1, h2⟩, h3⟩

/-- The variant without `HAVE_LIBSOUP_2_40_0` returns, and the jar it leaves
holds exactly the cookies that match no domain accepted for one session. -/
theorem session_cleanup_fallback (k : PolicyCodes)
    (get_cookie_list : CookieJar → List Char → List SoupCookie) (fuel : Nat) (db : Store)
    (jar : CookieJar) :
    ∃ jar2, session_cleanup k false get_cookie_list fuel db jar = some jar2 ∧
      ∀ c, c ∈ jar2 ↔ c ∈ jar ∧
        ∀ r ∈ db, r.value = k.accept_for_session → soup_cookie_domain_matches c r.domain = false := by
  refine ⟨cleanup_domains (select_domains db k.accept_for_session) jar, by simp [session_cleanup],
    ?_⟩
  intro c
  rw [mem_cleanup_domains]
  constructor
  · rintro ⟨h1, h2⟩
    exact ⟨h1, fun r hr hv => h2 r.domain ((mem_select_domains _ _ _).2 ⟨r, hr, hv, rfl⟩)⟩
  · rintro ⟨h1, h2⟩
    refine ⟨h1, fun d hd => ?_⟩
    obtain ⟨r, hr, hv, hrd⟩ := (mem_select_domains _ _ _).1 hd
    rw [← hrd]; exact h2 r hr hv

/-- The cookie loop of the variant with `HAVE_LIBSOUP_2_40_0` never ends on a
list that is not empty, whatever the fuel. -/
theorem cleanup_cookie_loop_2_40_diverges (fuel : Nat) (cookie : SoupCookie)
    (next : List SoupCookie) (jar : CookieJar) :
    cleanup_cookie_loop_2_40 fuel (cookie :: next) jar = none := by
  induction fuel generalizing jar with
  | zero => rfl
  | succ n ih => simp only [cleanup_cookie_loop_2_40]; exact ih _

theorem cleanup_cookie_loop_2_40_returns (fuel : Nat) (cookies : List SoupCookie)
    (jar jar2 : CookieJar) (h : cleanup_cookie_loop_2_40 fuel cookies jar = some jar2) :
    cookies = [] ∧ jar2 = jar := by
  cases cookies with
  | cons cookie next => rw [cleanup_cookie_loop_2_40_diverges] at h; exact absurd h (by simp)
  | nil =>
    cases fuel with
    | zero => simp [cleanup_cookie_loop_2_40] at h
    | succ n =>
      simp only [cleanup_cookie_loop_2_40, Option.some.injEq] at h
      exact ⟨rfl, h.symm⟩

/-- When the variant with `HAVE_LIBSOUP_2_40_0` returns, it has deleted
nothing. -/
theorem cleanup_domains_2_40_returns (get_cookie_list : CookieJar → List Char → List SoupCookie)
    (fuel : Nat) (domains : List (List Char)) (jar jar2 : CookieJar)
    (h : cleanup_domains_2_40 get_cookie_list fuel domains jar = some jar2) : jar2 = jar := by
  induction domains generalizing jar with
  | nil => simp only [cleanup_domains_2_40, Option.some.injEq] at h; exact h.symm
  | cons d rest ih =>
    simp only [cleanup_domains_2_40] at h
    cases hloop : cleanup_cookie_loop_2_40 fuel (get_cookie_list jar d) jar with
    | none => rw [hloop] at h; exact absurd h (by simp)
    | some j =>
      rw [hloop] at h
      have hj := (cleanup_cookie_loop_2_40_returns _ _ _ _ hloop).2
      rw [hj] at h
      exact ih jar h

/-! ## C14: what the session cleanup leaves -/

/-- C14, the code at the failing input: the store holds `a.com` with accept
for session and the jar holds a cookie of `a.com` and one of `b.org`. Built
with `HAVE_LIBSOUP_2_40_0`, the cleanup either never returns or returns with
the jar as it was, the cookie of `a.com` still in it, whatever
`soup_cookie_jar_get_cookie_list` yields; with the list the documentation
describes it never returns. Built without the flag, it returns with the
cookie of `a.com` deleted and the cookie of `b.org` kept. -/
theorem C14_cleanup_at_failing_input
    (get_cookie_list : CookieJar → List Char → List SoupCookie) (fuel : Nat) :
    soup_cookie_domain_matches ⟨"a.com".toList, "sid".toList⟩ "a.com".toList = true ∧
      (session_cleanup enum_codes true get_cookie_list fuel
          [⟨"a.com".toList, enum_codes.accept_for_session⟩]
          [⟨"a.com".toList, "sid".toList⟩, ⟨"b.org".toList, "x".toList⟩] = none ∨
        session_cleanup enum_codes true get_cookie_list fuel
          [⟨"a.com".toList, enum_codes.accept_for_session⟩]
          [⟨"a.com".toList, "sid".toList⟩, ⟨"b.org".toList, "x".toList⟩] =
          some [⟨"a.com".toList, "sid".toList⟩, ⟨"b.org".toList, "x".toList⟩]) ∧
      session_cleanup enum_codes true cookies_for_host fuel
          [⟨"a.com".toList, enum_codes.accept_for_session⟩]
          [⟨"a.com".toList, "sid".toList⟩, ⟨"b.org".toList, "x".toList⟩] = none ∧
      session_cleanup enum_codes false get_cookie_list fuel
          [⟨"a.com".toList, enum_codes.accept_for_session⟩]
          [⟨"a.com".toList, "sid".toList⟩, ⟨"b.org".toList, "x".toList⟩] =
          some [⟨"b.org".toList, "x".toList⟩] := by
  have hdom : select_domains [⟨"a.com".toList, enum_codes.accept_for_session⟩]
      enum_codes.accept_for_session = ["a.com".toList] := by decide
  refine ⟨by decide, ?_, ?_, ?_⟩
  · cases h : session_cleanup enum_codes true get_cookie_list fuel
        [⟨"a.com".toList, enum_codes.accept_for_session⟩]
        [⟨"a.com".toList, "sid".toList⟩, ⟨"b.org".toList, "x".toList⟩] with
    | none => exact Or.inl rfl
    | some j =>
      right
      simp only [session_cleanup, if_true] at h
      rw [cleanup_domains_2_40_returns _ _ _ _ _ h]
  · have hlist : cookies_for_host [⟨"a.com".toList, "sid".toList⟩, ⟨"b.org".toList, "x".toList⟩]
        "a.com".toList = [⟨"a.com".toList, "sid".toList⟩] := by decide
    simp only [session_cleanup, if_true, hdom, cleanup_domains_2_40, hlist,
      cleanup_cookie_loop_2_40_diverges]
  · simp only [session_cleanup, Bool.false_eq_true, if_false, hdom]
    decide

/-! ## C18: the end of the cleanup loops -/

/-- C18, the code at the failing input: in the variant with
`HAVE_LIBSOUP_2_40_0` the cookie loop does not advance, so on a list that is
not empty it runs out of any fuel; with `a.com` stored as accept for session
and a cookie of `a.com` in the jar, `_cookie_permission_manager_open_database`
never returns. The variant without the flag returns for every store and jar,
and at this input with the cookie of `a.com` deleted. -/
theorem C18_cleanup_loop_at_failing_input (fuel : Nat) :
    (∀ (cookie : SoupCookie) (next : List SoupCookie) (jar : CookieJar),
        cleanup_cookie_loop_2_40 fuel (cookie :: next) jar = none) ∧
      _cookie_permission_manager_open_database enum_codes true cookies_for_host fuel
        (open_succeeds [⟨"a.com".toList, enum_codes.accept_for_session⟩]) none
        [⟨"a.com".toList, "sid".toList⟩, ⟨"b.org".toList, "x".toList⟩] = none ∧
      _cookie_permission_manager_open_database enum_codes false cookies_for_host fuel
        (open_succeeds [⟨"a.com".toList, enum_codes.accept_for_session⟩]) none
        [⟨"a.com".toList, "sid".toList⟩, ⟨"b.org".toList, "x".toList⟩] =
        some ⟨some [⟨"a.com".toList, enum_codes.accept_for_session⟩],
          [⟨"b.org".toList, "x".toList⟩], [], 0⟩ ∧
      (∀ (k : PolicyCodes) (get_cookie_list : CookieJar → List Char → List SoupCookie)
          (db : Store) (jar : CookieJar),
        (session_cleanup k false get_cookie_list fuel db jar).isSome = true) := by
  have hdom : select_domains [⟨"a.com".toList, enum_codes.accept_for_session⟩]
      enum_codes.accept_for_session = ["a.com".toList] := by decide
  have hlist : cookies_for_host [⟨"a.com".toList, "sid".toList⟩, ⟨"b.org".toList, "x".toList⟩]
      "a.com".toList = [⟨"a.com".toList, "sid".toList⟩] := by decide
  have hsetup : open_database_setup
      (open_succeeds [⟨"a.com".toList, enum_codes.accept_for_session⟩]) none
      [⟨"a.com".toList, "sid".toList⟩, ⟨"b.org".toList, "x".toList⟩] =
      ⟨some [⟨"a.com".toList, enum_codes.accept_for_session⟩],
        [⟨"a.com".toList, "sid".toList⟩, ⟨"b.org".toList, "x".toList⟩], [], 0⟩ := by decide
  refine ⟨fun cookie next jar => cleanup_cookie_loop_2_40_diverges fuel cookie next jar, ?_, ?_,
    ?_⟩
  · simp only [_cookie_permission_manager_open_database, hsetup, session_cleanup, if_true, hdom,
      cleanup_domains_2_40, hlist, cleanup_cookie_loop_2_40_diverges]
  · simp only [_cookie_permission_manager_open_database, hsetup, session_cleanup,
      Bool.false_eq_true, if_false, hdom]
    decide
  · intro k g db jar
    simp [session_cleanup]

/-! ## C19: which cookies the cleanup deletes -/

/-- C19, the claim as stated fails: with `www.example.com` stored as Accept
and `example.com` as accept for session, a cookie with domain `.example.com`
resolves to Accept, through the row that sorts first, and the cleanup (the
variant without `HAVE_LIBSOUP_2_40_0`) deletes it all the same, because it
matches the row accepted for one session. -/
theorem C19_counterexample :
    _cookie_permission_manager_get_policy enum_codes
        (some [⟨"www.example.com".toList, enum_codes.accept⟩,
          ⟨"example.com".toList, enum_codes.accept_for_session⟩])
        ⟨".example.com".toList, "sid".toList⟩ = enum_codes.accept ∧
      enum_codes.accept ≠ enum_codes.accept_for_session ∧
      session_cleanup enum_codes false cookies_for_host 0
        [⟨"www.example.com".toList, enum_codes.accept⟩,
          ⟨"example.com".toList, enum_codes.accept_for_session⟩]
        [⟨".example.com".toList, "sid".toList⟩] = some [] := by
  decide

/-- C19, amended: the cleanup loop of the variant without
`HAVE_LIBSOUP_2_40_0` returns for every store and jar, and it deletes a
cookie of the jar if and only if the cookie's domain matches
(`soup_cookie_domain_matches`) the domain of some stored row with the value
accept for session. The lookup of a deleted cookie is never undetermined,
but it need not be accept for session. -/
theorem C19_cleanup_deletes_by_matching_row (k : PolicyCodes)
    (get_cookie_list : CookieJar → List Char → List SoupCookie) (fuel : Nat) (db : Store)
    (jar : CookieJar) :
    ∃ jar2, session_cleanup k false get_cookie_list fuel db jar = some jar2 ∧
      (∀ c, (c ∈ jar ∧ c ∉ jar2) ↔
        (c ∈ jar ∧ ∃ r ∈ db, r.value = k.accept_for_session ∧
          soup_cookie_domain_matches c r.domain = true)) ∧
      (∀ c, c ∈ jar → c ∉ jar2 →
        _cookie_permission_manager_get_policy k (some db) c ≠ k.undetermined) := by
  obtain ⟨jar2, hret, hmem⟩ := session_cleanup_fallback k get_cookie_list fuel db jar
  have hdel : ∀ c, (c ∈ jar ∧ c ∉ jar2) ↔
      (c ∈ jar ∧ ∃ r ∈ db, r.value = k.accept_for_session ∧
        soup_cookie_domain_matches c r.domain = true) := by
    intro c
    rw [hmem]
    constructor
    · rintro ⟨h1, h2⟩
      refine ⟨h1, ?_⟩
      by_contra hne
      apply h2
      refine ⟨h1, fun r hr hv => ?_⟩
      cases hm : soup_cookie_domain_matches c r.domain with
      | false => rfl
      | true => exact absurd ⟨r, hr, hv, hm⟩ hne
    · rintro ⟨h1, r, hr, hv, hm⟩
      refine ⟨h1, fun h => ?_⟩
      have := h.2 r hr hv
      rw [hm] at this
      exact Bool.noConfusion this
  refine ⟨jar2, hret, hdel, ?_⟩
  intro c hc hnot hu
  obtain ⟨-, r, hr, hv, hm⟩ := (hdel c).1 ⟨hc, hnot⟩
  have hcov : covers c r = true := by
    simp [covers, hm, like_of_matches c r.domain hm]
  have h1 := (get_policy_undetermined_iff k db c).1 hu r hr hcov
  rw [hv] at h1
  exact (codes_facts k).2.1 h1.symm

/-! ## C15: failures while opening the database -/

theorem setup_of_open_fails (env : OpenEnvironment) (database : Option Store) (jar : CookieJar)
    (h : open_fails env = true) :
    (open_database_setup env database jar).database = none ∧
      (open_database_setup env database jar).errors.length = 1 ∧
      (open_database_setup env database jar).closed =
        (if database.isSome then 1 else 0) + handles_opened env ∧
      (open_database_setup env database jar).jar = jar := by
  obtain ⟨configDir, mkdir_fails, sqlite_open, ⟨rc1, e1⟩, ⟨rc2, e2⟩, ⟨rc3, e3⟩⟩ := env
  cases configDir with
  | none => simp [open_database_setup, handles_opened]
  | some dir =>
    cases mkdir_fails with
    | true => simp [open_database_setup, handles_opened]
    | false =>
      cases sqlite_open with
      | failed b => cases b <;> simp [open_database_setup, handles_opened]
      | ok db =>
        cases rc1 <;> cases rc2 <;> cases rc3 <;> cases e3 <;>
          simp [open_database_setup, handles_opened, schema_fails, open_fails] at h ⊢

theorem setup_of_open_succeeds (env : OpenEnvironment) (database : Option Store)
    (jar : CookieJar) (h : open_fails env = false) :
    ∃ db, env.sqlite_open = SqliteOpen.ok db ∧
      open_database_setup env database jar =
        ⟨some db, jar, [], if database.isSome then 1 else 0⟩ := by
  obtain ⟨configDir, mkdir_fails, sqlite_open, ⟨rc1, e1⟩, ⟨rc2, e2⟩, ⟨rc3, e3⟩⟩ := env
  cases configDir with
  | none => simp [open_fails] at h
  | some dir =>
    cases mkdir_fails with
    | true => simp [open_fails] at h
    | false =>
      cases sqlite_open with
      | failed b => simp [open_fails] at h
      | ok db =>
        refine ⟨db, rfl, ?_⟩
        cases rc1 <;> cases rc2 <;> cases rc3 <;> cases e3 <;>
          simp [open_database_setup, schema_fails, open_fails] at h ⊢

/-- C15: on every failure path of `_cookie_permission_manager_open_database`
(the configuration directory is `NULL`, the directory cannot be created,
`sqlite3_open` fails, or a schema statement fails) the function returns, the
fatal-error notification has been issued exactly once, the handle is `NULL`
and every handle that was open, the one held on entry and the one
`sqlite3_open` allocated, has been closed; the jar is untouched. On the
success path no notification is issued, the handle is the opened database and
only the handle held on entry has been closed, also in whatever state the
function returns after the cleanup. -/
theorem C15_fatal_open_failure (k : PolicyCodes) (HAVE_LIBSOUP_2_40_0 : Bool)
    (get_cookie_list : CookieJar → List Char → List SoupCookie) (fuel : Nat)
    (env : OpenEnvironment) (database : Option Store) (jar : CookieJar) :
    (open_fails env = true →
      ∃ reason, _cookie_permission_manager_open_database k HAVE_LIBSOUP_2_40_0 get_cookie_list
        fuel env database jar =
        some ⟨none, jar, [reason], (if database.isSome then 1 else 0) + handles_opened env⟩) ∧
    (open_fails env = false →
      ∃ db, env.sqlite_open = SqliteOpen.ok db ∧
        open_database_setup env database jar =
          ⟨some db, jar, [], if database.isSome then 1 else 0⟩ ∧
        ∀ res, _cookie_permission_manager_open_database k HAVE_LIBSOUP_2_40_0 get_cookie_list
            fuel env database jar = some res →
          res.database = some db ∧ res.errors = [] ∧
            res.closed = if database.isSome then 1 else 0) := by
  constructor
  · intro h
    obtain ⟨h1, h2, h3, h4⟩ := setup_of_open_fails env database jar h
    cases hs : open_database_setup env database jar with
    | mk d j errs cl =>
      rw [hs] at h1 h2 h3 h4
      simp only at h1 h2 h3 h4
      subst h1 h4
      cases errs with
      | nil => simp at h2
      | cons reason rest =>
        have hrest : rest = [] := by
          cases rest with
          | nil => rfl
          | cons a l => simp at h2
        subst hrest
        refine ⟨reason, ?_⟩
        simp only [_cookie_permission_manager_open_database, hs, h3]
  · intro h
    obtain ⟨db, hopen, hsetup⟩ := setup_of_open_succeeds env database jar h
    refine ⟨db, hopen, hsetup, ?_⟩
    intro res hres
    simp only [_cookie_permission_manager_open_database, hsetup] at hres
    cases hc : session_cleanup k HAVE_LIBSOUP_2_40_0 get_cookie_list fuel db jar with
    | none => rw [hc] at hres; exact absurd hres (by simp)
    | some j =>
      rw [hc] at hres
      simp only [Option.some.injEq] at hres
      subst hres
      exact ⟨rfl, rfl, rfl⟩

/-- C15 at concrete inputs: with a database open on entry and no
configuration directory, the function returns with the handle `NULL`, one
notification and the old handle closed; and when `sqlite3_open` fails with a
handle allocated, that handle is closed too. -/
theorem C15_fatal_open_failure_witness :
    _cookie_permission_manager_open_database enum_codes true cookies_for_host 0
        ⟨none, false, SqliteOpen.ok [], ⟨true, false⟩, ⟨true, false⟩, ⟨true, false⟩⟩
        (some [⟨"a.com".toList, enum_codes.accept⟩]) [⟨"a.com".toList, "sid".toList⟩] =
        some ⟨none, [⟨"a.com".toList, "sid".toList⟩], [ErrorReason.config_path], 1⟩ ∧
      ∃ reason, _cookie_permission_manager_open_database enum_codes true cookies_for_host 0
        ⟨some "config".toList, false, SqliteOpen.failed true, ⟨true, false⟩, ⟨true, false⟩,
          ⟨true, false⟩⟩
        none [⟨"a.com".toList, "sid".toList⟩] =
        some ⟨none, [⟨"a.com".toList, "sid".toList⟩], [reason], 1⟩ :=
  ⟨by decide,
    (C15_fatal_open_failure enum_codes true cookies_for_host 0
      ⟨some "config".toList, false, SqliteOpen.failed true, ⟨true, false⟩, ⟨true, false⟩,
        ⟨true, false⟩⟩
      none [⟨"a.com".toList, "sid".toList⟩]).1 (by decide)⟩

/-- C19, the amended statement at a concrete input: the cookie
`.example.com` is deleted, it matches the row `example.com` accepted for one
session, and its lookup is decided (it is Accept). -/
theorem C19_cleanup_deletes_by_matching_row_witness :
    ∃ jar2, session_cleanup enum_codes false cookies_for_host 0
        [⟨"www.example.com".toList, enum_codes.accept⟩,
          ⟨"example.com".toList, enum_codes.accept_for_session⟩]
        [⟨".example.com".toList, "sid".toList⟩] = some jar2 ∧
      (⟨".example.com".toList, "sid".toList⟩ : SoupCookie) ∉ jar2 ∧
      _cookie_permission_manager_get_policy enum_codes
        (some [⟨"www.example.com".toList, enum_codes.accept⟩,
          ⟨"example.com".toList, enum_codes.accept_for_session⟩])
        ⟨".example.com".toList, "sid".toList⟩ ≠ enum_codes.undetermined := by
  obtain ⟨jar2, h1, h2, h3⟩ := C19_cleanup_deletes_by_matching_row enum_codes cookies_for_host 0
    [⟨"www.example.com".toList, enum_codes.accept⟩,
      ⟨"example.com".toList, enum_codes.accept_for_session⟩]
    [⟨".example.com".toList, "sid".toList⟩]
  have hdel := ((h2 ⟨".example.com".toList, "sid".toList⟩).2
    ⟨by decide, ⟨"example.com".toList, enum_codes.accept_for_session⟩, by decide, rfl,
      by decide⟩).2
  exact ⟨jar2, h1, hdel, h3 _ (by decide) hdel⟩

/-- C20 at a concrete input: the cookie domain `a_b.com` is used as a `LIKE`
pattern whose `_` stands for any character, so `axb.com` is a candidate too;
the row `a_b.com`, which passes the domain match, is a candidate, and the
lookup is that of the full scan. -/
theorem C20_like_filter_is_transparent_witness :
    sqlite3_like (like_pattern ⟨"a_b.com".toList, "id".toList⟩) "axb.com".toList = true ∧
      sqlite3_like (like_pattern ⟨"a_b.com".toList, "id".toList⟩) "a_b.com".toList = true ∧
      _cookie_permission_manager_get_policy enum_codes
        (some [⟨"axb.com".toList, enum_codes.block⟩, ⟨"a_b.com".toList, enum_codes.accept⟩])
        ⟨"a_b.com".toList, "id".toList⟩ = enum_codes.accept :=
  ⟨by decide,
    (C20_like_filter_is_transparent enum_codes
      [⟨"axb.com".toList, enum_codes.block⟩, ⟨"a_b.com".toList, enum_codes.accept⟩]
      ⟨"a_b.com".toList, "id".toList⟩).2 ⟨"a_b.com".toList, enum_codes.accept⟩ (by decide),
    (C20_like_filter_is_transparent enum_codes
      [⟨"axb.com".toList, enum_codes.block⟩, ⟨"a_b.com".toList, enum_codes.accept⟩]
      ⟨"a_b.com".toList, "id".toList⟩).1.trans (by decide)⟩

/-! ## C21: stored domains stay unique up to ASCII case -/

/-- A prompt for cookies that are all undetermined, on a table of decisions
with domains unique up to case, leaves such a table. -/
theorem ask_preserves_unique (k : PolicyCodes) (gtk_dialog_run : Message → Int) (db : Store)
    (batch : List SoupCookie) (hans : dialog_answers k gtk_dialog_run)
    (hvalid : valid_store k (some db)) (huniq : case_insensitive_unique db)
    (hall : ∀ c ∈ batch, _cookie_permission_manager_get_policy k (some db) c = k.undetermined) :
    ∃ db2, (_cookie_permission_manager_ask_for_policy k gtk_dialog_run (some db) batch).database =
        some db2 ∧ valid_store k (some db2) ∧ case_insensitive_unique db2 := by
  rw [ask_database]
  by_cases hneg : gtk_dialog_run (ask_message batch) < 0
  · have h0 : ¬ (gtk_dialog_run (ask_message batch) ≥ 0) := by omega
    refine ⟨db, ?_, hvalid, huniq⟩
    simp [ask_writes, h0, exec_writes]
  · have hchoice : gtk_dialog_run (ask_message batch) = k.accept ∨
        gtk_dialog_run (ask_message batch) = k.accept_for_session ∨
        gtk_dialog_run (ask_message batch) = k.block := by
      rcases hans (ask_message batch) with h | h
      · exact absurd h hneg
      · exact h
    have hr : 0 ≤ gtk_dialog_run (ask_message batch) := by omega
    have hfresh := ask_writes_fresh k db batch _ hr hvalid hall
    have hrows := ask_writes_rows batch (gtk_dialog_run (ask_message batch))
    have hfacts := ask_writes_facts batch _ hr
    refine ⟨db ++ ask_writes
      (g_slist_sort batch _cookie_permission_manager_sort_cookies_by_domain)
      (gtk_dialog_run (ask_message batch)), ?_, ?_, ?_⟩
    · simp only [exec_writes, Option.map_some']
      rw [foldl_insert_eq_append _ _ hfresh.1 hfresh.2]
    · intro d hd row hrow
      cases hd
      rcases List.mem_append.1 hrow with h | h
      · exact hvalid db rfl row h
      · rw [(hrows row h).1]; exact hchoice
    · unfold case_insensitive_unique
      rw [List.pairwise_append]
      refine ⟨huniq, ?_, ?_⟩
      · have hnd := hfacts.1
        rw [List.Nodup, List.pairwise_map] at hnd
        exact hnd.imp (fun h e => h ((strcasecmp_eq_iff_casefold _ _).1 e))
      · intro a ha w hw e
        obtain ⟨-, c, hc, hwc⟩ := hrows w hw
        have hcov : covers c a = true := by
          apply covers_of_key_eq
          simp only [row_key, domain_key, ← hwc]
          exact (strcasecmp_eq_iff_casefold _ _).1 e
        have hu := (get_policy_undetermined_iff k db c).1 (hall c hc) a ha hcov
        exact codes_ne_undetermined k a.value (hvalid db rfl a ha) hu

theorem process_database (k : PolicyCodes) (gtk_dialog_run : Message → Int)
    (database : Option Store) (cookiePolicy : SoupCookieJarAcceptPolicy)
    (inMessage : SoupMessage) :
    (_cookie_permission_manager_process_set_cookie_header k gtk_dialog_run database cookiePolicy
        inMessage).1 = database ∨
      (_cookie_permission_manager_process_set_cookie_header k gtk_dialog_run database
        cookiePolicy inMessage).1 =
        (_cookie_permission_manager_ask_for_policy k gtk_dialog_run database
          (classified k database cookiePolicy inMessage).1).database := by
  unfold _cookie_permission_manager_process_set_cookie_header
  by_cases hn : cookiePolicy = SoupCookieJarAcceptPolicy.never
  · rw [if_pos hn]; exact Or.inl rfl
  · simp only [hn, if_false]
    split_ifs
    · exact Or.inr rfl
    · exact Or.inr rfl
    · exact Or.inl rfl

theorem on_cookie_changed_database (k : PolicyCodes) (gtk_dialog_run : Message → Int)
    (database : Option Store) (inOldCookie inNewCookie : Option SoupCookie) :
    (_cookie_permission_manager_on_cookie_changed k gtk_dialog_run database inOldCookie
        inNewCookie).1 = database ∨
      ∃ c, _cookie_permission_manager_get_policy k database c = k.undetermined ∧
        (_cookie_permission_manager_on_cookie_changed k gtk_dialog_run database inOldCookie
          inNewCookie).1 =
          (_cookie_permission_manager_ask_for_policy k gtk_dialog_run database [c]).database := by
  cases inNewCookie with
  | none => exact Or.inl rfl
  | some n =>
    cases inOldCookie with
    | some o => exact Or.inl rfl
    | none =>
      simp only [_cookie_permission_manager_on_cookie_changed]
      by_cases hb : _cookie_permission_manager_get_policy k database n = k.block
      · rw [if_pos hb]; exact Or.inl rfl
      · rw [if_neg hb]
        by_cases hu : _cookie_permission_manager_get_policy k database n = k.undetermined
        · rw [if_pos hu]
          right
          refine ⟨n, hu, ?_⟩
          split_ifs <;> rfl
        · rw [if_neg hu]; exact Or.inl rfl

theorem delete_selection_sublist (selected : List (List Char)) (db : Store) :
    (selected.foldl delete_where_domain db).Sublist db := by
  induction selected generalizing db with
  | nil => exact List.Sublist.refl _
  | cons d rest ih =>
    simp only [List.foldl_cons]
    exact (ih _).trans (List.filter_sublist _)

/-- One operation, its dialogs answering as the confirmation dialog can,
takes a table of decisions with domains unique up to case to such a table. -/
theorem apply_operation_preserves (k : PolicyCodes) (db : Store) (op : Operation)
    (hans : operation_answers k op) (hvalid : valid_store k (some db))
    (huniq : case_insensitive_unique db) :
    ∃ db2, apply_operation k (some db) op = some db2 ∧ valid_store k (some db2) ∧
      case_insensitive_unique db2 := by
  cases op with
  | process_set_cookie_header run cookiePolicy inMessage =>
    simp only [apply_operation]
    simp only [operation_answers] at hans
    rcases process_database k run (some db) cookiePolicy inMessage with h | h
    · exact ⟨db, h, hvalid, huniq⟩
    · rw [h]
      apply ask_preserves_unique k run db _ hans hvalid huniq
      intro c hc
      rw [classified_unknown_eq k (some db) cookiePolicy inMessage hvalid] at hc
      simp only [undetermined_batch, List.mem_filter, Bool.and_eq_true,
        decide_eq_true_eq] at hc
      exact hc.2.1
  | on_cookie_changed run inOldCookie inNewCookie =>
    simp only [apply_operation]
    simp only [operation_answers] at hans
    rcases on_cookie_changed_database k run (some db) inOldCookie inNewCookie with h | h
    · exact ⟨db, h, hvalid, huniq⟩
    · obtain ⟨c, hc, h⟩ := h
      rw [h]
      apply ask_preserves_unique k run db _ hans hvalid huniq
      intro c2 hc2
      rw [List.mem_singleton.1 hc2]; exact hc
  | on_delete_selection selected =>
    have hsub := delete_selection_sublist selected db
    refine ⟨selected.foldl delete_where_domain db, rfl, ?_, List.Pairwise.sublist hsub huniq⟩
    intro d hd row hrow
    cases hd
    exact hvalid db rfl row (hsub.subset hrow)
  | on_delete_all dialogResponse =>
    simp only [apply_operation, _cookie_permission_manager_preferences_on_delete_all]
    split_ifs
    · exact ⟨db, rfl, hvalid, huniq⟩
    · refine ⟨[], rfl, ?_, List.Pairwise.nil⟩
      intro d hd row hrow
      cases hd
      exact absurd hrow (List.not_mem_nil _)

theorem run_operations_preserves (k : PolicyCodes) (ops : List Operation) (db : Store)
    (hans : ∀ op ∈ ops, operation_answers k op) (hvalid : valid_store k (some db))
    (huniq : case_insensitive_unique db) :
    ∃ db2, run_operations k (some db) ops = some db2 ∧ valid_store k (some db2) ∧
      case_insensitive_unique db2 := by
  induction ops generalizing db with
  | nil => exact ⟨db, rfl, hvalid, huniq⟩
  | cons op rest ih =>
    obtain ⟨db1, h1, hv1, hu1⟩ := apply_operation_preserves k db op
      (hans op (List.mem_cons_self _ _)) hvalid huniq
    obtain ⟨db2, h2, hv2, hu2⟩ := ih db1 (fun o ho => hans o (List.mem_cons_of_mem _ ho)) hv1 hu1
    refine ⟨db2, ?_, hv2, hu2⟩
    simp only [run_operations, List.foldl_cons, h1]
    exact h2

/-- C21: starting from the empty table, after any sequence of response
handlings, jar-change notifications and deletions in the preferences window,
run one at a time, with every dialog answered by one of its three buttons or
closed, the table is still there and never holds two rows whose domains are
equal when ASCII case is ignored: this holds after every prefix of the
sequence. The unique index, which only keeps byte-identical domains apart,
holds with it. -/
theorem C21_case_insensitive_uniqueness (k : PolicyCodes) (ops : List Operation)
    (hans : ∀ op ∈ ops, operation_answers k op) (n : Nat) :
    ∃ db, run_operations k (some []) (ops.take n) = some db ∧ case_insensitive_unique db ∧
      unique_index db := by
  have hvalid : valid_store k (some []) := by
    intro d hd row hrow
    cases hd
    exact absurd hrow (List.not_mem_nil _)
  obtain ⟨db, h1, -, h3⟩ := run_operations_preserves k (ops.take n) []
    (fun op hop => hans op (List.mem_of_mem_take hop)) hvalid List.Pairwise.nil
  refine ⟨db, h1, h3, ?_⟩
  unfold unique_index
  unfold case_insensitive_unique at h3
  exact h3.imp (fun h e => h (by rw [e]; exact strcasecmp_self _))

/-- C21 at a concrete input: a cookie of `A.com` is accepted in the prompt,
then a cookie of `a.com` arrives in a response and a cookie of `.A.COM`
outside a request, each with a prompt ready to answer Block; the table keeps
the single row `A.com`. A table with the rows `A.com` and `a.com` would
satisfy the unique index and not the uniqueness up to case. -/
theorem C21_case_insensitive_uniqueness_witness :
    run_operations enum_codes (some [])
        [Operation.process_set_cookie_header (fun _ => enum_codes.accept)
          SoupCookieJarAcceptPolicy.always ⟨[⟨"A.com".toList, "x".toList⟩], none⟩,
        Operation.process_set_cookie_header (fun _ => enum_codes.block)
          SoupCookieJarAcceptPolicy.always ⟨[⟨"a.com".toList, "y".toList⟩], none⟩,
        Operation.on_cookie_changed (fun _ => enum_codes.block) none
          (some ⟨".A.COM".toList, "z".toList⟩)] =
        some [⟨"A.com".toList, enum_codes.accept⟩] ∧
      case_insensitive_unique [⟨"A.com".toList, enum_codes.accept⟩] ∧
      unique_index [⟨"A.com".toList, enum_codes.accept⟩, ⟨"a.com".toList, enum_codes.block⟩] ∧
      ¬ case_insensitive_unique
        [⟨"A.com".toList, enum_codes.accept⟩, ⟨"a.com".toList, enum_codes.block⟩] := by
  have hrun : run_operations enum_codes (some [])
      [Operation.process_set_cookie_header (fun _ => enum_codes.accept)
        SoupCookieJarAcceptPolicy.always ⟨[⟨"A.com".toList, "x".toList⟩], none⟩,
      Operation.process_set_cookie_header (fun _ => enum_codes.block)
        SoupCookieJarAcceptPolicy.always ⟨[⟨"a.com".toList, "y".toList⟩], none⟩,
      Operation.on_cookie_changed (fun _ => enum_codes.block) none
        (some ⟨".A.COM".toList, "z".toList⟩)] =
      some [⟨"A.com".toList, enum_codes.accept⟩] := by decide
  obtain ⟨db, h1, h2, -⟩ := C21_case_insensitive_uniqueness enum_codes
    [Operation.process_set_cookie_header (fun _ => enum_codes.accept)
      SoupCookieJarAcceptPolicy.always ⟨[⟨"A.com".toList, "x".toList⟩], none⟩,
    Operation.process_set_cookie_header (fun _ => enum_codes.block)
      SoupCookieJarAcceptPolicy.always ⟨[⟨"a.com".toList, "y".toList⟩], none⟩,
    Operation.on_cookie_changed (fun _ => enum_codes.block) none
      (some ⟨".A.COM".toList, "z".toList⟩)]
    (by
      intro op hop
      simp only [List.mem_cons, List.mem_singleton, List.not_mem_nil, or_false] at hop
      rcases hop with h | h | h
      · subst h; exact fun _ => Or.inr (Or.inl rfl)
      · subst h; exact fun _ => Or.inr (Or.inr (Or.inr rfl))
      · subst h; exact fun _ => Or.inr (Or.inr (Or.inr rfl)))
    3
  rw [List.take_of_length_le (by decide), hrun] at h1
  cases h1
  refine ⟨hrun, h2, ?_, ?_⟩
  · unfold unique_index; decide
  · unfold case_insensitive_unique; decide

/-! ## Facts about the jar and its `changed` signal -/

theorem mem_foldl_delete (ds : List SoupCookie) (jar : CookieJar) (x : SoupCookie)
    (h : x ∈ ds.foldl soup_cookie_jar_delete_cookie jar) : x ∈ jar := by
  induction ds generalizing jar with
  | nil => exact h
  | cons d ds ih =>
    have h1 := ih _ h
    simp only [soup_cookie_jar_delete_cookie, List.mem_filter] at h1
    exact h1.1

theorem on_cookie_changed_old (k : PolicyCodes) (gtk_dialog_run : Message → Int)
    (database : Option Store) (old : SoupCookie) (inNewCookie : Option SoupCookie) :
    _cookie_permission_manager_on_cookie_changed k gtk_dialog_run database (some old)
      inNewCookie = (database, []) := by
  cases inNewCookie <;> rfl

theorem jar_additions_on_cookie_changed (k : PolicyCodes) (gtk_dialog_run : Message → Int)
    (database : Option Store) (inOldCookie inNewCookie : Option SoupCookie) :
    jar_additions (_cookie_permission_manager_on_cookie_changed k gtk_dialog_run database
      inOldCookie inNewCookie).2 = [] := by
  cases inNewCookie with
  | none => rfl
  | some c =>
    cases inOldCookie with
    | some old => rfl
    | none =>
      simp only [_cookie_permission_manager_on_cookie_changed]
      split_ifs
      · rfl
      · rw [jar_additions_append, jar_additions_ask]; rfl
      · exact jar_additions_ask k gtk_dialog_run database [c]
      · rfl

theorem changed_additions (k : PolicyCodes) (gtk_dialog_run : Message → Int)
    (state : HandlerState) (inOldCookie inNewCookie : Option SoupCookie) :
    jar_additions (soup_cookie_jar_changed k gtk_dialog_run state inOldCookie
      inNewCookie).events = jar_additions state.events := by
  simp only [soup_cookie_jar_changed, jar_additions_append, jar_additions_on_cookie_changed,
    List.append_nil]

theorem changed_jar_subset (k : PolicyCodes) (gtk_dialog_run : Message → Int)
    (state : HandlerState) (inOldCookie inNewCookie : Option SoupCookie) (x : SoupCookie)
    (h : x ∈ (soup_cookie_jar_changed k gtk_dialog_run state inOldCookie inNewCookie).jar) :
    x ∈ state.jar :=
  mem_foldl_delete _ _ _ h

theorem changed_old (k : PolicyCodes) (gtk_dialog_run : Message → Int)
    (state : HandlerState) (old : SoupCookie) (inNewCookie : Option SoupCookie) :
    soup_cookie_jar_changed k gtk_dialog_run state (some old) inNewCookie = state := by
  simp [soup_cookie_jar_changed, on_cookie_changed_old, jar_deletions]

theorem changed_decided (k : PolicyCodes) (gtk_dialog_run : Message → Int)
    (state : HandlerState) (c : SoupCookie)
    (h : _cookie_permission_manager_get_policy k state.database c ≠ k.undetermined) :
    soup_cookie_jar_changed k gtk_dialog_run state none (some c) =
      if _cookie_permission_manager_get_policy k state.database c = k.block then
        ⟨state.database, soup_cookie_jar_delete_cookie state.jar c,
          state.events ++ [Event.jar_delete c]⟩
      else state := by
  simp only [soup_cookie_jar_changed, _cookie_permission_manager_on_cookie_changed]
  by_cases hb : _cookie_permission_manager_get_policy k state.database c = k.block
  · simp [hb, jar_deletions]
  · simp [hb, h, jar_deletions]

theorem jar_replace_some (c : SoupCookie) (jar : CookieJar) (old : SoupCookie)
    (jar2 : CookieJar) (h : jar_replace c jar = some (old, jar2)) :
    old ∈ jar ∧ same_cookie c old = true ∧ (∀ x ∈ jar2, x ∈ jar ∨ x = c) ∧
      (old = c → jar2 = jar) := by
  induction jar generalizing jar2 with
  | nil => simp [jar_replace] at h
  | cons a rest ih =>
    simp only [jar_replace] at h
    by_cases hs : same_cookie c a = true
    · simp only [hs, if_true, Option.some.injEq, Prod.mk.injEq] at h
      obtain ⟨h1, h2⟩ := h
      subst h1; subst h2
      refine ⟨List.mem_cons_self _ _, hs, ?_, ?_⟩
      · intro x hx
        rcases List.mem_cons.1 hx with hx | hx
        · exact Or.inr hx
        · exact Or.inl (List.mem_cons_of_mem _ hx)
      · intro e; rw [e]
    · simp only [hs, Bool.false_eq_true, if_false, Option.map_eq_some', Prod.mk.injEq] at h
      obtain ⟨r, hr, h1, h2⟩ := h
      obtain ⟨i1, i2, i3, i4⟩ := ih r.2 (by rw [hr, ← h1])
      refine ⟨List.mem_cons_of_mem _ i1, i2, ?_, ?_⟩
      · intro x hx
        rw [← h2] at hx
        rcases List.mem_cons.1 hx with hx | hx
        · exact Or.inl (by rw [hx]; exact List.mem_cons_self _ _)
        · rcases i3 x hx with h3 | h3
          · exact Or.inl (List.mem_cons_of_mem _ h3)
          · exact Or.inr h3
      · intro e; rw [← h2, i4 e]

theorem jar_replace_none (c : SoupCookie) (jar : CookieJar) (h : jar_replace c jar = none) :
    ∀ x ∈ jar, same_cookie c x = false := by
  induction jar with
  | nil => intro x hx; exact absurd hx (List.not_mem_nil _)
  | cons a rest ih =>
    simp only [jar_replace] at h
    by_cases hs : same_cookie c a = true
    · simp [hs] at h
    · simp only [hs, Bool.false_eq_true, if_false, Option.map_eq_none'] at h
      intro x hx
      rcases List.mem_cons.1 hx with hx | hx
      · rw [hx]; simpa using hs
      · exact ih h x hx

theorem same_cookie_self (c : SoupCookie) : same_cookie c c = true := by
  simp [same_cookie, strcasecmp_self]

theorem add_cookie_additions (k : PolicyCodes) (gtk_dialog_run : Message → Int)
    (state : HandlerState) (c : SoupCookie) :
    jar_additions (soup_cookie_jar_add_cookie k gtk_dialog_run state c).events =
      jar_additions state.events ++ [c] := by
  unfold soup_cookie_jar_add_cookie
  cases jar_replace c state.jar with
  | none => simp only [changed_additions, jar_additions_append]; rfl
  | some r => simp only [changed_additions, jar_additions_append]; rfl

theorem add_cookie_jar_subset (k : PolicyCodes) (gtk_dialog_run : Message → Int)
    (state : HandlerState) (c x : SoupCookie)
    (h : x ∈ (soup_cookie_jar_add_cookie k gtk_dialog_run state c).jar) :
    x ∈ state.jar ∨ x = c := by
  unfold soup_cookie_jar_add_cookie at h
  cases hr : jar_replace c state.jar with
  | none =>
    rw [hr] at h
    have h1 := changed_jar_subset _ _ _ _ _ _ h
    simpa using h1
  | some r =>
    rw [hr] at h
    have h1 := changed_jar_subset _ _ _ _ _ _ h
    exact (jar_replace_some c state.jar r.1 r.2 hr).2.2.1 x h1

theorem foldl_add_additions (k : PolicyCodes) (gtk_dialog_run : Message → Int)
    (cs : List SoupCookie) (state : HandlerState) :
    jar_additions (cs.foldl (soup_cookie_jar_add_cookie k gtk_dialog_run) state).events =
      jar_additions state.events ++ cs := by
  induction cs generalizing state with
  | nil => simp
  | cons c cs ih =>
    rw [List.foldl_cons, ih, add_cookie_additions, List.append_assoc]; rfl

theorem foldl_add_jar_subset (k : PolicyCodes) (gtk_dialog_run : Message → Int)
    (cs : List SoupCookie) (state : HandlerState) (x : SoupCookie)
    (h : x ∈ (cs.foldl (soup_cookie_jar_add_cookie k gtk_dialog_run) state).jar) :
    x ∈ state.jar ∨ x ∈ cs := by
  induction cs generalizing state with
  | nil => exact Or.inl h
  | cons c cs ih =>
    rw [List.foldl_cons] at h
    rcases ih _ h with h1 | h1
    · rcases add_cookie_jar_subset _ _ _ _ _ h1 with h2 | h2
      · exact Or.inl h2
      · exact Or.inr (by rw [h2]; exact List.mem_cons_self _ _)
    · exact Or.inr (List.mem_cons_of_mem _ h1)


theorem add_cookie_decided (k : PolicyCodes) (gtk_dialog_run : Message → Int)
    (S : List SoupCookie) (hS : cookies_distinct S) (state : HandlerState) (c : SoupCookie)
    (hc : c ∈ S) (hjar : ∀ x ∈ state.jar, x ∈ S)
    (hdec : _cookie_permission_manager_get_policy k state.database c ≠ k.undetermined) :
    soup_cookie_jar_add_cookie k gtk_dialog_run state c =
      ⟨state.database,
        if c ∈ state.jar ∨ _cookie_permission_manager_get_policy k state.database c = k.block
        then state.jar else state.jar ++ [c],
        state.events ++ Event.jar_add c ::
          (if c ∉ state.jar ∧ _cookie_permission_manager_get_policy k state.database c = k.block
           then [Event.jar_delete c] else [])⟩ := by
  unfold soup_cookie_jar_add_cookie
  cases hr : jar_replace c state.jar with
  | some r =>
    obtain ⟨h1, h2, -, h4⟩ := jar_replace_some c state.jar r.1 r.2 hr
    have he : r.1 = c := (hS c hc r.1 (hjar _ h1) h2).symm
    have hmem : c ∈ state.jar := he ▸ h1
    simp only [changed_old, h4 he, hmem, true_or, if_true, not_true_eq_false, false_and,
      if_false]
  | none =>
    have hnot : c ∉ state.jar := by
      intro hm
      have := jar_replace_none c state.jar hr c hm
      rw [same_cookie_self] at this
      exact Bool.noConfusion this
    have hdel : soup_cookie_jar_delete_cookie (state.jar ++ [c]) c = state.jar := by
      simp only [soup_cookie_jar_delete_cookie, List.filter_append]
      have h1 : List.filter (fun x => decide (x ≠ c)) state.jar = state.jar := by
        apply List.filter_eq_self.2
        intro x hx
        simp only [decide_eq_true_eq]
        exact fun e => hnot (e ▸ hx)
      rw [h1]
      simp
    simp only []
    rw [changed_decided k gtk_dialog_run
      ⟨state.database, state.jar ++ [c], state.events ++ [Event.jar_add c]⟩ c hdec]
    by_cases hb : _cookie_permission_manager_get_policy k state.database c = k.block
    · simp only [hb, if_true, hdel, hnot, false_or, not_false_eq_true, and_self,
        List.append_assoc, List.singleton_append]
    · simp only [hb, if_false, hnot, false_or, and_false]

theorem foldl_add_decided (k : PolicyCodes) (gtk_dialog_run : Message → Int)
    (S : List SoupCookie) (hS : cookies_distinct S) (cs : List SoupCookie)
    (state : HandlerState) (hcs : ∀ c ∈ cs, c ∈ S) (hjar : ∀ x ∈ state.jar, x ∈ S)
    (hdec : ∀ c ∈ cs,
      _cookie_permission_manager_get_policy k state.database c ≠ k.undetermined) :
    (cs.foldl (soup_cookie_jar_add_cookie k gtk_dialog_run) state).database =
        state.database ∧
      prompts (cs.foldl (soup_cookie_jar_add_cookie k gtk_dialog_run) state).events =
        prompts state.events ∧
      sql_writes (cs.foldl (soup_cookie_jar_add_cookie k gtk_dialog_run) state).events =
        sql_writes state.events ∧
      ∀ x, x ∈ (cs.foldl (soup_cookie_jar_add_cookie k gtk_dialog_run) state).jar ↔
        x ∈ state.jar ∨
          (x ∈ cs ∧ _cookie_permission_manager_get_policy k state.database x ≠ k.block) := by
  induction cs generalizing state with
  | nil => simp
  | cons c cs ih =>
    have hstep := add_cookie_decided k gtk_dialog_run S hS state c
      (hcs c (List.mem_cons_self _ _)) hjar (hdec c (List.mem_cons_self _ _))
    have hdb : (soup_cookie_jar_add_cookie k gtk_dialog_run state c).database =
        state.database := by rw [hstep]
    have hjar2 : ∀ x, x ∈ (soup_cookie_jar_add_cookie k gtk_dialog_run state c).jar ↔
        x ∈ state.jar ∨
          (x = c ∧ _cookie_permission_manager_get_policy k state.database c ≠ k.block) := by
      intro x
      rw [hstep]
      simp only []
      split_ifs with h1
      · constructor
        · exact Or.inl
        · rintro (h | ⟨h, h2⟩)
          · exact h
          · rcases h1 with h1 | h1
            · rw [h]; exact h1
            · exact absurd h1 h2
      · rw [not_or] at h1
        simp only [List.mem_append, List.mem_singleton]
        constructor
        · rintro (h | h)
          · exact Or.inl h
          · exact Or.inr ⟨h, h1.2⟩
        · rintro (h | h)
          · exact Or.inl h
          · exact Or.inr h.1
    have hpr : prompts (soup_cookie_jar_add_cookie k gtk_dialog_run state c).events =
        prompts state.events := by
      rw [hstep]
      simp only [prompts_append]
      split_ifs <;> simp [prompts]
    have hsq : sql_writes (soup_cookie_jar_add_cookie k gtk_dialog_run state c).events =
        sql_writes state.events := by
      rw [hstep]
      simp only [sql_writes_append]
      split_ifs <;> simp [sql_writes]
    have hih := ih (soup_cookie_jar_add_cookie k gtk_dialog_run state c)
      (fun x hx => hcs x (List.mem_cons_of_mem _ hx))
      (fun x hx => by
        rcases (hjar2 x).1 hx with h | h
        · exact hjar x h
        · rw [h.1]; exact hcs c (List.mem_cons_self _ _))
      (fun x hx => by rw [hdb]; exact hdec x (List.mem_cons_of_mem _ hx))
    rw [List.foldl_cons]
    refine ⟨hih.1.trans hdb, hih.2.1.trans hpr, hih.2.2.1.trans hsq, ?_⟩
    intro x
    rw [hih.2.2.2 x, hjar2 x, hdb, List.mem_cons]
    constructor
    · rintro ((h | ⟨h, h2⟩) | ⟨h, h2⟩)
      · exact Or.inl h
      · exact Or.inr ⟨Or.inl h, by rw [h]; exact h2⟩
      · exact Or.inr ⟨Or.inr h, h2⟩
    · rintro (h | ⟨h | h, h2⟩)
      · exact Or.inl (Or.inl h)
      · exact Or.inl (Or.inr ⟨h, by rw [← h]; exact h2⟩)
      · exact Or.inr ⟨h, h2⟩


/-- The response handler on the jar is its own calls with every addition run
on the jar: the additions are folded over the state the handler's own prompt
left. -/
theorem with_signal_eq_foldl (k : PolicyCodes) (gtk_dialog_run : Message → Int)
    (database : Option Store) (cookiePolicy : SoupCookieJarAcceptPolicy) (jar : CookieJar)
    (inMessage : SoupMessage) :
    ∃ pre : List Event, jar_additions pre = [] ∧
      prompts pre = prompts (_cookie_permission_manager_process_set_cookie_header k
        gtk_dialog_run database cookiePolicy inMessage).2 ∧
      sql_writes pre = sql_writes (_cookie_permission_manager_process_set_cookie_header k
        gtk_dialog_run database cookiePolicy inMessage).2 ∧
      process_set_cookie_header_with_signal k gtk_dialog_run database cookiePolicy jar
          inMessage =
        (jar_additions (_cookie_permission_manager_process_set_cookie_header k gtk_dialog_run
          database cookiePolicy inMessage).2).foldl
          (soup_cookie_jar_add_cookie k gtk_dialog_run)
          ⟨(_cookie_permission_manager_process_set_cookie_header k gtk_dialog_run database
            cookiePolicy inMessage).1, jar, pre⟩ := by
  unfold process_set_cookie_header_with_signal
    _cookie_permission_manager_process_set_cookie_header
  by_cases hn : cookiePolicy = SoupCookieJarAcceptPolicy.never
  · exact ⟨[], rfl, by simp [hn], by simp [hn], by simp [hn, jar_additions]⟩
  · simp only [hn, if_false]
    split_ifs
    · refine ⟨(_cookie_permission_manager_ask_for_policy k gtk_dialog_run database
        (classified k database cookiePolicy inMessage).1).events,
        jar_additions_ask _ _ _ _, ?_, ?_, ?_⟩
      · simp only [prompts_append, prompts_jar_add, List.append_nil]
      · simp only [sql_writes_append, sql_writes_jar_add, List.append_nil]
      · simp only [jar_additions_append, jar_additions_ask, jar_additions_jar_add,
          List.nil_append, List.foldl_append]
    · refine ⟨(_cookie_permission_manager_ask_for_policy k gtk_dialog_run database
        (classified k database cookiePolicy inMessage).1).events,
        jar_additions_ask _ _ _ _, ?_, ?_, ?_⟩
      · simp only [prompts_append, prompts_jar_add, List.append_nil]
      · simp only [sql_writes_append, sql_writes_jar_add, List.append_nil]
      · simp only [jar_additions_append, jar_additions_ask, jar_additions_jar_add,
          List.nil_append]
    · refine ⟨[], rfl, ?_, ?_, ?_⟩
      · simp only [prompts_jar_add]; rfl
      · simp only [sql_writes_jar_add]; rfl
      · simp only [jar_additions_jar_add]

theorem get_policy_decided_iff (k : PolicyCodes) (db : Store) (c : SoupCookie) :
    _cookie_permission_manager_get_policy k (some db) c ≠ k.undetermined ↔
      ∃ d : List Char, sqlite3_like (like_pattern c) d = true ∧
        soup_cookie_domain_matches c d = true ∧
        ∃ r ∈ db, r.domain = d ∧ r.value ≠ k.undetermined := by
  rw [Ne, get_policy_undetermined_iff]
  simp only [covers, Bool.and_eq_true]
  constructor
  · intro h
    push_neg at h
    obtain ⟨r, hr, hc, hv⟩ := h
    exact ⟨r.domain, hc.1, hc.2, r, hr, rfl, hv⟩
  · rintro ⟨d, h1, h2, r, hr, hd, hv⟩ h
    exact hv (h r hr (by rw [hd]; exact ⟨h1, h2⟩))

theorem foldl_insert_keeps_decided (u : Int) (d : List Char) (ws : List PolicyRow)
    (db : Store) (hval : ∀ w ∈ ws, w.value ≠ u)
    (h : ∃ row ∈ db, row.domain = d ∧ row.value ≠ u) :
    ∃ row ∈ ws.foldl (fun d w => insert_or_replace d w.domain w.value) db,
      row.domain = d ∧ row.value ≠ u := by
  induction ws generalizing db with
  | nil => exact h
  | cons w ws ih =>
    simp only [List.foldl_cons]
    apply ih _ (fun x hx => hval x (List.mem_cons_of_mem _ hx))
    obtain ⟨row, hrow, hd, hv⟩ := h
    by_cases hw : w.domain = d
    · refine ⟨⟨w.domain, w.value⟩, ?_, hw, hval w (List.mem_cons_self _ _)⟩
      simp [insert_or_replace]
    · refine ⟨row, ?_, hd, hv⟩
      simp only [insert_or_replace, List.mem_append, List.mem_filter]
      left
      refine ⟨hrow, ?_⟩
      simp only [decide_eq_true_eq]
      rw [hd]; exact fun e => hw e.symm

theorem ask_writes_decided (k : PolicyCodes) (gtk_dialog_run : Message → Int)
    (hrun : dialog_answers k gtk_dialog_run) (batch : List SoupCookie) :
    ∀ w ∈ ask_writes (g_slist_sort batch _cookie_permission_manager_sort_cookies_by_domain)
        (gtk_dialog_run (ask_message batch)),
      0 ≤ gtk_dialog_run (ask_message batch) ∧ w.value = gtk_dialog_run (ask_message batch) ∧
        w.value ≠ k.undetermined := by
  intro w hw
  have hv := (ask_writes_rows batch _ w hw).1
  have h0 : 0 ≤ gtk_dialog_run (ask_message batch) := by
    by_contra hneg
    simp only [ask_writes, ge_iff_le, hneg, if_false] at hw
    exact absurd hw (List.not_mem_nil _)
  refine ⟨h0, hv, ?_⟩
  rw [hv]
  rcases hrun (ask_message batch) with h | h
  · omega
  · exact codes_ne_undetermined k _ h

theorem decided_after_ask (k : PolicyCodes) (gtk_dialog_run : Message → Int)
    (hrun : dialog_answers k gtk_dialog_run) (db : Store) (batch : List SoupCookie)
    (c : SoupCookie)
    (h : _cookie_permission_manager_get_policy k (some db) c ≠ k.undetermined ∨
      (c ∈ batch ∧ 0 ≤ gtk_dialog_run (ask_message batch))) :
    _cookie_permission_manager_get_policy k
      (_cookie_permission_manager_ask_for_policy k gtk_dialog_run (some db) batch).database c ≠
        k.undetermined := by
  rw [ask_database]
  simp only [exec_writes, Option.map_some']
  rw [get_policy_decided_iff]
  have hws := ask_writes_decided k gtk_dialog_run hrun batch
  rcases h with h | ⟨hc, h0⟩
  · obtain ⟨d, h1, h2, h3⟩ := (get_policy_decided_iff k db c).1 h
    exact ⟨d, h1, h2, foldl_insert_keeps_decided _ d _ db (fun w hw => (hws w hw).2.2) h3⟩
  · obtain ⟨w, hw, hwk⟩ := (ask_writes_facts batch _ h0).2.2 c hc
    obtain ⟨row, hrow, hrd, hrv⟩ := foldl_insert_has _ _ db
      (fun x hx => (ask_writes_rows batch _ x hx).1) w hw
    have hcov : covers c w = true := covers_of_key_eq c w hwk
    simp only [covers, Bool.and_eq_true] at hcov
    refine ⟨w.domain, hcov.1, hcov.2, row, hrow, hrd, ?_⟩
    rw [hrv, ← (hws w hw).2.1]
    exact (hws w hw).2.2

/-- On an open database and with a dialog that answers with one of its
buttons or is closed, every cookie the response handler hands to the jar has
a decision in the database the handler's prompt left. -/
theorem added_cookies_decided (k : PolicyCodes) (gtk_dialog_run : Message → Int)
    (hrun : dialog_answers k gtk_dialog_run) (db : Store)
    (cookiePolicy : SoupCookieJarAcceptPolicy) (inMessage : SoupMessage) :
    ∀ c ∈ jar_additions (_cookie_permission_manager_process_set_cookie_header k gtk_dialog_run
        (some db) cookiePolicy inMessage).2,
      _cookie_permission_manager_get_policy k
        (_cookie_permission_manager_process_set_cookie_header k gtk_dialog_run (some db)
          cookiePolicy inMessage).1 c ≠ k.undetermined := by
  obtain ⟨hua, hus, -, -, hab, hsb⟩ := codes_facts k
  have hacc : ∀ c ∈ (classified k (some db) cookiePolicy inMessage).2,
      _cookie_permission_manager_get_policy k (some db) c ≠ k.undetermined := by
    intro c hc
    rw [classified_accepted_eq] at hc
    simp only [accepted_batch, List.mem_filter, Bool.and_eq_true, policy_is_accepted,
      decide_eq_true_eq] at hc
    rcases hc.2.1 with h | h
    · rw [h]; exact fun e => hua e.symm
    · rw [h]; exact fun e => hus e.symm
  unfold _cookie_permission_manager_process_set_cookie_header
  by_cases hn : cookiePolicy = SoupCookieJarAcceptPolicy.never
  · simp [hn, jar_additions]
  · simp only [hn, if_false]
    split_ifs with h1 h2
    · intro c hc
      simp only [jar_additions_append, jar_additions_ask, jar_additions_jar_add,
        List.nil_append, List.mem_append] at hc
      apply decided_after_ask k gtk_dialog_run hrun
      rcases hc with hc | hc
      · right
        refine ⟨hc, ?_⟩
        by_contra hneg
        have hp : (_cookie_permission_manager_ask_for_policy k gtk_dialog_run (some db)
            (classified k (some db) cookiePolicy inMessage).1).policy = k.block := by
          simp only [_cookie_permission_manager_ask_for_policy, ge_iff_le, hneg, if_false]
        rw [hp] at h2
        rcases h2 with h2 | h2
        · exact hab h2.symm
        · exact hsb h2.symm
      · exact Or.inl (hacc c hc)
    · intro c hc
      simp only [jar_additions_append, jar_additions_ask, jar_additions_jar_add,
        List.nil_append] at hc
      exact decided_after_ask k gtk_dialog_run hrun db _ c (Or.inl (hacc c hc))
    · intro c hc
      rw [jar_additions_jar_add] at hc
      exact hacc c hc


theorem find_first_of_pairwise {α : Type} (R : α → α → Prop) (p : α → Bool) (l : List α)
    (hl : l.Pairwise R) (a b : α) (ha : l.find? p = some a) (hb : b ∈ l)
    (hp : p b = true) : a = b ∨ R a b := by
  induction l with
  | nil => exact absurd hb (List.not_mem_nil _)
  | cons x xs ih =>
    rw [List.pairwise_cons] at hl
    by_cases hx : p x = true
    · rw [List.find?_cons_of_pos _ hx] at ha
      have hax : x = a := Option.some.inj ha
      rcases List.mem_cons.1 hb with h | h
      · exact Or.inl (by rw [h, hax])
      · exact Or.inr (hax ▸ hl.1 b h)
    · rw [List.find?_cons_of_neg _ hx] at ha
      rcases List.mem_cons.1 hb with h | h
      · rw [h] at hp; exact absurd hp hx
      · exact ih hl.2 ha h

theorem eq_of_unique_index (db : Store) (h : unique_index db) (r s : PolicyRow)
    (hr : r ∈ db) (hs : s ∈ db) (hd : r.domain = s.domain) : r = s := by
  by_contra hne
  have hsymm : Symmetric (fun a b : PolicyRow => a.domain ≠ b.domain) :=
    fun _ _ hxy e => hxy e.symm
  exact List.Pairwise.forall hsymm h hr hs hne hd

/-- A cookie that resolves to accept or accept for session keeps such a
policy when the rows of a prompt are written, unless the prompt answered
block. -/
theorem accepted_after_ask (k : PolicyCodes) (gtk_dialog_run : Message → Int)
    (hrun : dialog_answers k gtk_dialog_run) (db : Store) (hdb : unique_index db)
    (batch : List SoupCookie) (c : SoupCookie)
    (hnb : gtk_dialog_run (ask_message batch) ≠ k.block)
    (h : _cookie_permission_manager_get_policy k (some db) c = k.accept ∨
      _cookie_permission_manager_get_policy k (some db) c = k.accept_for_session) :
    _cookie_permission_manager_get_policy k
        (_cookie_permission_manager_ask_for_policy k gtk_dialog_run (some db) batch).database
        c = k.accept ∨
      _cookie_permission_manager_get_policy k
        (_cookie_permission_manager_ask_for_policy k gtk_dialog_run (some db) batch).database
        c = k.accept_for_session := by
  obtain ⟨hua, hus, -, -, -, -⟩ := codes_facts k
  have hws := ask_writes_decided k gtk_dialog_run hrun batch
  rw [ask_database]
  simp only [exec_writes, Option.map_some']
  simp only [_cookie_permission_manager_get_policy, get_policy_loop_eq_find] at h ⊢
  cases hF : (select_like db (like_pattern c)).find? (fun r =>
      soup_cookie_domain_matches c r.domain && decide (r.value ≠ k.undetermined)) with
  | none =>
    rw [hF] at h
    rcases h with h | h
    · exact absurd h hua
    · exact absurd h hus
  | some F =>
    rw [hF] at h
    have hFm := (mem_select_like _ _ _).1 (List.mem_of_find?_eq_some hF)
    have hFp := List.find?_some hF
    simp only [Bool.and_eq_true, decide_eq_true_eq] at hFp
    obtain ⟨G, hG, hGd, hGv⟩ := foldl_insert_keeps_decided k.undetermined F.domain
      (ask_writes (g_slist_sort batch _cookie_permission_manager_sort_cookies_by_domain)
        (gtk_dialog_run (ask_message batch))) db (fun w hw => (hws w hw).2.2)
      ⟨F, hFm.1, rfl, hFp.2⟩
    have hGsel : G ∈ select_like ((ask_writes
        (g_slist_sort batch _cookie_permission_manager_sort_cookies_by_domain)
        (gtk_dialog_run (ask_message batch))).foldl
        (fun d w => insert_or_replace d w.domain w.value) db) (like_pattern c) :=
      (mem_select_like _ _ _).2 ⟨hG, by rw [hGd]; exact hFm.2⟩
    have hGp : (fun r : PolicyRow => soup_cookie_domain_matches c r.domain &&
        decide (r.value ≠ k.undetermined)) G = true := by
      simp only [Bool.and_eq_true, decide_eq_true_eq]
      exact ⟨by rw [hGd]; exact hFp.1, hGv⟩
    cases hB : (select_like ((ask_writes
        (g_slist_sort batch _cookie_permission_manager_sort_cookies_by_domain)
        (gtk_dialog_run (ask_message batch))).foldl
        (fun d w => insert_or_replace d w.domain w.value) db) (like_pattern c)).find? (fun r =>
        soup_cookie_domain_matches c r.domain && decide (r.value ≠ k.undetermined)) with
    | none =>
      have := List.find?_eq_none.1 hB G hGsel
      exact absurd hGp this
    | some b =>
      have hbm := (mem_select_like _ _ _).1 (List.mem_of_find?_eq_some hB)
      have hbp := List.find?_some hB
      show b.value = k.accept ∨ b.value = k.accept_for_session
      rcases mem_foldl_insert _ _ _ hbm.1 with hb | hb
      · have hbsel : b ∈ select_like db (like_pattern c) := (mem_select_like _ _ _).2 ⟨hb, hbm.2⟩
        have h1 := find_first_of_pairwise _ _ _ (select_like_sorted db (like_pattern c)) F b hF
          hbsel hbp
        have h2 := find_first_of_pairwise _ _ _ (select_like_sorted _ (like_pattern c)) b G hB
          hGsel hGp
        have hdom : b.domain = F.domain := by
          rcases h1 with h1 | h1
          · rw [h1]
          · rcases h2 with h2 | h2
            · rw [h2, hGd]
            · rw [hGd] at h2
              exact binary_ge_antisymm _ _ h2 h1
        have hbF : b = F := eq_of_unique_index db hdb b F hb hFm.1 hdom
        rw [hbF]; exact h
      · obtain ⟨h0, hv, -⟩ := hws b hb
        rw [hv]
        rcases hrun (ask_message batch) with hr | hr | hr | hr
        · omega
        · exact Or.inl hr
        · exact Or.inr hr
        · exact absurd hr hnb


theorem with_signal_additions (k : PolicyCodes) (gtk_dialog_run : Message → Int)
    (database : Option Store) (cookiePolicy : SoupCookieJarAcceptPolicy) (jar : CookieJar)
    (inMessage : SoupMessage) :
    jar_additions (process_set_cookie_header_with_signal k gtk_dialog_run database cookiePolicy
        jar inMessage).events =
      jar_additions (_cookie_permission_manager_process_set_cookie_header k gtk_dialog_run
        database cookiePolicy inMessage).2 := by
  obtain ⟨pre, h1, -, -, h4⟩ := with_signal_eq_foldl k gtk_dialog_run database cookiePolicy jar
    inMessage
  rw [h4, foldl_add_additions]
  simp only [h1, List.nil_append]

theorem with_signal_jar_subset (k : PolicyCodes) (gtk_dialog_run : Message → Int)
    (database : Option Store) (cookiePolicy : SoupCookieJarAcceptPolicy) (jar : CookieJar)
    (inMessage : SoupMessage) (x : SoupCookie)
    (h : x ∈ (process_set_cookie_header_with_signal k gtk_dialog_run database cookiePolicy
        jar inMessage).jar) :
    x ∈ jar ∨ x ∈ jar_additions (_cookie_permission_manager_process_set_cookie_header k
      gtk_dialog_run database cookiePolicy inMessage).2 := by
  obtain ⟨pre, -, -, -, h4⟩ := with_signal_eq_foldl k gtk_dialog_run database cookiePolicy jar
    inMessage
  rw [h4] at h
  exact foldl_add_jar_subset _ _ _ _ _ h

theorem additions_subset_cookies (k : PolicyCodes) (gtk_dialog_run : Message → Int)
    (database : Option Store) (cookiePolicy : SoupCookieJarAcceptPolicy)
    (inMessage : SoupMessage) :
    ∀ c ∈ jar_additions (_cookie_permission_manager_process_set_cookie_header k gtk_dialog_run
      database cookiePolicy inMessage).2, c ∈ inMessage.cookies := by
  intro c hc
  rcases jar_additions_process k gtk_dialog_run database cookiePolicy inMessage with h | h
  · rw [h] at hc
    exact (List.mem_filter.1 hc).1
  · rw [h, classified_eq] at hc
    rcases List.mem_append.1 hc with h1 | h1
    · exact (List.mem_filter.1 h1).1
    · exact (List.mem_filter.1 h1).1

/-- On an open database, with a dialog that answers with one of its buttons
or is closed and a jar that takes no two cookies at hand for one, the handler
of the `changed` signal asks nothing and writes nothing during a response, and
the jar afterwards holds what it held and the added cookies whose lookup in
the database after the prompt is not Block. -/
theorem with_signal_open (k : PolicyCodes) (gtk_dialog_run : Message → Int)
    (hrun : dialog_answers k gtk_dialog_run) (db : Store)
    (cookiePolicy : SoupCookieJarAcceptPolicy) (jar : CookieJar) (inMessage : SoupMessage)
    (hjar : cookies_distinct (jar ++ inMessage.cookies)) :
    (process_set_cookie_header_with_signal k gtk_dialog_run (some db) cookiePolicy jar
        inMessage).database =
        (_cookie_permission_manager_process_set_cookie_header k gtk_dialog_run (some db)
          cookiePolicy inMessage).1 ∧
      prompts (process_set_cookie_header_with_signal k gtk_dialog_run (some db) cookiePolicy
        jar inMessage).events =
        prompts (_cookie_permission_manager_process_set_cookie_header k gtk_dialog_run
          (some db) cookiePolicy inMessage).2 ∧
      sql_writes (process_set_cookie_header_with_signal k gtk_dialog_run (some db)
        cookiePolicy jar inMessage).events =
        sql_writes (_cookie_permission_manager_process_set_cookie_header k gtk_dialog_run
          (some db) cookiePolicy inMessage).2 ∧
      ∀ x, x ∈ (process_set_cookie_header_with_signal k gtk_dialog_run (some db) cookiePolicy
          jar inMessage).jar ↔
        x ∈ jar ∨
          (x ∈ jar_additions (_cookie_permission_manager_process_set_cookie_header k
              gtk_dialog_run (some db) cookiePolicy inMessage).2 ∧
            _cookie_permission_manager_get_policy k
              (_cookie_permission_manager_process_set_cookie_header k gtk_dialog_run (some db)
                cookiePolicy inMessage).1 x ≠ k.block) := by
  obtain ⟨pre, -, h2, h3, h4⟩ := with_signal_eq_foldl k gtk_dialog_run (some db) cookiePolicy
    jar inMessage
  have hfold := foldl_add_decided k gtk_dialog_run (jar ++ inMessage.cookies) hjar
    (jar_additions (_cookie_permission_manager_process_set_cookie_header k gtk_dialog_run
      (some db) cookiePolicy inMessage).2)
    ⟨(_cookie_permission_manager_process_set_cookie_header k gtk_dialog_run (some db)
      cookiePolicy inMessage).1, jar, pre⟩
    (fun c hc => List.mem_append_right _
      (additions_subset_cookies k gtk_dialog_run (some db) cookiePolicy inMessage c hc))
    (fun x hx => List.mem_append_left _ hx)
    (added_cookies_decided k gtk_dialog_run hrun db cookiePolicy inMessage)
  rw [h4]
  exact ⟨hfold.1, hfold.2.1.trans h2, hfold.2.2.1.trans h3, hfold.2.2.2⟩

/-- With the database closed nothing is stored: a cookie the prompt of the
response handler accepted is handed to the jar, and the handler of the
`changed` signal, finding it undetermined still, runs the dialog for it a
second time. -/
theorem closed_database_prompts_again :
    prompts (process_set_cookie_header_with_signal enum_codes (fun _ => enum_codes.accept)
        none SoupCookieJarAcceptPolicy.always []
        ⟨[⟨".example.com".toList, "a".toList⟩], none⟩).events =
        [[⟨".example.com".toList, "a".toList⟩], [⟨".example.com".toList, "a".toList⟩]] ∧
      (process_set_cookie_header_with_signal enum_codes (fun _ => enum_codes.accept)
        none SoupCookieJarAcceptPolicy.always []
        ⟨[⟨".example.com".toList, "a".toList⟩], none⟩).jar =
        [⟨".example.com".toList, "a".toList⟩] := by
  decide

/-! ## C17: what the answer of the prompt can change -/

/-- C17, the claim as stated fails: `example.com` is stored with Accept, the
jar is empty and accepts every cookie, and the response sets a cookie for
`.example.com`, which resolves to Accept, and one for `www.example.com`, which
is undetermined. When the prompt returns Accept, both cookies are in the jar
afterwards. When it returns Block, the row `www.example.com` is written with
Block; the cookie for `.example.com` is handed to the jar, the handler of the
`changed` signal looks it up, finds the new row first and deletes it: the jar
is empty afterwards. -/
theorem C17_counterexample :
    _cookie_permission_manager_get_policy enum_codes example_store
        ⟨".example.com".toList, "a".toList⟩ = enum_codes.accept ∧
      (⟨".example.com".toList, "a".toList⟩ : SoupCookie) ∈ example_response.cookies ∧
      passes_accept_policy SoupCookieJarAcceptPolicy.always example_response.first_party
        ⟨".example.com".toList, "a".toList⟩ = true ∧
      (process_set_cookie_header_with_signal enum_codes (fun _ => enum_codes.accept)
        example_store SoupCookieJarAcceptPolicy.always [] example_response).jar =
        [⟨"www.example.com".toList, "b".toList⟩, ⟨".example.com".toList, "a".toList⟩] ∧
      (process_set_cookie_header_with_signal enum_codes (fun _ => enum_codes.block)
        example_store SoupCookieJarAcceptPolicy.always [] example_response).jar = [] ∧
      (process_set_cookie_header_with_signal enum_codes (fun _ => enum_codes.block)
        example_store SoupCookieJarAcceptPolicy.always [] example_response).database =
        some [⟨"example.com".toList, enum_codes.accept⟩,
          ⟨"www.example.com".toList, enum_codes.block⟩] ∧
      jar_deletions (process_set_cookie_header_with_signal enum_codes
        (fun _ => enum_codes.block) example_store SoupCookieJarAcceptPolicy.always []
        example_response).events = [⟨".example.com".toList, "a".toList⟩] := by
  decide


/-- C17, amended: for every response, store, accept policy of the jar and jar,
and for two prompts that may answer differently, with every
`soup_cookie_jar_add_cookie` run on the jar and its `changed` signal handled:
(1) the handler hands the same cookies to the jar as its own calls say;
(2) a cookie whose policy is Block, Accept or accept for session is handed to
the jar the same number of times in both runs, as often as it stands on the
accepted list; (3) a cookie whose policy is Block is never handed to the jar
and, when the jar did not hold it, is not in the jar afterwards; (4) a cookie
of the response whose policy is Accept or accept for session and that passes
the filter is handed to the jar whatever the prompt returns; (5) on an open
database, with a dialog that answers with one of its buttons or is closed and
a jar that takes no two cookies at hand for one, the signal handler asks and
writes nothing, and the jar afterwards holds what it held and the cookies
handed to it whose lookup in the database after the prompt is not Block;
(6) if moreover the stored domains are unique and the prompt did not answer
Block, every cookie of (4) is in the jar afterwards. -/
theorem C17_add_calls_and_jar_outcome (k : PolicyCodes)
    (run1 run2 : Message → Int) (database : Option Store)
    (cookiePolicy : SoupCookieJarAcceptPolicy) (jar : CookieJar) (inMessage : SoupMessage)
    (c : SoupCookie) :
    jar_additions (process_set_cookie_header_with_signal k run1 database cookiePolicy jar
        inMessage).events =
      jar_additions (_cookie_permission_manager_process_set_cookie_header k run1 database
        cookiePolicy inMessage).2 ∧
    (_cookie_permission_manager_get_policy k database c = k.block ∨
        _cookie_permission_manager_get_policy k database c = k.accept ∨
        _cookie_permission_manager_get_policy k database c = k.accept_for_session →
      (jar_additions (process_set_cookie_header_with_signal k run1 database cookiePolicy jar
          inMessage).events).count c =
        (jar_additions (process_set_cookie_header_with_signal k run2 database cookiePolicy jar
          inMessage).events).count c ∧
      (jar_additions (process_set_cookie_header_with_signal k run1 database cookiePolicy jar
          inMessage).events).count c =
        (accepted_batch k database cookiePolicy inMessage).count c) ∧
    (_cookie_permission_manager_get_policy k database c = k.block →
      c ∉ jar_additions (process_set_cookie_header_with_signal k run1 database cookiePolicy
          jar inMessage).events ∧
        (c ∉ jar →
          c ∉ (process_set_cookie_header_with_signal k run1 database cookiePolicy jar
            inMessage).jar)) ∧
    (_cookie_permission_manager_get_policy k database c = k.accept ∨
        _cookie_permission_manager_get_policy k database c = k.accept_for_session →
      c ∈ inMessage.cookies →
      passes_accept_policy cookiePolicy inMessage.first_party c = true →
      c ∈ jar_additions (process_set_cookie_header_with_signal k run1 database cookiePolicy
        jar inMessage).events) ∧
    (database ≠ none → dialog_answers k run1 → cookies_distinct (jar ++ inMessage.cookies) →
      (process_set_cookie_header_with_signal k run1 database cookiePolicy jar
          inMessage).database =
        (_cookie_permission_manager_process_set_cookie_header k run1 database cookiePolicy
          inMessage).1 ∧
      prompts (process_set_cookie_header_with_signal k run1 database cookiePolicy jar
          inMessage).events =
        prompts (_cookie_permission_manager_process_set_cookie_header k run1 database
          cookiePolicy inMessage).2 ∧
      sql_writes (process_set_cookie_header_with_signal k run1 database cookiePolicy jar
          inMessage).events =
        sql_writes (_cookie_permission_manager_process_set_cookie_header k run1 database
          cookiePolicy inMessage).2 ∧
      ∀ x, x ∈ (process_set_cookie_header_with_signal k run1 database cookiePolicy jar
          inMessage).jar ↔
        x ∈ jar ∨
          (x ∈ jar_additions (_cookie_permission_manager_process_set_cookie_header k run1
              database cookiePolicy inMessage).2 ∧
            _cookie_permission_manager_get_policy k
              (_cookie_permission_manager_process_set_cookie_header k run1 database
                cookiePolicy inMessage).1 x ≠ k.block)) ∧
    (∀ db, database = some db → unique_index db → dialog_answers k run1 →
      cookies_distinct (jar ++ inMessage.cookies) →
      run1 (ask_message (classified k database cookiePolicy inMessage).1) ≠ k.block →
      _cookie_permission_manager_get_policy k database c = k.accept ∨
        _cookie_permission_manager_get_policy k database c = k.accept_for_session →
      c ∈ inMessage.cookies →
      passes_accept_policy cookiePolicy inMessage.first_party c = true →
      c ∈ (process_set_cookie_header_with_signal k run1 database cookiePolicy jar
        inMessage).jar) := by
  obtain ⟨-, -, -, -, hab, hsb⟩ := codes_facts k
  have hadd1 := with_signal_additions k run1 database cookiePolicy jar inMessage
  have hadd2 := with_signal_additions k run2 database cookiePolicy jar inMessage
  have hown := add_calls_of_decided_cookie k run1 run2 database cookiePolicy inMessage c
  refine ⟨hadd1, ?_, ?_, ?_, ?_, ?_⟩
  · intro h
    rw [hadd1, hadd2]
    exact hown.1 h
  · intro hb
    rw [hadd1]
    refine ⟨hown.2.1 hb, ?_⟩
    intro hj hc
    rcases with_signal_jar_subset k run1 database cookiePolicy jar inMessage c hc with h | h
    · exact hj h
    · exact hown.2.1 hb h
  · intro ha hc hp
    rw [hadd1]
    exact hown.2.2 ha hc hp
  · intro hopen hrun hjar
    cases database with
    | none => exact absurd rfl hopen
    | some db => exact with_signal_open k run1 hrun db cookiePolicy jar inMessage hjar
  · intro db hdb huniq hrun hjar hnb ha hc hp
    subst hdb
    rw [(with_signal_open k run1 hrun db cookiePolicy jar inMessage hjar).2.2.2 c]
    right
    refine ⟨hown.2.2 ha hc hp, ?_⟩
    have hkeep : ∀ p : Int, (p = k.accept ∨ p = k.accept_for_session) → p ≠ k.block := by
      intro p hp2 e
      rcases hp2 with h | h
      · exact hab (h.symm.trans e)
      · exact hsb (h.symm.trans e)
    rcases process_database k run1 (some db) cookiePolicy inMessage with h | h
    · rw [h]; exact hkeep _ ha
    · rw [h]
      exact hkeep _ (accepted_after_ask k run1 hrun db huniq _ c hnb ha)

/-- C17, the amended statement at concrete inputs. With `example.com` stored
as Accept, an empty jar and the cookies `.example.com` and `www.example.com`:
whether the prompt returns Block or Accept, the cookie for `.example.com` is
handed to the jar once; after the prompt returned Block its lookup gives
Block, and it is not in the jar afterwards; after the prompt returned Accept
it is in the jar. With `bad.com` stored as Block, the cookie for `bad.com` is
neither handed to the jar nor in it afterwards although the prompt returns
Accept. -/
theorem C17_add_calls_and_jar_outcome_witness :
    ((jar_additions (process_set_cookie_header_with_signal enum_codes
          (fun _ => enum_codes.block) example_store SoupCookieJarAcceptPolicy.always []
          example_response).events).count ⟨".example.com".toList, "a".toList⟩ =
        (jar_additions (process_set_cookie_header_with_signal enum_codes
          (fun _ => enum_codes.accept) example_store SoupCookieJarAcceptPolicy.always []
          example_response).events).count ⟨".example.com".toList, "a".toList⟩ ∧
      (jar_additions (process_set_cookie_header_with_signal enum_codes
          (fun _ => enum_codes.block) example_store SoupCookieJarAcceptPolicy.always []
          example_response).events).count ⟨".example.com".toList, "a".toList⟩ =
        (accepted_batch enum_codes example_store SoupCookieJarAcceptPolicy.always
          example_response).count ⟨".example.com".toList, "a".toList⟩) ∧
      (⟨".example.com".toList, "a".toList⟩ : SoupCookie) ∈
        jar_additions (process_set_cookie_header_with_signal enum_codes
          (fun _ => enum_codes.block) example_store SoupCookieJarAcceptPolicy.always []
          example_response).events ∧
      (⟨".example.com".toList, "a".toList⟩ : SoupCookie) ∉
        (process_set_cookie_header_with_signal enum_codes (fun _ => enum_codes.block)
          example_store SoupCookieJarAcceptPolicy.always [] example_response).jar ∧
      (⟨".example.com".toList, "a".toList⟩ : SoupCookie) ∈
        (process_set_cookie_header_with_signal enum_codes (fun _ => enum_codes.accept)
          example_store SoupCookieJarAcceptPolicy.always [] example_response).jar ∧
      ((⟨"bad.com".toList, "x".toList⟩ : SoupCookie) ∉
          jar_additions (process_set_cookie_header_with_signal enum_codes
            (fun _ => enum_codes.accept) (some [⟨"bad.com".toList, enum_codes.block⟩])
            SoupCookieJarAcceptPolicy.always []
            ⟨[⟨"bad.com".toList, "x".toList⟩, ⟨"new.com".toList, "z".toList⟩], none⟩).events ∧
        ((⟨"bad.com".toList, "x".toList⟩ : SoupCookie) ∉ ([] : CookieJar) →
          (⟨"bad.com".toList, "x".toList⟩ : SoupCookie) ∉
            (process_set_cookie_header_with_signal enum_codes (fun _ => enum_codes.accept)
              (some [⟨"bad.com".toList, enum_codes.block⟩])
              SoupCookieJarAcceptPolicy.always []
              ⟨[⟨"bad.com".toList, "x".toList⟩, ⟨"new.com".toList, "z".toList⟩],
                none⟩).jar)) :=
  ⟨(C17_add_calls_and_jar_outcome enum_codes (fun _ => enum_codes.block)
      (fun _ => enum_codes.accept) example_store SoupCookieJarAcceptPolicy.always []
      example_response ⟨".example.com".toList, "a".toList⟩).2.1 (by decide),
    (C17_add_calls_and_jar_outcome enum_codes (fun _ => enum_codes.block)
      (fun _ => enum_codes.accept) example_store SoupCookieJarAcceptPolicy.always []
      example_response ⟨".example.com".toList, "a".toList⟩).2.2.2.1 (by decide) (by decide)
      (by decide),
    fun hin =>
      ((((C17_add_calls_and_jar_outcome enum_codes (fun _ => enum_codes.block)
        (fun _ => enum_codes.accept) example_store SoupCookieJarAcceptPolicy.always []
        example_response ⟨".example.com".toList, "a".toList⟩).2.2.2.2.1 (by decide)
        (fun _ => Or.inr (Or.inr (Or.inr rfl))) (by unfold cookies_distinct; decide)).2.2.2
        ⟨".example.com".toList, "a".toList⟩).1 hin).elim (fun h => absurd h (by decide))
        (fun h => h.2 (by decide)),
    (C17_add_calls_and_jar_outcome enum_codes (fun _ => enum_codes.accept)
      (fun _ => enum_codes.block) example_store SoupCookieJarAcceptPolicy.always []
      example_response ⟨".example.com".toList, "a".toList⟩).2.2.2.2.2
      [⟨"example.com".toList, enum_codes.accept⟩] rfl (by unfold unique_index; decide)
      (fun _ => Or.inr (Or.inl rfl)) (by unfold cookies_distinct; decide) (by decide)
      (by decide) (by decide) (by decide),
    (C17_add_calls_and_jar_outcome enum_codes (fun _ => enum_codes.accept)
      (fun _ => enum_codes.block) (some [⟨"bad.com".toList, enum_codes.block⟩])
      SoupCookieJarAcceptPolicy.always []
      ⟨[⟨"bad.com".toList, "x".toList⟩, ⟨"new.com".toList, "z".toList⟩], none⟩
      ⟨"bad.com".toList, "x".toList⟩).2.2.1 (by decide)⟩

end CookiePermissionManager
